import Mathlib

/-!
# Verification of the integer-spreadsheet engine

A shallow embedding, in Lean 4, of the C spreadsheet engine
(`sheet.h`/`sheet.c`, `parser.c`, `main.c`): the cell-name codec, the
surface syntax validator, the lexical dependency extractor, the
dependency graph operations, cycle detection, the recursive-descent
formula evaluator with range aggregates, error poisoning, selective
recalculation and the edit transaction `updateCellFormula`.

Modelling conventions:
* C strings are `List Char`; the status-message buffer is returned as a
  `String` instead of written through a pointer.
* The grid is modelled as a total function `ℕ × ℕ → Cell`.  Cells outside
  `totalRows × totalCols` exist as pristine "zombie" cells; this gives a
  defined meaning to the C code's unchecked accesses (which in C are
  undefined behaviour).  All bounds checks that the C code does perform
  are modelled faithfully.
* Machine `int` arithmetic is modelled as `ℤ` with an explicit 32-bit
  wrap (`wrap32`) wherever the C evaluation overflows or casts narrow;
  `long long` accumulation that cannot overflow is modelled as exact `ℤ`.
* Recursions that in C run on the call stack or in unbounded loops are
  modelled with an explicit fuel parameter; the fuel supplied by the
  engine's entry points exceeds every depth reachable on the sheets we
  evaluate, and the theorems that mention those functions either fix
  concrete inputs or hold for every fuel.
* Real time (`SLEEP`'s suspension) is not modelled; only the value and
  error state of `SLEEP` are, as in the claims.
-/

namespace Sheet

/-! ## C character classification (`ctype.h` as used by the program) -/

def isSpaceC (ch : Char) : Bool :=
  ch.toNat = 32 || (9 ≤ ch.toNat && ch.toNat ≤ 13)

def isDigitC (ch : Char) : Bool :=
  48 ≤ ch.toNat && ch.toNat ≤ 57

def isAlphaC (ch : Char) : Bool :=
  (65 ≤ ch.toNat && ch.toNat ≤ 90) || (97 ≤ ch.toNat && ch.toNat ≤ 122)

def isAlnumC (ch : Char) : Bool :=
  isAlphaC ch || isDigitC ch

def toUpperC (ch : Char) : Char :=
  if 97 ≤ ch.toNat && ch.toNat ≤ 122 then Char.ofNat (ch.toNat - 32) else ch

/-- Value of a letter in the column code, after `toupper`: `A=1 … Z=26`. -/
def letterVal (ch : Char) : ℕ :=
  (toUpperC ch).toNat - 'A'.toNat + 1

def digitVal (ch : Char) : ℕ :=
  ch.toNat - '0'.toNat

/-! ## Cell-name codec (`cellNameToCoords`, `coordsToCellName`) -/

/-- The letter-consuming loop of `cellNameToCoords`:
`colVal = colVal * 26 + (toupper(ch) - 'A' + 1)`. -/
def colAcc : ℕ → List Char → ℕ × List Char
  | acc, [] => (acc, [])
  | acc, ch :: rest =>
    if isAlphaC ch then colAcc (acc * 26 + letterVal ch) rest else (acc, ch :: rest)

/-- The digit-consuming loop of `cellNameToCoords`:
`rowVal = rowVal * 10 + (ch - '0')`. -/
def rowAcc : ℕ → List Char → ℕ × List Char
  | acc, [] => (acc, [])
  | acc, ch :: rest =>
    if isDigitC ch then rowAcc (acc * 10 + digitVal ch) rest else (acc, ch :: rest)

/-- `cellNameToCoords` from `sheet.c`: a non-empty letter run (bijective
base 26, case-insensitive), then a non-empty digit run (1-based row),
then end of string; returns the 0-based `(row, col)`. -/
def cellNameToCoords (s : List Char) : Option (ℕ × ℕ) :=
  let p := colAcc 0 s
  if p.1 = 0 then none
  else
    let q := rowAcc 0 p.2
    if q.1 = 0 then none
    else if q.2 = [] then some (q.1 - 1, p.1 - 1) else none

/-- Little-endian letters of `coordsToCellName`'s column loop, with a
structural fuel argument (`fuel ≥ n` always suffices since the argument
shrinks by a factor of 26 each step):
`rem = (n-1) % 26; push 'A'+rem; n = (n-1)/26`. -/
def toB26F : ℕ → ℕ → List Char
  | _, 0 => []
  | 0, _ + 1 => []
  | fuel + 1, n + 1 => Char.ofNat (65 + n % 26) :: toB26F fuel (n / 26)

def toB26 (n : ℕ) : List Char := toB26F n n

/-- Little-endian decimal digits, as produced for a positive `int` by
`snprintf`'s `%d`, with a structural fuel argument. -/
def toDecF : ℕ → ℕ → List Char
  | _, 0 => []
  | 0, _ + 1 => []
  | fuel + 1, n + 1 => Char.ofNat (48 + (n + 1) % 10) :: toDecF fuel ((n + 1) / 10)

def toDec (n : ℕ) : List Char := toDecF n n

/-- `coordsToCellName` from `sheet.c` (no truncation: the 20-byte buffer
never truncates a name of an in-range `int` coordinate). -/
def coordsToCellName (row col : ℕ) : List Char :=
  (toB26 (col + 1)).reverse ++ (toDec (row + 1)).reverse

/-- One step of the decoding fold for column letters. -/
def colStep (a : ℕ) (ch : Char) : ℕ := a * 26 + letterVal ch

/-- One step of the decoding fold for row digits. -/
def rowStep (a : ℕ) (ch : Char) : ℕ := a * 10 + digitVal ch


/-! ## C string helpers (`trim`, `sscanf("%d")`, `strtol`) -/

/-- Trailing-space removal (the explicit loops in `evaluateRangeFunction`). -/
def dropTrailingSpaces (s : List Char) : List Char :=
  (s.reverse.dropWhile isSpaceC).reverse

/-- The `trim` of `sheet.c` as observed by its caller.  The function
advances a local pointer past leading spaces, so the caller's buffer
keeps its leading spaces; only trailing spaces are cut.  When the string
is all spaces the buffer is left unchanged. -/
def trimC (s : List Char) : List Char :=
  if s.dropWhile isSpaceC = [] then s else dropTrailingSpaces s

/-- `sscanf(s, "%d", &x)`: skip whitespace, optional sign, at least one
digit; succeeds on any such prefix, ignoring the rest of the string. -/
def sscanfIntC (s : List Char) : Option ℤ :=
  let s1 := s.dropWhile isSpaceC
  let p : ℤ × List Char :=
    match s1 with
    | '-' :: r => (-1, r)
    | '+' :: r => (1, r)
    | r => (1, r)
  match p.2 with
  | c :: _ => if isDigitC c then some (p.1 * ((rowAcc 0 p.2).1 : ℤ)) else none
  | [] => none

/-- `strtol(s, &endptr, 10)` followed by `*endptr == '\0'`: the whole
string is whitespace, an optional sign, and at least one digit. -/
def strtolWholeC (s : List Char) : Bool :=
  let s1 := s.dropWhile isSpaceC
  let s2 : List Char :=
    match s1 with
    | '-' :: r => r
    | '+' :: r => r
    | r => r
  match s2 with
  | c :: _ => isDigitC c && decide (s2.dropWhile isDigitC = [])
  | [] => false

/-! ## Data model (`Cell`, `Spreadsheet`) -/

/-- 32-bit two's-complement wrap, the behaviour of the compiled C `int`
arithmetic wherever it overflows and of the `(int)` narrowing casts. -/
def wrap32 (z : ℤ) : ℤ := (z + 2 ^ 31) % 2 ^ 32 - 2 ^ 31

inductive CellStatus where
  | ok
  | err
  deriving DecidableEq, Repr

/-- One cell: computed value, owned formula text, status, and the two
adjacency lists (`dependencies` = cells this formula reads, `dependents`
= cells whose formulas read this one).  Pointers in the C arrays are
modelled as `(row, col)` coordinates, which are stable identifiers. -/
structure Cell where
  value : ℤ
  formula : Option (List Char)
  status : CellStatus
  dependencies : List (ℕ × ℕ)
  dependents : List (ℕ × ℕ)
  deriving DecidableEq, Repr

def Cell.initial : Cell :=
  { value := 0, formula := none, status := .ok, dependencies := [], dependents := [] }

/-- The spreadsheet.  `cells` is total over all coordinates: coordinates
outside the `totalRows × totalCols` grid are pristine "zombie" cells,
giving a defined meaning to the C code's unchecked accesses. -/
structure Spreadsheet where
  totalRows : ℕ
  totalCols : ℕ
  cells : ℕ × ℕ → Cell

def Spreadsheet.cell (S : Spreadsheet) (p : ℕ × ℕ) : Cell := S.cells p

/-- Point update of one cell. -/
def setCellF (S : Spreadsheet) (p : ℕ × ℕ) (g : Cell → Cell) : Spreadsheet :=
  { S with cells := fun q => if q = p then g (S.cells q) else S.cells q }

/-- `createSpreadsheet`: all cells start `value=0, status=OK`, no
formula, no edges. -/
def createSpreadsheet (rows cols : ℕ) : Spreadsheet :=
  { totalRows := rows, totalCols := cols, cells := fun _ => Cell.initial }

def inBounds (S : Spreadsheet) (p : ℕ × ℕ) : Prop :=
  p.1 < S.totalRows ∧ p.2 < S.totalCols

instance (S : Spreadsheet) (p : ℕ × ℕ) : Decidable (inBounds S p) := by
  unfold inBounds; infer_instance

/-- Row-major list of the in-bounds coordinates. -/
def gridCoords (S : Spreadsheet) : List (ℕ × ℕ) :=
  (List.range S.totalRows).flatMap fun r => (List.range S.totalCols).map fun c => (r, c)

/-- Total length of all in-bounds dependents lists; with the cell count
it bounds the step count of any reverse-graph traversal. -/
def totalDependents (S : Spreadsheet) : ℕ :=
  (gridCoords S).foldl (fun a p => a + (S.cell p).dependents.length) 0

/-! ## Surface syntax validator (`validformula`) -/

/-- The range-function arm of `validformula` (`FUNC(r1:r2)` checks).
Returns 0 for valid, 1 for invalid, as the C function does. -/
def validRange (S : Spreadsheet) (f : List Char) : ℕ :=
  let pos := (f.takeWhile (fun ch => ch ≠ '(')).length
  if f.getLast? ≠ some ')' then 1
  else
    let inner := trimC ((f.drop (pos + 1)).dropLast)
    match inner.takeWhile (fun ch => ch ≠ ':'), inner.dropWhile (fun ch => ch ≠ ':') with
    | _, [] => 1
    | before, _ :: after =>
      let cell1 := trimC before
      let cell2 := trimC after
      match cellNameToCoords cell1 with
      | none => 1
      | some (row1, col1) =>
        match cellNameToCoords cell2 with
        | none => 1
        | some (row2, col2) =>
          if row1 ≥ S.totalRows ∨ col1 ≥ S.totalCols then 1
          else if row2 ≥ S.totalRows ∨ col2 ≥ S.totalCols then 1
          else if row1 > row2 ∨ col1 > col2 then 1
          else 0

/-- The `SLEEP(x)` arm of `validformula`: `x` must be an integer (per
`sscanf`) or an in-bounds cell reference. -/
def validSleep (S : Spreadsheet) (f : List Char) : ℕ :=
  if f.getLast? ≠ some ')' then 1
  else
    let inner := trimC ((f.drop 6).dropLast)
    match sscanfIntC inner with
    | some _ => 0
    | none =>
      match cellNameToCoords inner with
      | none => 1
      | some (row, col) =>
        if row ≥ S.totalRows ∨ col ≥ S.totalCols then 1 else 0

/-- The binary-expression arm of `validformula`: first operator found
(after an optional leading `-`) splits the formula; each side must be an
integer per `sscanf` or an in-bounds cell reference.  Note that
`sscanf("%d")` accepts any string with an integer prefix, e.g. `5X`. -/
def validBinary (S : Spreadsheet) (f : List Char) : ℕ :=
  let start := if f.head? = some '-' then 1 else 0
  match (f.drop start).findIdx? (fun ch => ch = '+' || ch = '-' || ch = '*' || ch = '/') with
  | none => 1
  | some j =>
    let opIndex := start + j
    let left := trimC (f.take opIndex)
    let right := trimC (f.drop (opIndex + 1))
    let isLeftInt := (sscanfIntC left).isSome
    let isRightInt := (sscanfIntC right).isSome
    let leftCell : ℕ :=
      if isLeftInt then 0
      else
        match cellNameToCoords left with
        | some (r, c) => if r ≥ S.totalRows ∨ c ≥ S.totalCols then 2 else 1
        | none => 0
    if leftCell = 2 then 1
    else
      let rightCell : ℕ :=
        if isRightInt then 0
        else
          match cellNameToCoords right with
          | some (r, c) => if r ≥ S.totalRows ∨ c ≥ S.totalCols then 2 else 1
          | none => 0
      if rightCell = 2 then 1
      else if (isLeftInt ∨ leftCell = 1) ∧ (isRightInt ∨ rightCell = 1) then 0 else 1

/-- `validformula` from `sheet.c`: 0 = valid, 1 = invalid.  (The detailed
diagnostic written into `statusMsg` is dead: `updateCellFormula`
immediately overwrites it with `"Unrecognized"`.) -/
def validformula (S : Spreadsheet) (f : List Char) : ℕ :=
  if f = [] then 1
  else
    match cellNameToCoords f with
    | some (row, col) =>
      if row ≥ S.totalRows ∨ col ≥ S.totalCols then 1 else 0
    | none =>
      if strtolWholeC f then 0
      else if f.take 4 = "MAX(".toList ∨ f.take 4 = "MIN(".toList ∨
          f.take 4 = "SUM(".toList ∨ f.take 4 = "AVG(".toList ∨
          f.take 6 = "STDEV(".toList then
        validRange S f
      else if f.take 6 = "SLEEP(".toList then
        validSleep S f
      else
        validBinary S f

/-! ## Lexical dependency extractor (`extractDependencies`) -/

/-- Row-major enumeration of the inclusive rectangle, as the two nested
`for` loops produce it. -/
def rectCoords (r1 c1 r2 c2 : ℕ) : List (ℕ × ℕ) :=
  (List.range' r1 (r2 + 1 - r1)).flatMap fun r =>
    (List.range' c1 (c2 + 1 - c1)).map fun c => (r, c)

/-- The scanning loop of `extractDependencies`: skip to the next letter,
read a maximal letter run then digit run (truncated to 19 characters by
the fixed buffers), optionally a `:` and a second such run; ranges are
normalised per axis and expanded to every coordinate of the rectangle;
runs that do not decode as cell names are skipped silently.  The fuel is
structural; each iteration consumes at least one character, so
`s.length + 1` always suffices. -/
def extractLoopF : ℕ → List Char → List (ℕ × ℕ)
  | 0, _ => []
  | fuel + 1, s =>
    match s.dropWhile (fun ch => !isAlphaC ch) with
    | [] => []
    | c :: t =>
      let letters := c :: t.takeWhile isAlphaC
      let rest1 := t.dropWhile isAlphaC
      let digits := rest1.takeWhile isDigitC
      let rest2 := rest1.dropWhile isDigitC
      match rest2 with
      | ':' :: r3 =>
        let letters2 := r3.takeWhile isAlphaC
        let r4 := r3.dropWhile isAlphaC
        let digits2 := r4.takeWhile isDigitC
        let r5 := r4.dropWhile isDigitC
        (match cellNameToCoords ((letters ++ digits).take 19),
            cellNameToCoords ((letters2 ++ digits2).take 19) with
          | some (r1, c1), some (r2, c2) =>
            rectCoords (min r1 r2) (min c1 c2) (max r1 r2) (max c1 c2)
          | _, _ => []) ++ extractLoopF fuel r5
      | _ =>
        (match cellNameToCoords ((letters ++ digits).take 19) with
          | some rc => [rc]
          | none => []) ++ extractLoopF fuel rest2

/-- `extractDependencies`: the C version returns pointers
`&sheet->cells[r][c]`; the sheet parameter is used only to form them, so
the model returns the coordinates themselves. -/
def extractDependencies (f : List Char) : List (ℕ × ℕ) :=
  extractLoopF (f.length + 1) f

/-! ## Dependency graph operations -/

/-- `clearDependencies`. -/
def clearDependencies (S : Spreadsheet) (p : ℕ × ℕ) : Spreadsheet :=
  setCellF S p fun c => { c with dependencies := [] }

/-- `addDependencyPointer`: append one forward edge. -/
def addDependencyPointer (S : Spreadsheet) (p dep : ℕ × ℕ) : Spreadsheet :=
  setCellF S p fun c => { c with dependencies := c.dependencies ++ [dep] }

/-- `addDependentPointer`: append one reverse edge. -/
def addDependentPointer (S : Spreadsheet) (p dep : ℕ × ℕ) : Spreadsheet :=
  setCellF S p fun c => { c with dependents := c.dependents ++ [dep] }

/-- The array manipulation of `removeDependent`: overwrite the first
occurrence with the last element and shrink by one. -/
def removeDependentArr (l : List (ℕ × ℕ)) (rc : ℕ × ℕ) : List (ℕ × ℕ) :=
  match l.findIdx? (fun d => d = rc) with
  | none => l
  | some i => (l.set i (l.getLast?.getD rc)).dropLast

/-- `removeDependent cell (depRow, depCol)`: delete one occurrence of the
coordinate from the cell's dependents array (swap-with-last removal). -/
def removeDependent (S : Spreadsheet) (p rc : ℕ × ℕ) : Spreadsheet :=
  setCellF S p fun c => { c with dependents := removeDependentArr c.dependents rc }

/-- The edge-removal sweep of `updateCellFormula`: for each entry `d` of
a dependency list (in order), delete one occurrence of `p` from `d`'s
dependents. -/
def removeEdges (S : Spreadsheet) (p : ℕ × ℕ) (l : List (ℕ × ℕ)) : Spreadsheet :=
  l.foldl (fun Sa d => removeDependent Sa d p) S

/-- The edge-installation sweep of `updateCellFormula`: for each entry
`d` (in order), append `d` to `p`'s dependencies and `p` to `d`'s
dependents. -/
def installEdges (S : Spreadsheet) (p : ℕ × ℕ) (l : List (ℕ × ℕ)) : Spreadsheet :=
  l.foldl (fun Sa d => addDependentPointer (addDependencyPointer Sa p d) d p) S

/-! ## Cycle detection (`hasCycle`, `hasCircularDependency`) -/

mutual

/-- `hasCycle`, entered at a cell: scan its dependencies.  The fuel is
structural and decreases on every step; the engine supplies more fuel
than any reachable number of steps (the nesting depth is bounded because
each nested call first marks a previously unvisited cell and only
in-bounds cells have outgoing edges, and each level walks one finite
dependency list). -/
def cycleFrom (S : Spreadsheet) (target : ℕ × ℕ) :
    ℕ → ((ℕ × ℕ) → Bool) → (ℕ × ℕ) → Bool × ((ℕ × ℕ) → Bool)
  | 0, vis, _ => (false, vis)
  | fuel + 1, vis, p => cycleDeps S target fuel vis (S.cell p).dependencies

/-- The `for` loop over one cell's dependencies inside `hasCycle`. -/
def cycleDeps (S : Spreadsheet) (target : ℕ × ℕ) :
    ℕ → ((ℕ × ℕ) → Bool) → List (ℕ × ℕ) → Bool × ((ℕ × ℕ) → Bool)
  | 0, vis, _ => (false, vis)
  | _ + 1, vis, [] => (false, vis)
  | fuel + 1, vis, d :: rest =>
    if d = target then (true, vis)
    else if vis d then cycleDeps S target fuel vis rest
    else
      let r := cycleFrom S target fuel (fun q => q = d || vis q) d
      if r.1 then r else cycleDeps S target fuel r.2 rest

end

/-- Total length of all in-bounds dependency lists; with the cell count
it bounds the step count of any forward-graph traversal. -/
def totalDependencies (S : Spreadsheet) : ℕ :=
  (gridCoords S).foldl (fun a p => a + (S.cell p).dependencies.length) 0

/-- `hasCircularDependency`: depth-first search from the cell with a
fresh visited map, true iff the cell is reached again. -/
def hasCircularDependency (S : Spreadsheet) (p : ℕ × ℕ) : Bool :=
  (cycleFrom S p
    ((S.totalRows * S.totalCols + 2) * (totalDependencies S + 2))
    (fun _ => false) p).1

/-! ## Range aggregates (`evaluateRangeFunction`) -/

/-- `strchr`: split at the first occurrence of a character (the part
before it, and the part after it). -/
def splitAtChar (target : Char) : List Char → Option (List Char × List Char)
  | [] => none
  | c :: t =>
    if c = target then some ([], t)
    else (splitAtChar target t).map fun p => (c :: p.1, p.2)

/-- The scanning loop over the range: aborts with error 3 at the first
`ERROR` cell, otherwise accumulates the `long long` sum (exact — it
cannot overflow for any realisable range), running min/max, and count. -/
def scanRange (S : Spreadsheet) : List (ℕ × ℕ) → ℤ × ℤ × ℤ × ℕ → Except ℕ (ℤ × ℤ × ℤ × ℕ)
  | [], acc => .ok acc
  | p :: rest, (sum, mn, mx, cnt) =>
    if (S.cell p).status = .err then .error 3
    else
      let v := (S.cell p).value
      scanRange S rest (sum + v, min mn v, max mx v, cnt + 1)

/-- The first loop of the `STDEV` branch: the sum recomputed in a plain
`int`, which wraps. -/
def stdevSumLoop (S : Spreadsheet) (coords : List (ℕ × ℕ)) : ℤ :=
  coords.foldl (fun a p => wrap32 (a + (S.cell p).value)) 0

/-- The second loop of the `STDEV` branch: squared deviations from the
integer-truncated mean, each squared in `int` arithmetic (wrapping), and
accumulated into a `double` — exact for every realisable range, so
modelled as the exact integer sum (the fraction's numerator). -/
def stdevVarLoop (S : Spreadsheet) (coords : List (ℕ × ℕ)) (mean : ℤ) : ℤ :=
  coords.foldl
    (fun q p =>
      q + wrap32 (wrap32 ((S.cell p).value - mean) * wrap32 ((S.cell p).value - mean)))
    0

/-- Upward search for the least `z` with `4a < (2z+1)² b`, i.e. for
`round_half_away_from_zero (√(a/b))`. -/
def rshaFrom (a b : ℕ) : ℕ → ℕ → ℕ
  | 0, z => z
  | fuel + 1, z => if 4 * a < (2 * z + 1) ^ 2 * b then z else rshaFrom a b fuel (z + 1)

/-- `(int)round(sqrt(num/den))` for a fraction with nonnegative value:
the integer nearest to the real square root, halves rounded away from
zero (`round` in C rounds half away from zero; the `double` computation
is exact at every scale the engine can produce). -/
def roundSqrtFrac (num : ℤ) (den : ℕ) : ℤ :=
  (rshaFrom num.toNat den (num.toNat + 2) 0 : ℕ)

/-- The aggregate dispatch of `evaluateRangeFunction`, after the range
string has been decoded to its rectangle: the scanning loop (erroring at
the first `ERROR` cell), the empty-range guard, and the per-function
result. -/
def rangeDispatch (S : Spreadsheet) (funcName : List Char) (coords : List (ℕ × ℕ)) : ℤ × ℕ :=
  match scanRange S coords (0, 2147483647, -2147483648, 0) with
  | .error e => (0, e)
  | .ok (sum, mn, mx, cnt) =>
    if cnt = 0 then (0, 1)
    else if funcName = "MIN".toList then (mn, 0)
    else if funcName = "MAX".toList then (mx, 0)
    else if funcName = "SUM".toList then (wrap32 sum, 0)
    else if funcName = "AVG".toList then (wrap32 (Int.tdiv sum cnt), 0)
    else if funcName = "STDEV".toList then
      let isum := stdevSumLoop S coords
      let mean := Int.tdiv isum cnt
      (roundSqrtFrac (stdevVarLoop S coords mean) cnt, 0)
    else (0, 1)

/-- `evaluateRangeFunction` from `parser.c`.  Returns `(value, error)`
with error 0 = none, 1 = malformed, 2 = reversed range, 3 = an `ERROR`
cell inside the range. -/
def evaluateRangeFunction (S : Spreadsheet) (funcName rangeStr : List Char) : ℤ × ℕ :=
  match splitAtChar ':' rangeStr with
  | none => (0, 1)
  | some (beforeColon, afterColon) =>
    if beforeColon.length ≥ 20 then (0, 1)
    else
      let cell1 := dropTrailingSpaces beforeColon
      let cell2 := dropTrailingSpaces (afterColon.take 19)
      match cellNameToCoords cell1, cellNameToCoords cell2 with
      | some (startRow, startCol), some (endRow, endCol) =>
        if startRow > endRow ∨ startCol > endCol then (0, 2)
        else rangeDispatch S funcName (rectCoords startRow startCol endRow endCol)
      | _, _ => (0, 1)

/-! ## Recursive-descent evaluator (`parseExpr` / `parseTerm` / `parseFactor`) -/

/-- Parse state: value computed so far, remaining input, error flag
(0 none, 1 parse, 2 bad range, 3 div-zero/propagated, 4 out-of-bounds;
99 marks fuel exhaustion, unreachable from the entry points). -/
structure PRes where
  val : ℤ
  rest : List Char
  err : ℕ
  deriving DecidableEq, Repr

/-- The digit-accumulation of a literal: `number = number * 10 + d` in
`int` arithmetic. -/
def numAccC (digits : List Char) : ℤ :=
  digits.foldl (fun a d => wrap32 (a * 10 + (digitVal d : ℤ))) 0

mutual

/-- `parseExpr`: a term, the `+`/`-` chain, then the leftover check —
end of input and `)` are accepted, anything else sets error 1 (but the
computed value is still returned, as in the C code). -/
def parseExprF (S : Spreadsheet) (fuel : ℕ) (s : List Char) : PRes :=
  match fuel with
  | 0 => ⟨0, s, 99⟩
  | fuel + 1 =>
    let r := parseTermF S fuel s
    if r.err ≠ 0 then r
    else
      let r2 := exprLoopF S fuel r.val (r.rest.dropWhile isSpaceC)
      if r2.err ≠ 0 then r2
      else
        let s3 := r2.rest.dropWhile isSpaceC
        match s3 with
        | [] => ⟨r2.val, s3, 0⟩
        | ch :: _ =>
          if ch = ')' then ⟨r2.val, s3, 0⟩
          else if isSpaceC ch then ⟨r2.val, s3, 0⟩
          else ⟨r2.val, s3, 1⟩

/-- The `+`/`-` loop of `parseExpr`; the input starts space-skipped. -/
def exprLoopF (S : Spreadsheet) (fuel : ℕ) (acc : ℤ) (s : List Char) : PRes :=
  match fuel with
  | 0 => ⟨0, s, 99⟩
  | fuel + 1 =>
    match s with
    | [] => ⟨acc, [], 0⟩
    | c :: r =>
      if c = '+' then
        let t := parseTermF S fuel (r.dropWhile isSpaceC)
        if t.err ≠ 0 then ⟨0, t.rest, t.err⟩
        else exprLoopF S fuel (wrap32 (acc + t.val)) (t.rest.dropWhile isSpaceC)
      else if c = '-' then
        let t := parseTermF S fuel (r.dropWhile isSpaceC)
        if t.err ≠ 0 then ⟨0, t.rest, t.err⟩
        else exprLoopF S fuel (wrap32 (acc - t.val)) (t.rest.dropWhile isSpaceC)
      else ⟨acc, c :: r, 0⟩

/-- `parseTerm`: a factor then the `*`/`/` loop. -/
def parseTermF (S : Spreadsheet) (fuel : ℕ) (s : List Char) : PRes :=
  match fuel with
  | 0 => ⟨0, s, 99⟩
  | fuel + 1 =>
    let r := parseFactorF S fuel s
    if r.err ≠ 0 then ⟨0, r.rest, r.err⟩
    else termLoopF S fuel r.val (r.rest.dropWhile isSpaceC)

/-- The `*`/`/` loop of `parseTerm`; division by zero sets error 3,
division truncates toward zero and wraps. -/
def termLoopF (S : Spreadsheet) (fuel : ℕ) (acc : ℤ) (s : List Char) : PRes :=
  match fuel with
  | 0 => ⟨0, s, 99⟩
  | fuel + 1 =>
    match s with
    | [] => ⟨acc, [], 0⟩
    | c :: r =>
      if c = '*' then
        let f := parseFactorF S fuel (r.dropWhile isSpaceC)
        if f.err ≠ 0 then ⟨0, f.rest, f.err⟩
        else termLoopF S fuel (wrap32 (acc * f.val)) (f.rest.dropWhile isSpaceC)
      else if c = '/' then
        let f := parseFactorF S fuel (r.dropWhile isSpaceC)
        if f.err ≠ 0 then ⟨0, f.rest, f.err⟩
        else if f.val = 0 then ⟨0, f.rest, 3⟩
        else termLoopF S fuel (wrap32 (Int.tdiv acc f.val)) (f.rest.dropWhile isSpaceC)
      else ⟨acc, c :: r, 0⟩

/-- `parseFactor`: function call, cell reference, literal, or
parenthesised expression.  A missing `)` after a parenthesised
expression or a `SLEEP` argument is tolerated (the `if == ')' consume`
idiom).  `SLEEP`'s suspension is a timing side effect and is not
modelled; its value is. -/
def parseFactorF (S : Spreadsheet) (fuel : ℕ) (s : List Char) : PRes :=
  match fuel with
  | 0 => ⟨0, s, 99⟩
  | fuel + 1 =>
    let s1 := s.dropWhile isSpaceC
    match s1 with
    | [] => ⟨0, s1, 1⟩
    | c :: t =>
      if isAlphaC c then
        let letters := c :: t.takeWhile isAlphaC
        let after := t.dropWhile isAlphaC
        if letters.length ≥ 20 then ⟨0, after, 1⟩
        else
          let s2 := after.dropWhile isSpaceC
          let cellBranch : PRes :=
            let cellRef := (s1.takeWhile isAlnumC).take 19
            let rest := s1.drop cellRef.length
            match cellNameToCoords cellRef with
            | none => ⟨0, rest, 1⟩
            | some (r, ccol) =>
              if r ≥ S.totalRows ∨ ccol ≥ S.totalCols then ⟨0, rest, 4⟩
              else if (S.cell (r, ccol)).status = .err then ⟨0, rest, 3⟩
              else ⟨(S.cell (r, ccol)).value, rest, 0⟩
          match s2 with
          | [] => cellBranch
          | c2 :: t2 =>
            if c2 = '(' then
              let s3 := t2.dropWhile isSpaceC
              if letters = "SLEEP".toList then
                let r := parseExprF S fuel s3
                if r.err ≠ 0 then ⟨0, r.rest, r.err⟩
                else
                  let s4 := r.rest.dropWhile isSpaceC
                  let s5 := if s4.head? = some ')' then s4.tail else s4
                  ⟨r.val, s5, 0⟩
              else if letters = "MIN".toList ∨ letters = "MAX".toList ∨
                  letters = "SUM".toList ∨ letters = "AVG".toList ∨
                  letters = "STDEV".toList then
                match splitAtChar ')' s3 with
                | none => ⟨0, s3, 1⟩
                | some (rangeStr, afterParen) =>
                  let r := evaluateRangeFunction S letters rangeStr
                  ⟨r.1, afterParen, r.2⟩
              else
                match splitAtChar ')' s3 with
                | none => ⟨0, [], 0⟩
                | some (_, afterParen) => ⟨0, afterParen, 0⟩
            else cellBranch
      else if isDigitC c then
        ⟨numAccC (c :: t.takeWhile isDigitC), t.dropWhile isDigitC, 0⟩
      else if c = '-' && (match t with | d :: _ => isDigitC d | [] => false) then
        ⟨wrap32 (-numAccC (t.takeWhile isDigitC)), t.dropWhile isDigitC, 0⟩
      else if c = '(' then
        let r := parseExprF S fuel t
        if r.err ≠ 0 then ⟨0, r.rest, r.err⟩
        else
          let s5 := if r.rest.head? = some ')' then r.rest.tail else r.rest
          ⟨r.val, s5, 0⟩
      else ⟨0, s1, 1⟩

end

/-- `evaluateFormula` from `parser.c`: trim both ends, run `parseExpr`,
collapse errors to a zero value.  The fuel exceeds the recursion depth
of any parse of the given string. -/
def evaluateFormula (S : Spreadsheet) (f : List Char) : ℤ × ℕ :=
  let trimmed := dropTrailingSpaces (f.dropWhile isSpaceC)
  let r := parseExprF S (16 * trimmed.length + 64) trimmed
  (if r.err = 0 then r.val else 0, r.err)

/-! ## Error poisoning (`markCellAndDependentsAsError`) -/

mutual

/-- `markCellAndDependentsAsError`: stop at cells already `ERROR`;
otherwise set `status=ERROR, value=0` and recurse into the dependents.
The fuel is structural and decreases on every step. -/
def markCell : ℕ → Spreadsheet → (ℕ × ℕ) → Spreadsheet
  | 0, S, _ => S
  | fuel + 1, S, p =>
    if (S.cell p).status = .err then S
    else
      markList fuel (setCellF S p fun c => { c with status := .err, value := 0 })
        (S.cell p).dependents

/-- The loop over one cell's dependents inside the marking recursion. -/
def markList : ℕ → Spreadsheet → List (ℕ × ℕ) → Spreadsheet
  | 0, S, _ => S
  | _ + 1, S, [] => S
  | fuel + 1, S, d :: rest => markList fuel (markCell fuel S d) rest

end

/-- Entry point with fuel exceeding any reachable number of steps (each
nesting level first flips a non-`ERROR` cell, every dependent edge
points at an in-bounds cell, and each level walks one finite dependents
list). -/
def markCellAndDependentsAsError (S : Spreadsheet) (p : ℕ × ℕ) : Spreadsheet :=
  markCell ((S.totalRows * S.totalCols + 2) * (totalDependents S + 2)) S p

/-! ## Selective recalculation (`dfsCollect`, `recalcAffected`) -/

/-- The iterative DFS of `dfsCollect` (explicit stack, head = top;
pushed dependents are popped last-first).  Returns the affected cells in
collection order; the start cell is not collected. -/
def dfsLoop (S : Spreadsheet) (start : ℕ × ℕ) :
    ℕ → List (ℕ × ℕ) → ((ℕ × ℕ) → Bool) → List (ℕ × ℕ) → List (ℕ × ℕ)
  | 0, _, _, aff => aff
  | _ + 1, [], _, aff => aff
  | fuel + 1, p :: stack, vis, aff =>
    if vis p then dfsLoop S start fuel stack vis aff
    else
      dfsLoop S start fuel ((S.cell p).dependents.reverse ++ stack)
        (fun q => q = p || vis q)
        (if p ≠ start then aff ++ [p] else aff)

/-- The topological processing loop of `recalcAffected`: dequeue, re-run
the evaluator, store the result (`DIV_ZERO`/propagated errors mark the
cell `ERROR` without touching its value; parse/range errors abort the
whole cascade with a status message), then decrement the local indegrees
of the dependents, enqueueing those that reach zero. -/
def topoLoop (affected : List (ℕ × ℕ)) :
    ℕ → Spreadsheet → List ℤ → List ℕ → String → Spreadsheet × String
  | 0, S, _, _, msg => (S, msg)
  | fuel + 1, S, indeg, queue, msg =>
    match queue with
    | [] => (S, msg)
    | idx :: qrest =>
      let p := affected.getD idx (0, 0)
      let step : (Spreadsheet × String) ⊕ Spreadsheet :=
        match (S.cell p).formula with
        | none => .inr S
        | some f =>
          let r := evaluateFormula S f
          if r.2 = 3 then .inr (setCellF S p fun c => { c with status := .err })
          else if r.2 = 2 then .inl (S, "Invalid range")
          else if r.2 = 1 then .inl (S, "Error in formula")
          else .inr (setCellF S p fun c => { c with value := r.1, status := .ok })
      match step with
      | .inl out => out
      | .inr S' =>
        let dq := (S'.cell p).dependents.foldl
          (fun (acc : List ℤ × List ℕ) d =>
            match affected.findIdx? (fun a => a = d) with
            | none => acc
            | some k =>
              let newv := acc.1.getD k 0 - 1
              (acc.1.set k newv, if newv = 0 then acc.2 ++ [k] else acc.2))
          (indeg, [])
        topoLoop affected fuel S' dq.1 (qrest ++ dq.2) msg

/-- `recalcAffected` from `sheet.c`. -/
def recalcAffected (S : Spreadsheet) (row col : ℕ) (msg : String) : Spreadsheet × String :=
  let start := (row, col)
  let affected := dfsLoop S start (totalDependents S + 2) [start] (fun _ => false) []
  if affected.length = 0 then (S, msg)
  else
    let indeg : List ℤ := affected.map fun a =>
      (((S.cell a).dependencies.filter fun d => affected.contains d).length : ℤ)
    let queue0 := (List.range affected.length).filter fun i => indeg.getD i 0 = 0
    topoLoop affected (2 * affected.length + 2) S indeg queue0 msg

/-! ## The edit transaction (`updateCellFormula`) and command dispatch -/

/-- Stages S1–S4 of the edit transaction: deinstall the old edges, clear
the forward list, store the new formula text, and (unless the formula is
a plain constant of digits and minus signs) install the extracted
edges. -/
def editInstall (S : Spreadsheet) (p : ℕ × ℕ) (f : List Char) : Spreadsheet :=
  let S1 := removeEdges S p ((S.cell p).dependencies)
  let S2 := clearDependencies S1 p
  let S3 := setCellF S2 p fun c => { c with formula := some f }
  if f.all (fun ch => isDigitC ch || ch = '-') then S3
  else installEdges S3 p (extractDependencies f)

/-- The undo stages of the edit transaction after a positive cycle
check: deinstall the freshly installed edges, restore the snapshotted
formula, re-install the snapshotted edges. -/
def editRollback (S4 : Spreadsheet) (p : ℕ × ℕ) (oldFormula : Option (List Char))
    (oldDeps : List (ℕ × ℕ)) : Spreadsheet :=
  let S5 := removeEdges S4 p ((S4.cell p).dependencies)
  let S6 := clearDependencies S5 p
  let S7 := setCellF S6 p fun c => { c with formula := oldFormula }
  installEdges S7 p oldDeps

/-- `updateCellFormula` from `sheet.c`: validate, snapshot, rewire
edges, cycle-check with rollback, evaluate, poison or store, cascade. -/
def updateCellFormula (S : Spreadsheet) (row col : ℕ) (f : List Char) : Spreadsheet × String :=
  if validformula S f = 1 then (S, "Unrecognized")
  else
    let p := (row, col)
    let oldDeps := (S.cell p).dependencies
    let oldFormula := (S.cell p).formula
    let S4 := editInstall S p f
    if hasCircularDependency S4 p then
      (editRollback S4 p oldFormula oldDeps,
        "Circular dependency detected in cell " ++ String.mk (coordsToCellName row col))
    else
      let r := evaluateFormula S4 f
      if r.2 = 3 then (markCellAndDependentsAsError S4 p, "Ok")
      else if r.2 = 4 then (S4, "Range out of bounds")
      else
        let S5 := setCellF S4 p fun c => { c with value := r.1, status := .ok }
        let msg0 := if r.2 = 1 then "Invalid formula"
          else if r.2 = 2 then "Invalid range" else "Ok"
        recalcAffected S5 row col msg0

/-- The `<cellname>=<formula>` branch of `process_command` in `main.c`:
decode the cell name, bounds-check it, then run the edit transaction. -/
def processEditCommand (S : Spreadsheet) (cellName formula : List Char) : Spreadsheet × String :=
  match cellNameToCoords cellName with
  | none => (S, "Invalid cell")
  | some (row, col) =>
    if row ≥ S.totalRows ∨ col ≥ S.totalCols then (S, "Cell out of bounds")
    else updateCellFormula S row col formula

/-- One accepted edit command applied to the sheet (coordinates already
decoded; `process_command` rejects out-of-bounds targets without calling
the transaction).  The non-edit commands of the REPL only touch the
viewport fields and never the cells, so sequences of edits cover every
cell-state-relevant behaviour between commands. -/
def runEdit (S : Spreadsheet) (e : (ℕ × ℕ) × List Char) : Spreadsheet :=
  if e.1.1 < S.totalRows ∧ e.1.2 < S.totalCols then
    (updateCellFormula S e.1.1 e.1.2 e.2).1
  else S

/-- A whole session: the sheet state after a sequence of edit commands. -/
def applyCmds (S : Spreadsheet) (l : List ((ℕ × ℕ) × List Char)) : Spreadsheet :=
  l.foldl runEdit S

/-! ## Spec-side reference definitions (for refinement comparison) -/

/-- `STDEV` as claim C7 words it: population variance about the exact
(rational) mean of the values, then `round_half_away_from_zero(sqrt ·)`.
With `n` values summing to `s`, the exact population variance is
`Σ (n·v − s)² / n³`. -/
def stdevSpec (vals : List ℤ) : ℤ :=
  let n : ℤ := vals.length
  let s : ℤ := vals.foldl (· + ·) 0
  let a : ℤ := (vals.map fun v => (n * v - s) ^ 2).foldl (· + ·) 0
  roundSqrtFrac a (vals.length ^ 3)

/-! ## Concrete sheets used as counterexample states -/

/-- A 1×3 sheet holding the values `0, 0, 1` (all `OK`). -/
def stdevSheet : Spreadsheet :=
  { totalRows := 1, totalCols := 3,
    cells := fun p => if p = (0, 2) then { Cell.initial with value := 1 } else Cell.initial }

/-- A 1×4 sheet holding the value `2³⁰` in every cell (all `OK`). -/
def bigValueSheet : Spreadsheet :=
  { totalRows := 1, totalCols := 4, cells := fun _ => { Cell.initial with value := 2 ^ 30 } }

/-- Edge symmetry, counted with multiplicity: the number of `b`-entries
in `a`'s forward list equals the number of `a`-entries in `b`'s reverse
list (invariant 1 of the spec, strengthened to multisets — the engine
installs parallel edges for duplicated references). -/
def symmInv (S : Spreadsheet) : Prop :=
  ∀ a b : ℕ × ℕ,
    Multiset.count b ((S.cell a).dependencies : Multiset (ℕ × ℕ)) =
    Multiset.count a ((S.cell b).dependents : Multiset (ℕ × ℕ))

/-- Dependency coherence: every cell's forward list is exactly the
lexical extraction of its stored formula (empty when no formula is
stored). -/
def depsInv (S : Spreadsheet) : Prop :=
  ∀ p : ℕ × ℕ,
    (S.cell p).dependencies =
      match (S.cell p).formula with
      | none => []
      | some f => extractDependencies f

/-! ## Lemmas about the cell-name codec -/

theorem toNat_ofNat_small {n : ℕ} (h : n < 55296) : (Char.ofNat n).toNat = n := by
  unfold Char.ofNat
  rw [dif_pos (Or.inl h)]
  simp [Char.ofNatAux, Char.toNat, UInt32.ofNat', UInt32.toNat]

theorem toUpperC_toNat (ch : Char) :
    (toUpperC ch).toNat = if 97 ≤ ch.toNat ∧ ch.toNat ≤ 122 then ch.toNat - 32 else ch.toNat := by
  unfold toUpperC
  by_cases h : 97 ≤ ch.toNat ∧ ch.toNat ≤ 122
  · rw [if_pos (by simp only [Bool.and_eq_true, decide_eq_true_eq]; exact h), if_pos h,
      toNat_ofNat_small (by omega)]
  · rw [if_neg (by simpa using h), if_neg h]

theorem isAlphaC_toUpperC (ch : Char) : isAlphaC (toUpperC ch) = isAlphaC ch := by
  apply Bool.eq_iff_iff.mpr
  simp only [isAlphaC, toUpperC_toNat, Bool.or_eq_true, Bool.and_eq_true, decide_eq_true_eq]
  split <;> omega

theorem isDigitC_toUpperC (ch : Char) : isDigitC (toUpperC ch) = isDigitC ch := by
  apply Bool.eq_iff_iff.mpr
  simp only [isDigitC, toUpperC_toNat, Bool.and_eq_true, decide_eq_true_eq]
  split <;> omega

theorem toUpperC_eq_of_not_lower {c : Char} (h : ¬(97 ≤ c.toNat ∧ c.toNat ≤ 122)) :
    toUpperC c = c := by
  unfold toUpperC
  rw [if_neg (by simpa using h)]

theorem toUpperC_idem (ch : Char) : toUpperC (toUpperC ch) = toUpperC ch := by
  apply toUpperC_eq_of_not_lower
  rw [toUpperC_toNat]
  split <;> omega

theorem letterVal_toUpperC (ch : Char) : letterVal (toUpperC ch) = letterVal ch := by
  unfold letterVal
  rw [toUpperC_idem]

theorem digitVal_toUpperC (ch : Char) (h : isDigitC ch = true) :
    digitVal (toUpperC ch) = digitVal ch := by
  simp only [isDigitC, Bool.and_eq_true, decide_eq_true_eq] at h
  unfold digitVal
  rw [toUpperC_eq_of_not_lower (by omega)]

theorem letterVal_ofNat {r : ℕ} (h : r < 26) : letterVal (Char.ofNat (65 + r)) = r + 1 := by
  have ht : (Char.ofNat (65 + r)).toNat = 65 + r := toNat_ofNat_small (by omega)
  unfold letterVal
  rw [toUpperC_eq_of_not_lower (by omega), ht, show 'A'.toNat = 65 from rfl]
  omega

theorem isAlphaC_letter_ofNat {r : ℕ} (h : r < 26) : isAlphaC (Char.ofNat (65 + r)) = true := by
  have ht : (Char.ofNat (65 + r)).toNat = 65 + r := toNat_ofNat_small (by omega)
  simp only [isAlphaC, ht, Bool.or_eq_true, Bool.and_eq_true, decide_eq_true_eq]
  omega

theorem digitVal_ofNat {r : ℕ} (h : r < 10) : digitVal (Char.ofNat (48 + r)) = r := by
  have ht : (Char.ofNat (48 + r)).toNat = 48 + r := toNat_ofNat_small (by omega)
  unfold digitVal
  rw [ht, show '0'.toNat = 48 from rfl]
  omega

theorem isDigitC_digit_ofNat {r : ℕ} (h : r < 10) : isDigitC (Char.ofNat (48 + r)) = true := by
  have ht : (Char.ofNat (48 + r)).toNat = 48 + r := toNat_ofNat_small (by omega)
  simp only [isDigitC, ht, Bool.and_eq_true, decide_eq_true_eq]
  omega

theorem isAlphaC_digit_ofNat {r : ℕ} (h : r < 10) : isAlphaC (Char.ofNat (48 + r)) = false := by
  have ht : (Char.ofNat (48 + r)).toNat = 48 + r := toNat_ofNat_small (by omega)
  apply Bool.eq_false_iff.mpr
  intro hcon
  simp only [isAlphaC, ht, Bool.or_eq_true, Bool.and_eq_true, decide_eq_true_eq] at hcon
  omega

theorem toB26F_fuel : ∀ n f1 f2 : ℕ, n ≤ f1 → n ≤ f2 → toB26F f1 n = toB26F f2 n := by
  intro n
  induction n using Nat.strong_induction_on with
  | _ n ih =>
    intro f1 f2 h1 h2
    cases n with
    | zero => cases f1 <;> cases f2 <;> rfl
    | succ m =>
      cases f1 with
      | zero => omega
      | succ g1 =>
        cases f2 with
        | zero => omega
        | succ g2 =>
          show Char.ofNat (65 + m % 26) :: toB26F g1 (m / 26) =
            Char.ofNat (65 + m % 26) :: toB26F g2 (m / 26)
          have := ih (m / 26) (by omega) g1 g2 (by omega) (by omega)
          rw [this]

theorem toDecF_fuel : ∀ n f1 f2 : ℕ, n ≤ f1 → n ≤ f2 → toDecF f1 n = toDecF f2 n := by
  intro n
  induction n using Nat.strong_induction_on with
  | _ n ih =>
    intro f1 f2 h1 h2
    cases n with
    | zero => cases f1 <;> cases f2 <;> rfl
    | succ m =>
      cases f1 with
      | zero => omega
      | succ g1 =>
        cases f2 with
        | zero => omega
        | succ g2 =>
          show Char.ofNat (48 + (m + 1) % 10) :: toDecF g1 ((m + 1) / 10) =
            Char.ofNat (48 + (m + 1) % 10) :: toDecF g2 ((m + 1) / 10)
          have := ih ((m + 1) / 10) (by omega) g1 g2 (by omega) (by omega)
          rw [this]

theorem toB26_zero : toB26 0 = [] := rfl

theorem toB26_succ (n : ℕ) :
    toB26 (n + 1) = Char.ofNat (65 + n % 26) :: toB26 (n / 26) := by
  show Char.ofNat (65 + n % 26) :: toB26F n (n / 26) = _
  rw [toB26F_fuel (n / 26) n (n / 26) (by omega) (le_refl _)]
  rfl

theorem toDec_zero : toDec 0 = [] := rfl

theorem toDec_succ (n : ℕ) :
    toDec (n + 1) = Char.ofNat (48 + (n + 1) % 10) :: toDec ((n + 1) / 10) := by
  show Char.ofNat (48 + (n + 1) % 10) :: toDecF n ((n + 1) / 10) = _
  rw [toDecF_fuel ((n + 1) / 10) n ((n + 1) / 10) (by omega) (le_refl _)]
  rfl

theorem toB26_mem : ∀ (n : ℕ) {ch : Char}, ch ∈ toB26 n →
    ∃ r, r < 26 ∧ ch = Char.ofNat (65 + r) := by
  intro n
  induction n using Nat.strong_induction_on with
  | _ n ih =>
    intro ch h
    cases n with
    | zero => simp [toB26_zero] at h
    | succ m =>
      rw [toB26_succ] at h
      rcases List.mem_cons.mp h with h1 | h2
      · exact ⟨m % 26, Nat.mod_lt _ (by omega), h1⟩
      · exact ih (m / 26) (by omega) h2

theorem toDec_mem : ∀ (n : ℕ) {ch : Char}, ch ∈ toDec n →
    ∃ r, r < 10 ∧ ch = Char.ofNat (48 + r) := by
  intro n
  induction n using Nat.strong_induction_on with
  | _ n ih =>
    intro ch h
    cases n with
    | zero => simp [toDec_zero] at h
    | succ m =>
      rw [toDec_succ] at h
      rcases List.mem_cons.mp h with h1 | h2
      · exact ⟨(m + 1) % 10, Nat.mod_lt _ (by omega), h1⟩
      · exact ih ((m + 1) / 10) (by omega) h2

theorem foldl_colStep_toB26 : ∀ n acc : ℕ,
    List.foldl colStep acc (toB26 n).reverse = acc * 26 ^ (toB26 n).length + n := by
  intro n
  induction n using Nat.strong_induction_on with
  | _ n ih =>
    intro acc
    cases n with
    | zero => simp [toB26_zero]
    | succ m =>
      rw [toB26_succ]
      simp only [List.reverse_cons, List.foldl_append, List.foldl_cons, List.foldl_nil,
        List.length_cons]
      rw [ih (m / 26) (by omega), colStep, letterVal_ofNat (Nat.mod_lt _ (by omega)), pow_succ]
      have h26 : 26 * (m / 26) + m % 26 = m := Nat.div_add_mod m 26
      calc (acc * 26 ^ (toB26 (m / 26)).length + m / 26) * 26 + (m % 26 + 1)
          = acc * (26 ^ (toB26 (m / 26)).length * 26) + (26 * (m / 26) + m % 26 + 1) := by ring
        _ = acc * (26 ^ (toB26 (m / 26)).length * 26) + (m + 1) := by rw [h26]

theorem foldl_rowStep_toDec : ∀ n acc : ℕ,
    List.foldl rowStep acc (toDec n).reverse = acc * 10 ^ (toDec n).length + n := by
  intro n
  induction n using Nat.strong_induction_on with
  | _ n ih =>
    intro acc
    cases n with
    | zero => simp [toDec_zero]
    | succ m =>
      rw [toDec_succ]
      simp only [List.reverse_cons, List.foldl_append, List.foldl_cons, List.foldl_nil,
        List.length_cons]
      rw [ih ((m + 1) / 10) (by omega), rowStep, digitVal_ofNat (Nat.mod_lt _ (by omega)),
        pow_succ]
      have h10 : 10 * ((m + 1) / 10) + (m + 1) % 10 = m + 1 := Nat.div_add_mod (m + 1) 10
      calc (acc * 10 ^ (toDec ((m + 1) / 10)).length + (m + 1) / 10) * 10 + (m + 1) % 10
          = acc * (10 ^ (toDec ((m + 1) / 10)).length * 10) +
              (10 * ((m + 1) / 10) + (m + 1) % 10) := by ring
        _ = acc * (10 ^ (toDec ((m + 1) / 10)).length * 10) + (m + 1) := by rw [h10]

theorem colAcc_append {l : List Char} (hl : ∀ ch ∈ l, isAlphaC ch = true) :
    ∀ (acc : ℕ) (rest : List Char),
      colAcc acc (l ++ rest) = colAcc (List.foldl colStep acc l) rest := by
  induction l with
  | nil => intro acc rest; simp
  | cons c t ih =>
    intro acc rest
    rw [List.cons_append, colAcc, if_pos (hl c (by simp)), List.foldl_cons]
    exact ih (fun ch hch => hl ch (by simp [hch])) _ rest

theorem rowAcc_append {l : List Char} (hl : ∀ ch ∈ l, isDigitC ch = true) :
    ∀ (acc : ℕ) (rest : List Char),
      rowAcc acc (l ++ rest) = rowAcc (List.foldl rowStep acc l) rest := by
  induction l with
  | nil => intro acc rest; simp
  | cons c t ih =>
    intro acc rest
    rw [List.cons_append, rowAcc, if_pos (hl c (by simp)), List.foldl_cons]
    exact ih (fun ch hch => hl ch (by simp [hch])) _ rest

theorem colAcc_stop {s : List Char} (hs : s = [] ∨ ∃ c t, s = c :: t ∧ isAlphaC c = false)
    (acc : ℕ) : colAcc acc s = (acc, s) := by
  rcases hs with h | ⟨c, t, rfl, hc⟩
  · subst h; rfl
  · rw [colAcc, if_neg (by simp [hc])]

theorem colAcc_snd (s : List Char) : ∀ acc, (colAcc acc s).2 = s.dropWhile isAlphaC := by
  induction s with
  | nil => intro acc; rfl
  | cons c t ih =>
    intro acc
    by_cases h : isAlphaC c = true
    · rw [colAcc, if_pos h, List.dropWhile_cons_of_pos h]; exact ih _
    · rw [colAcc, if_neg h, List.dropWhile_cons_of_neg (by simp_all)]

theorem rowAcc_snd (s : List Char) : ∀ acc, (rowAcc acc s).2 = s.dropWhile isDigitC := by
  induction s with
  | nil => intro acc; rfl
  | cons c t ih =>
    intro acc
    by_cases h : isDigitC c = true
    · rw [rowAcc, if_pos h, List.dropWhile_cons_of_pos h]; exact ih _
    · rw [rowAcc, if_neg h, List.dropWhile_cons_of_neg (by simp_all)]

theorem colAcc_map_toUpperC (s : List Char) :
    ∀ acc, colAcc acc (s.map toUpperC) =
      ((colAcc acc s).1, (colAcc acc s).2.map toUpperC) := by
  induction s with
  | nil => intro acc; rfl
  | cons c t ih =>
    intro acc
    by_cases h : isAlphaC c = true
    · rw [List.map_cons, colAcc, if_pos (by rw [isAlphaC_toUpperC]; exact h),
        colAcc, if_pos h, letterVal_toUpperC]
      exact ih _
    · rw [List.map_cons, colAcc, if_neg (by rw [isAlphaC_toUpperC]; simp [h]),
        colAcc, if_neg h]
      simp

theorem rowAcc_map_toUpperC (s : List Char) :
    ∀ acc, rowAcc acc (s.map toUpperC) =
      ((rowAcc acc s).1, (rowAcc acc s).2.map toUpperC) := by
  induction s with
  | nil => intro acc; rfl
  | cons c t ih =>
    intro acc
    by_cases h : isDigitC c = true
    · rw [List.map_cons, rowAcc, if_pos (by rw [isDigitC_toUpperC]; exact h),
        rowAcc, if_pos h, digitVal_toUpperC c h]
      exact ih _
    · rw [List.map_cons, rowAcc, if_neg (by rw [isDigitC_toUpperC]; simp [h]),
        rowAcc, if_neg h]
      simp

theorem cellNameToCoords_map_toUpperC (s : List Char) :
    cellNameToCoords (s.map toUpperC) = cellNameToCoords s := by
  unfold cellNameToCoords
  rw [colAcc_map_toUpperC s 0]
  simp only []
  by_cases h1 : (colAcc 0 s).1 = 0
  · simp [h1]
  · rw [if_neg h1, if_neg h1, rowAcc_map_toUpperC _ 0]
    by_cases h2 : (rowAcc 0 (colAcc 0 s).2).1 = 0
    · simp [h2]
    · rw [if_neg h2, if_neg h2]
      by_cases h3 : (rowAcc 0 (colAcc 0 s).2).2 = []
      · simp [h3]
      · rw [if_neg (by simpa using h3), if_neg h3]

theorem toB26_pos_ne_nil (n : ℕ) : toB26 (n + 1) ≠ [] := by
  rw [toB26_succ]; simp

theorem toDec_pos_ne_nil (n : ℕ) : toDec (n + 1) ≠ [] := by
  rw [toDec_succ]; simp

theorem cellNameToCoords_coordsToCellName (row col : ℕ) :
    cellNameToCoords (coordsToCellName row col) = some (row, col) := by
  unfold coordsToCellName cellNameToCoords
  have halpha : ∀ ch ∈ (toB26 (col + 1)).reverse, isAlphaC ch = true := by
    intro ch hch
    obtain ⟨r, hr, rfl⟩ := toB26_mem _ (List.mem_reverse.mp hch)
    exact isAlphaC_letter_ofNat hr
  have hdig : ∀ ch ∈ (toDec (row + 1)).reverse, isDigitC ch = true := by
    intro ch hch
    obtain ⟨r, hr, rfl⟩ := toDec_mem _ (List.mem_reverse.mp hch)
    exact isDigitC_digit_ofNat hr
  rw [colAcc_append halpha, foldl_colStep_toB26]
  have hstop : colAcc (0 * 26 ^ (toB26 (col + 1)).length + (col + 1))
      ((toDec (row + 1)).reverse) = (0 * 26 ^ (toB26 (col + 1)).length + (col + 1),
        (toDec (row + 1)).reverse) := by
    apply colAcc_stop
    right
    obtain ⟨c, t, hct⟩ := List.exists_cons_of_ne_nil
      (by simpa using toDec_pos_ne_nil row : (toDec (row + 1)).reverse ≠ [])
    refine ⟨c, t, hct, ?_⟩
    have hc : c ∈ (toDec (row + 1)).reverse := by rw [hct]; simp
    obtain ⟨r, hr, rfl⟩ := toDec_mem _ (List.mem_reverse.mp hc)
    exact isAlphaC_digit_ofNat hr
  rw [hstop]
  simp only [Nat.zero_mul, Nat.zero_add]
  rw [if_neg (by omega)]
  have hrow : rowAcc 0 ((toDec (row + 1)).reverse) = (row + 1, []) := by
    have := rowAcc_append hdig 0 []
    rw [List.append_nil] at this
    rw [this, foldl_rowStep_toDec]
    simp [rowAcc]
  rw [hrow]
  simp

theorem cellNameToCoords_residue {s : List Char} {rc : ℕ × ℕ}
    (h : cellNameToCoords s = some rc) :
    (s.dropWhile isAlphaC).dropWhile isDigitC = [] := by
  unfold cellNameToCoords at h
  simp only [] at h
  by_cases h1 : (colAcc 0 s).1 = 0
  · simp [h1] at h
  · rw [if_neg h1] at h
    by_cases h2 : (rowAcc 0 (colAcc 0 s).2).1 = 0
    · simp [h2] at h
    · rw [if_neg h2] at h
      by_cases h3 : (rowAcc 0 (colAcc 0 s).2).2 = []
      · rw [← colAcc_snd s 0, ← rowAcc_snd _ 0]
        exact h3
      · simp [h3] at h

theorem length_dropWhileC {α : Type} (p : α → Bool) (l : List α) :
    (l.dropWhile p).length ≤ l.length := by
  induction l with
  | nil => simp
  | cons a t ih =>
    rw [List.dropWhile]
    cases hp : p a
    · simp
    · simp only []
      calc (t.dropWhile p).length ≤ t.length := ih
        _ ≤ (a :: t).length := by simp

theorem dropWhile_head_false {α : Type} {p : α → Bool} :
    ∀ {s : List α} {c : α} {t : List α}, s.dropWhile p = c :: t → p c = false := by
  intro s
  induction s with
  | nil => intro c t h; simp [List.dropWhile] at h
  | cons a s ih =>
    intro c t h
    rw [List.dropWhile] at h
    cases ha : p a
    · rw [ha] at h
      simp only [] at h
      cases h
      exact ha
    · rw [ha] at h
      simp only [] at h
      exact ih h

/-! ## Claim C5: `Q1=Z1000+1` on a 10×10 sheet -/

/-- **C5, counterexample.**  On a 10×10 sheet the command `Q1=Z1000+1`
does not yield status `Range out of bounds`: `Q1` names column 17 of a
10-column sheet, so `process_command`'s own bounds check rejects the
command with `Cell out of bounds` before the edit transaction runs. -/
theorem claim_c5_counterexample :
    (processEditCommand (createSpreadsheet 10 10) "Q1".toList "Z1000+1".toList).2 =
      "Cell out of bounds" ∧
    (processEditCommand (createSpreadsheet 10 10) "Q1".toList "Z1000+1".toList).2 ≠
      "Range out of bounds" := by
  constructor
  · rfl
  · decide

/-- **C5, amended.**  On a 10×10 sheet the command `Q1=Z1000+1` yields
status `Cell out of bounds` (the target `Q1` itself lies outside the
grid) and leaves the sheet — in particular every field and edge of every
cell — exactly as before.  Moreover, even when the same formula is
written to an in-bounds cell, the syntax validator rejects the
out-of-bounds reference `Z1000` and the transaction aborts with status
`Unrecognized` and no mutation; the `Range out of bounds` status is
reserved for out-of-bounds references first detected during evaluation. -/
theorem claim_c5_q1_edit_rejected :
    (processEditCommand (createSpreadsheet 10 10) "Q1".toList "Z1000+1".toList).1 =
      createSpreadsheet 10 10 ∧
    (processEditCommand (createSpreadsheet 10 10) "Q1".toList "Z1000+1".toList).2 =
      "Cell out of bounds" ∧
    validformula (createSpreadsheet 10 10) "Z1000+1".toList = 1 ∧
    (updateCellFormula (createSpreadsheet 10 10) 0 0 "Z1000+1".toList).1 =
      createSpreadsheet 10 10 ∧
    (updateCellFormula (createSpreadsheet 10 10) 0 0 "Z1000+1".toList).2 =
      "Unrecognized" :=
  ⟨rfl, rfl, by decide, rfl, rfl⟩

/-! ## Claim C3: OK cells whose formulas do not re-evaluate to their value -/

/-- **C3 (code bug).**  The edit `A1=5X+B1` passes the syntax validator
(`sscanf("%d", "5X")` accepts the prefix `5`), the evaluator then fails
with a parse error (flag 1), but `updateCellFormula`'s final branch
stores `value = 0, status = OK` anyway.  The result is an `OK` cell
whose stored formula does not evaluate: re-evaluating it yields error
flag 1, not the stored value — refuting the claimed invariant on the
code as written. -/
theorem claim_c3_ok_cell_eval_mismatch :
    validformula (createSpreadsheet 1 2) "5X+B1".toList = 0 ∧
    ((updateCellFormula (createSpreadsheet 1 2) 0 0 "5X+B1".toList).1.cell (0, 0)).status =
      .ok ∧
    ((updateCellFormula (createSpreadsheet 1 2) 0 0 "5X+B1".toList).1.cell (0, 0)).formula =
      some "5X+B1".toList ∧
    ((updateCellFormula (createSpreadsheet 1 2) 0 0 "5X+B1".toList).1.cell (0, 0)).value = 0 ∧
    (evaluateFormula (updateCellFormula (createSpreadsheet 1 2) 0 0 "5X+B1".toList).1
      "5X+B1".toList).2 = 1 := by
  refine ⟨by decide, ?_, ?_, ?_, ?_⟩ <;> decide

/-! ## Claim C2: error poisoning does not zero already-`ERROR` descendants -/

/-- **C2 (code bug).**  On a 1×2 sheet run `A1=1`, `B1=10/A1`, `A1=0`
(the cascade re-evaluates `B1`, hits division by zero, and
`recalcAffected` marks `B1` `ERROR` *without* zeroing its value —
contradicting spec §4.7), then `A1=1/0`.  The final edit passes
validation, its evaluation raises `DIV_ZERO`, and `B1` is reachable from
`A1` via `rdeps`; the claim then requires `B1.value = 0`, but the
marking recursion stops at the already-`ERROR` cell `B1`, which keeps
value 10.  The user status of the edit is `Ok`, as claimed. -/
theorem claim_c2_error_descendant_keeps_value :
    (updateCellFormula
        (applyCmds (createSpreadsheet 1 2)
          [((0, 0), "1".toList), ((0, 1), "10/A1".toList), ((0, 0), "0".toList)])
        0 0 "1/0".toList).2 = "Ok" ∧
    validformula
      (applyCmds (createSpreadsheet 1 2)
        [((0, 0), "1".toList), ((0, 1), "10/A1".toList), ((0, 0), "0".toList)])
      "1/0".toList = 0 ∧
    (evaluateFormula
      (applyCmds (createSpreadsheet 1 2)
        [((0, 0), "1".toList), ((0, 1), "10/A1".toList), ((0, 0), "0".toList)])
      "1/0".toList).2 = 3 ∧
    (0, 1) ∈ ((updateCellFormula
        (applyCmds (createSpreadsheet 1 2)
          [((0, 0), "1".toList), ((0, 1), "10/A1".toList), ((0, 0), "0".toList)])
        0 0 "1/0".toList).1.cell (0, 0)).dependents ∧
    ((updateCellFormula
        (applyCmds (createSpreadsheet 1 2)
          [((0, 0), "1".toList), ((0, 1), "10/A1".toList), ((0, 0), "0".toList)])
        0 0 "1/0".toList).1.cell (0, 1)).status = .err ∧
    ((updateCellFormula
        (applyCmds (createSpreadsheet 1 2)
          [((0, 0), "1".toList), ((0, 1), "10/A1".toList), ((0, 0), "0".toList)])
        0 0 "1/0".toList).1.cell (0, 1)).value = 10 := by
  refine ⟨?_, ?_, ?_, ?_, ?_, ?_⟩ <;> decide

/-! ## Claim C4, counterexample: dependency edges are not deduplicated -/

/-- **C4, counterexample.**  After `B1=A1+A1` on a fresh 1×2 sheet the
lexical extractor enumerates `A1` twice, its deduplicated set is the
single coordinate — yet `updateCellFormula` installs both occurrences,
so `B1.deps` is `[A1, A1]`, not a duplicate-free set: the engine does
not deduplicate before installing edges. -/
theorem claim_c4_counterexample :
    extractDependencies "A1+A1".toList = [(0, 0), (0, 0)] ∧
    (extractDependencies "A1+A1".toList).dedup = [(0, 0)] ∧
    ((updateCellFormula (createSpreadsheet 1 2) 0 1 "A1+A1".toList).1.cell (0, 1)).dependencies =
      [(0, 0), (0, 0)] ∧
    ¬ ((updateCellFormula (createSpreadsheet 1 2) 0 1 "A1+A1".toList).1.cell
        (0, 1)).dependencies.Nodup := by
  refine ⟨by decide, by decide, by decide, ?_⟩
  decide

/-! ## Lemmas for the range aggregates (claims C7 and C8) -/

theorem splitAtChar_append (target : Char) :
    ∀ (l r : List Char), (∀ ch ∈ l, ch ≠ target) →
      splitAtChar target (l ++ target :: r) = some (l, r) := by
  intro l
  induction l with
  | nil => intro r _; simp [splitAtChar]
  | cons c t ih =>
    intro r hl
    rw [List.cons_append, splitAtChar, if_neg (hl c (by simp)), ih r (fun ch hch => hl ch (by simp [hch]))]
    rfl

theorem dropWhile_eq_self_of_all {α : Type} {p : α → Bool} :
    ∀ {l : List α}, (∀ ch ∈ l, p ch = false) → l.dropWhile p = l := by
  intro l hl
  cases l with
  | nil => rfl
  | cons c t => rw [List.dropWhile_cons_of_neg (by simp [hl c (by simp)])]

theorem dropTrailingSpaces_eq_self {l : List Char} (hl : ∀ ch ∈ l, isSpaceC ch = false) :
    dropTrailingSpaces l = l := by
  unfold dropTrailingSpaces
  rw [dropWhile_eq_self_of_all (fun ch hch => hl ch (List.mem_reverse.mp hch)), List.reverse_reverse]

/-- Every character of a printed cell name is an uppercase letter or a
decimal digit. -/
theorem coordsToCellName_chars {row col : ℕ} {ch : Char} (h : ch ∈ coordsToCellName row col) :
    (65 ≤ ch.toNat ∧ ch.toNat ≤ 90) ∨ (48 ≤ ch.toNat ∧ ch.toNat ≤ 57) := by
  rcases List.mem_append.mp h with h1 | h2
  · obtain ⟨r, hr, rfl⟩ := toB26_mem _ (List.mem_reverse.mp h1)
    rw [toNat_ofNat_small (by omega)]
    omega
  · obtain ⟨r, hr, rfl⟩ := toDec_mem _ (List.mem_reverse.mp h2)
    rw [toNat_ofNat_small (by omega)]
    omega

theorem coordsToCellName_no_colon {row col : ℕ} {ch : Char}
    (h : ch ∈ coordsToCellName row col) : ch ≠ ':' := by
  intro he
  have h2 := coordsToCellName_chars h
  rw [he, show (':').toNat = 58 from rfl] at h2
  omega

theorem coordsToCellName_no_space {row col : ℕ} {ch : Char}
    (h : ch ∈ coordsToCellName row col) : isSpaceC ch = false := by
  have := coordsToCellName_chars h
  apply Bool.eq_false_iff.mpr
  intro hcon
  simp only [isSpaceC, Bool.or_eq_true, Bool.and_eq_true, decide_eq_true_eq] at hcon
  omega

theorem toB26_length_le : ∀ k n : ℕ, n < 26 ^ k → (toB26 n).length ≤ k := by
  intro k
  induction k with
  | zero => intro n h; interval_cases n; simp [toB26_zero]
  | succ j ih =>
    intro n h
    cases n with
    | zero => simp [toB26_zero]
    | succ m =>
      rw [toB26_succ]
      simp only [List.length_cons]
      have hp : (26 : ℕ) ^ (j + 1) = 26 ^ j * 26 := pow_succ 26 j
      have hlt : m / 26 < 26 ^ j := by
        rw [Nat.div_lt_iff_lt_mul (by omega)]
        omega
      have := ih (m / 26) hlt
      omega

theorem toDec_length_le : ∀ k n : ℕ, n < 10 ^ k → (toDec n).length ≤ k := by
  intro k
  induction k with
  | zero => intro n h; interval_cases n; simp [toDec_zero]
  | succ j ih =>
    intro n h
    cases n with
    | zero => simp [toDec_zero]
    | succ m =>
      rw [toDec_succ]
      simp only [List.length_cons]
      have hp : (10 : ℕ) ^ (j + 1) = 10 ^ j * 10 := pow_succ 10 j
      have hlt : (m + 1) / 10 < 10 ^ j := by
        rw [Nat.div_lt_iff_lt_mul (by omega)]
        omega
      have := ih ((m + 1) / 10) hlt
      omega

/-- For `int`-range coordinates a printed name has at most 17
characters, so the 20-byte buffers of the C code never truncate it. -/
theorem coordsToCellName_length_le {row col : ℕ} (hr : row < 2 ^ 31) (hc : col < 2 ^ 31) :
    (coordsToCellName row col).length ≤ 17 := by
  unfold coordsToCellName
  rw [List.length_append, List.length_reverse, List.length_reverse]
  have h1 : (toB26 (col + 1)).length ≤ 7 :=
    toB26_length_le 7 (col + 1) (by norm_num; omega)
  have h2 : (toDec (row + 1)).length ≤ 10 :=
    toDec_length_le 10 (row + 1) (by norm_num; omega)
  omega

/-- Decoding a canonical range string `name1:name2` reaches the
dispatch on the rectangle. -/
theorem evaluateRangeFunction_canonical (S : Spreadsheet) (fname : List Char)
    (r1 c1 r2 c2 : ℕ) (h1 : r1 ≤ r2) (h2 : c1 ≤ c2) (hr : r2 < 2 ^ 31) (hc : c2 < 2 ^ 31) :
    evaluateRangeFunction S fname
      (coordsToCellName r1 c1 ++ ':' :: coordsToCellName r2 c2) =
      rangeDispatch S fname (rectCoords r1 c1 r2 c2) := by
  have hlen1 : (coordsToCellName r1 c1).length ≤ 17 :=
    coordsToCellName_length_le (by omega) (by omega)
  have hlen2 : (coordsToCellName r2 c2).length ≤ 17 :=
    coordsToCellName_length_le (by omega) (by omega)
  unfold evaluateRangeFunction
  rw [splitAtChar_append ':' _ _ (fun ch hch => coordsToCellName_no_colon hch)]
  simp only [List.take_of_length_le (by omega : (coordsToCellName r2 c2).length ≤ 19),
    dropTrailingSpaces_eq_self (fun ch hch => coordsToCellName_no_space hch),
    cellNameToCoords_coordsToCellName]
  rw [if_neg (by omega), if_neg (by omega)]

theorem wrap32_eq_self {z : ℤ} (h1 : -(2 ^ 31) ≤ z) (h2 : z < 2 ^ 31) : wrap32 z = z := by
  unfold wrap32
  omega

/-- On an error-free range the scan returns the exact accumulated sum,
running min/max, and count. -/
theorem scanRange_ok (S : Spreadsheet) :
    ∀ (coords : List (ℕ × ℕ)) (sum mn mx : ℤ) (cnt : ℕ),
      (∀ p ∈ coords, (S.cell p).status = .ok) →
      scanRange S coords (sum, mn, mx, cnt) =
        .ok ((coords.map fun p => (S.cell p).value).foldl (· + ·) sum,
          (coords.map fun p => (S.cell p).value).foldl min mn,
          (coords.map fun p => (S.cell p).value).foldl max mx,
          cnt + coords.length) := by
  intro coords
  induction coords with
  | nil => intro sum mn mx cnt _; rfl
  | cons p rest ih =>
    intro sum mn mx cnt hok
    rw [scanRange, if_neg (by simp [hok p (by simp)])]
    rw [ih _ _ _ _ (fun q hq => hok q (by simp [hq]))]
    simp only [List.map_cons, List.foldl_cons, List.length_cons]
    rw [show cnt + 1 + rest.length = cnt + (rest.length + 1) from by omega]

/-- A range containing an `ERROR` cell makes the scan fail with error 3. -/
theorem scanRange_err (S : Spreadsheet) :
    ∀ (coords : List (ℕ × ℕ)), (∃ p ∈ coords, (S.cell p).status = .err) →
      ∀ acc, scanRange S coords acc = .error 3 := by
  intro coords
  induction coords with
  | nil => intro h; simp at h
  | cons p rest ih =>
    intro h acc
    obtain ⟨acc1, acc2, acc3, acc4⟩ := acc
    by_cases hp : (S.cell p).status = .err
    · rw [scanRange, if_pos hp]
    · rw [scanRange, if_neg hp]
      apply ih
      obtain ⟨q, hq, hqe⟩ := h
      rcases List.mem_cons.mp hq with rfl | hq2
      · exact absurd hqe hp
      · exact ⟨q, hq2, hqe⟩

theorem foldl_add_eq_sum (l : List ℤ) : ∀ a : ℤ, l.foldl (· + ·) a = a + l.sum := by
  induction l with
  | nil => intro a; simp
  | cons v t ih =>
    intro a
    rw [List.foldl_cons, ih, List.sum_cons]
    ring

/-- A `foldl min` from an initial value dominating the whole list lands
in the list and below every element. -/
theorem foldl_min_spec (l : List ℤ) : ∀ a : ℤ,
    l.foldl min a ∈ a :: l ∧ l.foldl min a ≤ a ∧ ∀ v ∈ l, l.foldl min a ≤ v := by
  induction l with
  | nil => intro a; simp
  | cons v t ih =>
    intro a
    rw [List.foldl_cons]
    obtain ⟨hmem, hle, hall⟩ := ih (min a v)
    refine ⟨?_, ?_, ?_⟩
    · rcases List.mem_cons.mp hmem with he | hm
      · rcases le_total a v with hav | hva
        · rw [he, min_eq_left hav]; simp
        · rw [he, min_eq_right hva]; simp
      · simp [hm]
    · exact le_trans hle (min_le_left a v)
    · intro w hw
      rcases List.mem_cons.mp hw with rfl | hwt
      · exact le_trans hle (min_le_right a w)
      · exact hall w hwt

theorem foldl_max_spec (l : List ℤ) : ∀ a : ℤ,
    l.foldl max a ∈ a :: l ∧ a ≤ l.foldl max a ∧ ∀ v ∈ l, v ≤ l.foldl max a := by
  induction l with
  | nil => intro a; simp
  | cons v t ih =>
    intro a
    rw [List.foldl_cons]
    obtain ⟨hmem, hle, hall⟩ := ih (max a v)
    refine ⟨?_, ?_, ?_⟩
    · rcases List.mem_cons.mp hmem with he | hm
      · rcases le_total a v with hav | hva
        · rw [he, max_eq_right hav]; simp
        · rw [he, max_eq_left hva]; simp
      · simp [hm]
    · exact le_trans (le_max_left a v) hle
    · intro w hw
      rcases List.mem_cons.mp hw with rfl | hwt
      · exact le_trans (le_max_right a w) hle
      · exact hall w hwt

theorem length_flatMap_const {α β : Type} (f : α → List β) (k : ℕ) :
    ∀ l : List α, (∀ a ∈ l, (f a).length = k) → (l.flatMap f).length = l.length * k := by
  intro l
  induction l with
  | nil => simp
  | cons a t ih =>
    intro h
    simp only [List.flatMap_cons, List.length_append, List.length_cons]
    rw [ih (fun x hx => h x (by simp [hx])), h a (by simp)]
    ring

/-- The rectangle of a range: its size is the product of the two side
lengths (so it is never empty when the range is not reversed). -/
theorem rectCoords_length (r1 c1 r2 c2 : ℕ) :
    (rectCoords r1 c1 r2 c2).length = (r2 + 1 - r1) * (c2 + 1 - c1) := by
  unfold rectCoords
  rw [length_flatMap_const _ (c2 + 1 - c1) _
    (fun a _ => by rw [List.length_map, List.length_range'])]
  rw [List.length_range']

/-- Upward-search characterisation: the result satisfies the bound and
is the least such value. -/
theorem rshaFrom_spec (a b : ℕ) : ∀ (fuel z0 : ℕ),
    (∃ z, z0 ≤ z ∧ z < z0 + fuel ∧ 4 * a < (2 * z + 1) ^ 2 * b) →
    4 * a < (2 * rshaFrom a b fuel z0 + 1) ^ 2 * b ∧
    (∀ y, z0 ≤ y → y < rshaFrom a b fuel z0 → ¬ 4 * a < (2 * y + 1) ^ 2 * b) ∧
    z0 ≤ rshaFrom a b fuel z0 := by
  intro fuel
  induction fuel with
  | zero =>
    intro z0 hex
    obtain ⟨z, hz1, hz2, _⟩ := hex
    omega
  | succ fuel ih =>
    intro z0 hex
    rw [rshaFrom]
    by_cases h : 4 * a < (2 * z0 + 1) ^ 2 * b
    · rw [if_pos h]
      exact ⟨h, fun y hy1 hy2 => by omega, le_refl _⟩
    · rw [if_neg h]
      obtain ⟨z, hz1, hz2, hz3⟩ := hex
      have hzne : z ≠ z0 := fun he => h (he ▸ hz3)
      obtain ⟨hc1, hc2, hc3⟩ := ih (z0 + 1) ⟨z, by omega, by omega, hz3⟩
      refine ⟨hc1, ?_, by omega⟩
      intro y hy1 hy2
      by_cases hy : y = z0
      · rw [hy]; exact h
      · exact hc2 y (by omega) hy2

/-- `roundSqrtFrac num den` is `round_half_away_from_zero (√(num/den))`:
it is the least integer `z` with `√(num/den) < z + 1/2`, i.e. with
`4·num < (2z+1)²·den`. -/
theorem roundSqrtFrac_spec (num : ℤ) (den : ℕ) (hnum : 0 ≤ num) (hden : 0 < den) :
    0 ≤ roundSqrtFrac num den ∧
    4 * num < (2 * roundSqrtFrac num den + 1) ^ 2 * (den : ℤ) ∧
    ∀ y : ℕ, (y : ℤ) < roundSqrtFrac num den →
      ((2 * y + 1) ^ 2 * den : ℤ) ≤ 4 * num := by
  have hx : ∃ z, 0 ≤ z ∧ z < 0 + (num.toNat + 2) ∧
      4 * num.toNat < (2 * z + 1) ^ 2 * den := by
    refine ⟨num.toNat, by omega, by omega, ?_⟩
    have h1 : (2 * num.toNat + 1) ^ 2 = 4 * (num.toNat * num.toNat) + 4 * num.toNat + 1 := by
      ring
    have h2 : (2 * num.toNat + 1) ^ 2 * 1 ≤ (2 * num.toNat + 1) ^ 2 * den :=
      Nat.mul_le_mul_left _ hden
    omega
  obtain ⟨hs1, hs2, _⟩ := rshaFrom_spec num.toNat den (num.toNat + 2) 0 hx
  have htn : (num.toNat : ℤ) = num := Int.toNat_of_nonneg hnum
  unfold roundSqrtFrac
  refine ⟨by omega, ?_, ?_⟩
  · rw [← htn]
    exact_mod_cast hs1
  · intro y hy
    have hylt : y < rshaFrom num.toNat den (num.toNat + 2) 0 := by exact_mod_cast hy
    have h2 : (2 * y + 1) ^ 2 * den ≤ 4 * num.toNat := by
      have := hs2 y (by omega) hylt
      omega
    rw [← htn]
    exact_mod_cast h2

/-- Pointwise bounds give bounds on a list sum. -/
theorem sum_bounds {lo hi : ℤ} :
    ∀ l : List ℤ, (∀ v ∈ l, lo ≤ v ∧ v ≤ hi) →
      lo * l.length ≤ l.sum ∧ l.sum ≤ hi * l.length := by
  intro l
  induction l with
  | nil => intro _; simp
  | cons v t ih =>
    intro h
    obtain ⟨hv1, hv2⟩ := h v (by simp)
    obtain ⟨ht1, ht2⟩ := ih fun w hw => h w (by simp [hw])
    simp only [List.sum_cons, List.length_cons]
    constructor <;> push_cast <;> nlinarith

/-- Truncating division of a sum of `n` in-range `int`s by `n` stays in
`int` range, so the `(int)` cast in `AVG` never wraps. -/
theorem tdiv_range {s : ℤ} {n : ℕ} (hn : 0 < n)
    (h1 : -(2 ^ 31) * n ≤ s) (h2 : s ≤ (2 ^ 31 - 1) * n) :
    -(2 ^ 31) ≤ Int.tdiv s n ∧ Int.tdiv s n < 2 ^ 31 := by
  rcases le_or_lt 0 s with hs | hs
  · have hnn : 0 ≤ Int.tdiv s n := Int.tdiv_nonneg hs (by positivity)
    have habs : (Int.tdiv s n).natAbs = s.natAbs / n := by
      rw [Int.natAbs_tdiv]
      rfl
    have hlt : s.natAbs / n < 2 ^ 31 := by
      rw [Nat.div_lt_iff_lt_mul hn]
      have hsn : (s.natAbs : ℤ) = s := Int.natAbs_of_nonneg hs
      have h3 : (s.natAbs : ℤ) < 2 ^ 31 * n := by
        rw [hsn]
        have hnp : (0 : ℤ) < n := by positivity
        nlinarith
      exact_mod_cast h3
    constructor
    · omega
    · have : ((Int.tdiv s n).natAbs : ℤ) = Int.tdiv s n := Int.natAbs_of_nonneg hnn
      rw [← this, habs]
      exact_mod_cast hlt
  · have hneg : Int.tdiv s n = -Int.tdiv (-s) n := by
      rw [← Int.neg_tdiv, neg_neg]
    have hnn : 0 ≤ Int.tdiv (-s) n := Int.tdiv_nonneg (by omega) (by positivity)
    have habs : (Int.tdiv (-s) n).natAbs = (-s).natAbs / n := by
      rw [Int.natAbs_tdiv]
      rfl
    have hle : (-s).natAbs / n ≤ 2 ^ 31 := by
      have hlt2 : (-s).natAbs / n < 2 ^ 31 + 1 := by
        rw [Nat.div_lt_iff_lt_mul hn]
        have hsn : ((-s).natAbs : ℤ) = -s := Int.natAbs_of_nonneg (by omega)
        have h3 : ((-s).natAbs : ℤ) < (2 ^ 31 + 1) * n := by
          rw [hsn]
          have hnp : (0 : ℤ) < n := by positivity
          nlinarith
        exact_mod_cast h3
      omega
    have hcast : ((Int.tdiv (-s) n).natAbs : ℤ) = Int.tdiv (-s) n := Int.natAbs_of_nonneg hnn
    constructor
    · rw [hneg]
      have : Int.tdiv (-s) n ≤ 2 ^ 31 := by
        rw [← hcast, habs]
        exact_mod_cast hle
      omega
    · rw [hneg]
      omega

/-- A squared `int` below `2³¹` forces the base into `int` range. -/
theorem sq_lt_range {d : ℤ} (h : d ^ 2 < 2 ^ 31) : -(2 ^ 31) ≤ d ∧ d < 2 ^ 31 := by
  constructor
  · nlinarith [sq_nonneg (d + 2 ^ 31)]
  · nlinarith [sq_nonneg (d - 2 ^ 31)]

/-- When the absolute values sum below `2³¹`, the wrapping `int`
summation of the first `STDEV` loop is exact. -/
theorem stdevSumLoop_exact (S : Spreadsheet) :
    ∀ (coords : List (ℕ × ℕ)) (acc : ℤ),
      acc.natAbs + ((coords.map fun p => (S.cell p).value.natAbs).sum) < 2 ^ 31 →
      coords.foldl (fun a p => wrap32 (a + (S.cell p).value)) acc =
        acc + ((coords.map fun p => (S.cell p).value).sum) := by
  intro coords
  induction coords with
  | nil => intro acc _; simp
  | cons p rest ih =>
    intro acc h
    simp only [List.map_cons, List.sum_cons, List.foldl_cons] at h ⊢
    rw [wrap32_eq_self (by omega) (by omega), ih _ (by omega)]
    ring

/-- When every squared deviation is below `2³¹`, the second `STDEV` loop
computes the exact sum of squared deviations. -/
theorem stdevVarLoop_exact (S : Spreadsheet) (mean : ℤ) :
    ∀ (coords : List (ℕ × ℕ)) (acc : ℤ),
      (∀ p ∈ coords, ((S.cell p).value - mean) ^ 2 < 2 ^ 31) →
      coords.foldl
        (fun q p =>
          q + wrap32 (wrap32 ((S.cell p).value - mean) * wrap32 ((S.cell p).value - mean)))
        acc =
        acc + ((coords.map fun p => ((S.cell p).value - mean) ^ 2).sum) := by
  intro coords
  induction coords with
  | nil => intro acc _; simp
  | cons p rest ih =>
    intro acc h
    have hsq := h p (by simp)
    obtain ⟨hd1, hd2⟩ := sq_lt_range hsq
    have hw : wrap32 ((S.cell p).value - mean) = (S.cell p).value - mean :=
      wrap32_eq_self hd1 hd2
    simp only [List.map_cons, List.sum_cons, List.foldl_cons]
    rw [hw, wrap32_eq_self (by nlinarith [sq_nonneg ((S.cell p).value - mean)])
        (by nlinarith), ih _ (fun q hq => h q (by simp [hq]))]
    ring

/-- A sum of squares is nonnegative. -/
theorem sum_sq_nonneg {α : Type} (l : List α) (f : α → ℤ) :
    0 ≤ (l.map fun v => (f v) ^ 2).sum := by
  induction l with
  | nil => simp
  | cons v t ih =>
    simp only [List.map_cons, List.sum_cons]
    nlinarith [sq_nonneg (f v)]

/-- On an error-free, non-empty rectangle the dispatch computes each
aggregate from the scanned sum, extrema, and count. -/
theorem rangeDispatch_ok_eq (S : Spreadsheet) (coords : List (ℕ × ℕ)) (fname : List Char)
    (hok : ∀ p ∈ coords, (S.cell p).status = .ok) (hne : coords.length ≠ 0) :
    rangeDispatch S fname coords =
      if fname = "MIN".toList then
        ((coords.map fun p => (S.cell p).value).foldl min 2147483647, 0)
      else if fname = "MAX".toList then
        ((coords.map fun p => (S.cell p).value).foldl max (-2147483648), 0)
      else if fname = "SUM".toList then
        (wrap32 ((coords.map fun p => (S.cell p).value).sum), 0)
      else if fname = "AVG".toList then
        (wrap32 (Int.tdiv ((coords.map fun p => (S.cell p).value).sum) coords.length), 0)
      else if fname = "STDEV".toList then
        (roundSqrtFrac
          (stdevVarLoop S coords (Int.tdiv (stdevSumLoop S coords) coords.length))
          coords.length, 0)
      else (0, 1) := by
  unfold rangeDispatch
  rw [scanRange_ok S coords _ _ _ _ hok]
  simp only [foldl_add_eq_sum, zero_add, Nat.zero_add]
  rw [if_neg hne]

/-- A rectangle containing an `ERROR` cell propagates error 3 through
every aggregate. -/
theorem rangeDispatch_err_eq (S : Spreadsheet) (coords : List (ℕ × ℕ)) (fname : List Char)
    (herr : ∃ p ∈ coords, (S.cell p).status = .err) :
    rangeDispatch S fname coords = (0, 3) := by
  unfold rangeDispatch
  rw [scanRange_err S coords herr]

/-- **C8 (amended).**  For every in-bounds, non-reversed rectangle: if
every cell in it has status `OK` (and its values are `int`s, as the
engine guarantees), `SUM` returns the 32-bit wrap of the exact sum,
`AVG` returns the truncated quotient of the *exact* `long long` sum by
the cell count — not the quotient of the wrapped `SUM` — and `MIN`/`MAX`
return an attained minimum/maximum; if instead some cell of the
rectangle has status `ERROR`, every aggregate returns error 3
(`PROPAGATED_ERROR`). -/
theorem claim_c8_range_aggregates (S : Spreadsheet) (r1 c1 r2 c2 : ℕ)
    (h1 : r1 ≤ r2) (h2 : c1 ≤ c2) (hr : r2 < 2 ^ 31) (hc : c2 < 2 ^ 31)
    (hb : r2 < S.totalRows ∧ c2 < S.totalCols) :
    ((∀ p ∈ rectCoords r1 c1 r2 c2, (S.cell p).status = .ok) →
      (∀ p ∈ rectCoords r1 c1 r2 c2,
        -(2 ^ 31) ≤ (S.cell p).value ∧ (S.cell p).value < 2 ^ 31) →
      evaluateRangeFunction S "SUM".toList
          (coordsToCellName r1 c1 ++ ':' :: coordsToCellName r2 c2) =
        (wrap32 (((rectCoords r1 c1 r2 c2).map fun p => (S.cell p).value).sum), 0) ∧
      evaluateRangeFunction S "AVG".toList
          (coordsToCellName r1 c1 ++ ':' :: coordsToCellName r2 c2) =
        (Int.tdiv (((rectCoords r1 c1 r2 c2).map fun p => (S.cell p).value).sum)
          ((rectCoords r1 c1 r2 c2).length : ℤ), 0) ∧
      (∃ m, evaluateRangeFunction S "MIN".toList
          (coordsToCellName r1 c1 ++ ':' :: coordsToCellName r2 c2) = (m, 0) ∧
        m ∈ (rectCoords r1 c1 r2 c2).map (fun p => (S.cell p).value) ∧
        ∀ v ∈ (rectCoords r1 c1 r2 c2).map (fun p => (S.cell p).value), m ≤ v) ∧
      (∃ m, evaluateRangeFunction S "MAX".toList
          (coordsToCellName r1 c1 ++ ':' :: coordsToCellName r2 c2) = (m, 0) ∧
        m ∈ (rectCoords r1 c1 r2 c2).map (fun p => (S.cell p).value) ∧
        ∀ v ∈ (rectCoords r1 c1 r2 c2).map (fun p => (S.cell p).value), v ≤ m)) ∧
    ((∃ p ∈ rectCoords r1 c1 r2 c2, (S.cell p).status = .err) →
      ∀ fname, evaluateRangeFunction S fname
          (coordsToCellName r1 c1 ++ ':' :: coordsToCellName r2 c2) = (0, 3)) := by
  have hcanon : ∀ fname : List Char,
      evaluateRangeFunction S fname
        (coordsToCellName r1 c1 ++ ':' :: coordsToCellName r2 c2) =
      rangeDispatch S fname (rectCoords r1 c1 r2 c2) :=
    fun fname => evaluateRangeFunction_canonical S fname r1 c1 r2 c2 h1 h2 hr hc
  have hlen : (rectCoords r1 c1 r2 c2).length = (r2 + 1 - r1) * (c2 + 1 - c1) :=
    rectCoords_length r1 c1 r2 c2
  have hpos : 0 < (rectCoords r1 c1 r2 c2).length := by
    rw [hlen]; exact Nat.mul_pos (by omega) (by omega)
  constructor
  · intro hok hvals
    have hdisp := fun fname =>
      rangeDispatch_ok_eq S (rectCoords r1 c1 r2 c2) fname hok (by omega)
    have hne : ((rectCoords r1 c1 r2 c2).map fun p => (S.cell p).value) ≠ [] := by
      intro hnil
      have hl := congrArg List.length hnil
      simp only [List.length_map, List.length_nil] at hl
      omega
    refine ⟨?_, ?_, ?_, ?_⟩
    · rw [hcanon _, hdisp _]
      rw [if_neg (by decide), if_neg (by decide), if_pos rfl]
    · rw [hcanon _, hdisp _]
      rw [if_neg (by decide), if_neg (by decide), if_neg (by decide), if_pos rfl]
      have hvb : ∀ v ∈ (rectCoords r1 c1 r2 c2).map (fun p => (S.cell p).value),
          -(2 ^ 31) ≤ v ∧ v ≤ 2 ^ 31 - 1 := by
        intro v hv
        obtain ⟨p, hp, rfl⟩ := List.mem_map.mp hv
        obtain ⟨ha, hbv⟩ := hvals p hp
        exact ⟨ha, by omega⟩
      obtain ⟨hs1, hs2⟩ := sum_bounds _ hvb
      rw [List.length_map] at hs1 hs2
      obtain ⟨ht1, ht2⟩ := tdiv_range hpos hs1 hs2
      rw [wrap32_eq_self ht1 ht2]
    · rw [hcanon _, hdisp _, if_pos rfl]
      obtain ⟨hmem, _, hall⟩ :=
        foldl_min_spec ((rectCoords r1 c1 r2 c2).map fun p => (S.cell p).value) 2147483647
      refine ⟨_, rfl, ?_, hall⟩
      rcases List.mem_cons.mp hmem with he | hm
      · obtain ⟨v0, hv0⟩ := List.exists_mem_of_ne_nil _ hne
        have h5 := hall v0 hv0
        obtain ⟨p, hp, hpe⟩ := List.mem_map.mp hv0
        have h6 := (hvals p hp).2
        rw [hpe] at h6
        have hv : (((rectCoords r1 c1 r2 c2).map fun p => (S.cell p).value).foldl
            min 2147483647) = v0 := by
          rw [he] at h5 ⊢
          omega
        rw [hv]; exact hv0
      · exact hm
    · rw [hcanon _, hdisp _]
      rw [if_neg (by decide), if_pos rfl]
      obtain ⟨hmem, _, hall⟩ :=
        foldl_max_spec ((rectCoords r1 c1 r2 c2).map fun p => (S.cell p).value) (-2147483648)
      refine ⟨_, rfl, ?_, hall⟩
      rcases List.mem_cons.mp hmem with he | hm
      · obtain ⟨v0, hv0⟩ := List.exists_mem_of_ne_nil _ hne
        have h5 := hall v0 hv0
        obtain ⟨p, hp, hpe⟩ := List.mem_map.mp hv0
        have h6 := (hvals p hp).1
        rw [hpe] at h6
        have hv : (((rectCoords r1 c1 r2 c2).map fun p => (S.cell p).value).foldl
            max (-2147483648)) = v0 := by
          rw [he] at h5 ⊢
          omega
        rw [hv]; exact hv0
      · exact hm
  · intro herr fname
    rw [hcanon fname]
    exact rangeDispatch_err_eq S _ fname herr

/-- Witness for C8: on the 1×3 sheet holding `0, 0, 1` (all `OK`), the
range `A1:C1` satisfies every hypothesis, and the theorem yields the
aggregate characterisation. -/
theorem claim_c8_witness :
    evaluateRangeFunction stdevSheet "AVG".toList
        (coordsToCellName 0 0 ++ ':' :: coordsToCellName 0 2) =
      (Int.tdiv (((rectCoords 0 0 0 2).map fun p => (stdevSheet.cell p).value).sum)
        ((rectCoords 0 0 0 2).length : ℤ), 0) :=
  ((claim_c8_range_aggregates stdevSheet 0 0 0 2 (by decide) (by decide) (by decide)
    (by decide) ⟨by decide, by decide⟩).1 (by decide) (by decide)).2.1

/-- **C7 (amended).**  For every in-bounds, non-reversed, all-`OK`
rectangle whose values are small enough that no intermediate `int`
wraps, `STDEV` returns `round_half_away_from_zero (√(V/n))` — `z ≥ 0`
with `4V < (2z+1)²·n` minimal — where `V = Σ (vᵢ − m)²` is the sum of
squared deviations about the *integer-truncated* mean
`m = trunc(Σ vᵢ / n)`, not about the exact rational mean. -/
theorem claim_c7_stdev_truncated_mean (S : Spreadsheet) (r1 c1 r2 c2 : ℕ)
    (h1 : r1 ≤ r2) (h2 : c1 ≤ c2) (hr : r2 < 2 ^ 31) (hc : c2 < 2 ^ 31)
    (hb : r2 < S.totalRows ∧ c2 < S.totalCols)
    (hok : ∀ p ∈ rectCoords r1 c1 r2 c2, (S.cell p).status = .ok)
    (habs : ((rectCoords r1 c1 r2 c2).map fun p => (S.cell p).value.natAbs).sum < 2 ^ 31)
    (hsq : ∀ p ∈ rectCoords r1 c1 r2 c2,
      ((S.cell p).value -
        Int.tdiv (((rectCoords r1 c1 r2 c2).map fun q => (S.cell q).value).sum)
          ((rectCoords r1 c1 r2 c2).length : ℤ)) ^ 2 < 2 ^ 31) :
    ∃ z : ℤ,
      evaluateRangeFunction S "STDEV".toList
        (coordsToCellName r1 c1 ++ ':' :: coordsToCellName r2 c2) = (z, 0) ∧
      0 ≤ z ∧
      4 * ((rectCoords r1 c1 r2 c2).map fun p =>
          ((S.cell p).value -
            Int.tdiv (((rectCoords r1 c1 r2 c2).map fun q => (S.cell q).value).sum)
              ((rectCoords r1 c1 r2 c2).length : ℤ)) ^ 2).sum <
        (2 * z + 1) ^ 2 * ((rectCoords r1 c1 r2 c2).length : ℤ) ∧
      ∀ y : ℕ, (y : ℤ) < z →
        ((2 * (y : ℤ) + 1) ^ 2 * ((rectCoords r1 c1 r2 c2).length : ℤ)) ≤
          4 * ((rectCoords r1 c1 r2 c2).map fun p =>
            ((S.cell p).value -
              Int.tdiv (((rectCoords r1 c1 r2 c2).map fun q => (S.cell q).value).sum)
                ((rectCoords r1 c1 r2 c2).length : ℤ)) ^ 2).sum := by
  have hcanon :=
    evaluateRangeFunction_canonical S ("STDEV".toList) r1 c1 r2 c2 h1 h2 hr hc
  have hpos : 0 < (rectCoords r1 c1 r2 c2).length := by
    rw [rectCoords_length]
    exact Nat.mul_pos (by omega) (by omega)
  have hdisp :=
    rangeDispatch_ok_eq S (rectCoords r1 c1 r2 c2) "STDEV".toList hok (by omega)
  rw [if_neg (by decide), if_neg (by decide), if_neg (by decide), if_neg (by decide),
    if_pos rfl] at hdisp
  have hisum : stdevSumLoop S (rectCoords r1 c1 r2 c2) =
      ((rectCoords r1 c1 r2 c2).map fun p => (S.cell p).value).sum := by
    unfold stdevSumLoop
    rw [stdevSumLoop_exact S (rectCoords r1 c1 r2 c2) 0 (by simpa using habs)]
    exact zero_add _
  have hvar : stdevVarLoop S (rectCoords r1 c1 r2 c2)
      (Int.tdiv (stdevSumLoop S (rectCoords r1 c1 r2 c2))
        ((rectCoords r1 c1 r2 c2).length : ℤ)) =
      ((rectCoords r1 c1 r2 c2).map fun p =>
        ((S.cell p).value -
          Int.tdiv (((rectCoords r1 c1 r2 c2).map fun q => (S.cell q).value).sum)
            ((rectCoords r1 c1 r2 c2).length : ℤ)) ^ 2).sum := by
    unfold stdevVarLoop
    rw [hisum]
    rw [stdevVarLoop_exact S _ (rectCoords r1 c1 r2 c2) 0 hsq]
    exact zero_add _
  rw [hcanon, hdisp, hvar]
  obtain ⟨hz0, hzlt, hzmin⟩ := roundSqrtFrac_spec _ _
    (sum_sq_nonneg (rectCoords r1 c1 r2 c2) _) hpos
  exact ⟨_, rfl, hz0, hzlt, hzmin⟩

/-- Witness for C7: the 1×3 sheet holding `0, 0, 1` satisfies every
hypothesis on the range `A1:C1`, and the theorem produces the engine's
truncated-mean standard deviation. -/
theorem claim_c7_witness :
    ∃ z : ℤ,
      evaluateRangeFunction stdevSheet "STDEV".toList
        (coordsToCellName 0 0 ++ ':' :: coordsToCellName 0 2) = (z, 0) ∧
      0 ≤ z ∧
      4 * ((rectCoords 0 0 0 2).map fun p =>
          ((stdevSheet.cell p).value -
            Int.tdiv (((rectCoords 0 0 0 2).map fun q => (stdevSheet.cell q).value).sum)
              ((rectCoords 0 0 0 2).length : ℤ)) ^ 2).sum <
        (2 * z + 1) ^ 2 * ((rectCoords 0 0 0 2).length : ℤ) ∧
      ∀ y : ℕ, (y : ℤ) < z →
        ((2 * (y : ℤ) + 1) ^ 2 * ((rectCoords 0 0 0 2).length : ℤ)) ≤
          4 * ((rectCoords 0 0 0 2).map fun p =>
            ((stdevSheet.cell p).value -
              Int.tdiv (((rectCoords 0 0 0 2).map fun q => (stdevSheet.cell q).value).sum)
                ((rectCoords 0 0 0 2).length : ℤ)) ^ 2).sum :=
  claim_c7_stdev_truncated_mean stdevSheet 0 0 0 2 (by decide) (by decide) (by decide)
    (by decide) ⟨by decide, by decide⟩ (by decide) (by decide) (by decide)

/-! ## Claim C7, counterexample: `STDEV` uses the truncated mean -/

/-- **C7, counterexample.**  On the in-bounds, non-reversed range
`A1:C1` of a sheet holding `0, 0, 1` (all `OK`), the engine returns
`STDEV = 1`: it first truncates the mean to `trunc(1/3) = 0` and then
averages the squared deviations `0, 0, 1`, getting variance `1/3` and
`round(√(1/3)) = 1`.  The claim's formula — population variance `2/9`
about the exact mean `1/3`, then `round_half_away_from_zero(√·)` —
yields `0`.  The two disagree at this state. -/
theorem claim_c7_counterexample :
    ((rectCoords 0 0 0 2).map fun p => (stdevSheet.cell p).value) = [0, 0, 1] ∧
    (∀ p ∈ rectCoords 0 0 0 2, (stdevSheet.cell p).status = .ok) ∧
    evaluateRangeFunction stdevSheet "STDEV".toList "A1:C1".toList = (1, 0) ∧
    stdevSpec [0, 0, 1] = 0 := by
  refine ⟨by decide, by decide, by decide, by decide⟩

/-! ## Claim C8, counterexample: `AVG` divides before the 32-bit wrap -/

/-- **C8, counterexample.**  On the range `A1:D1` of a sheet holding
`2³⁰` in four `OK` cells, `SUM` returns the wrapped 32-bit value
`(int)2³² = 0`, while `AVG` divides the exact `long long` sum before
narrowing: `(int)(2³²/4) = 2³⁰`.  So `AVG(r) ≠ trunc(SUM(r)/|r|)` when
`SUM` is the claimed wrapped value: the claim's composition fails. -/
theorem claim_c8_counterexample :
    (∀ p ∈ rectCoords 0 0 0 3, (bigValueSheet.cell p).status = .ok) ∧
    evaluateRangeFunction bigValueSheet "SUM".toList "A1:D1".toList = (0, 0) ∧
    evaluateRangeFunction bigValueSheet "AVG".toList "A1:D1".toList = (2 ^ 30, 0) ∧
    (evaluateRangeFunction bigValueSheet "AVG".toList "A1:D1".toList).1 ≠
      Int.tdiv (evaluateRangeFunction bigValueSheet "SUM".toList "A1:D1".toList).1 4 := by
  refine ⟨by decide, by decide, by decide, by decide⟩

/-! ## Claim C9: the cell-name codec -/

/-- **C9.**  For every coordinate, `coordsToCellName` emits a non-empty
run of uppercase letters (the bijective-base-26 column code) followed by
a non-empty run of decimal digits (the 1-based row); `cellNameToCoords`
decodes that name — and any letter-case variant of it (any string whose
character-wise uppercasing is the name) — back to exactly `(row, col)`;
and it rejects every string that has characters remaining after its
maximal letter run and digit run. -/
theorem claim_c9_name_codec :
    (∀ row col : ℕ, ∃ L D : List Char,
      coordsToCellName row col = L ++ D ∧ L ≠ [] ∧ D ≠ [] ∧
      (∀ ch ∈ L, 65 ≤ ch.toNat ∧ ch.toNat ≤ 90) ∧
      (∀ ch ∈ D, isDigitC ch = true)) ∧
    (∀ row col : ℕ, cellNameToCoords (coordsToCellName row col) = some (row, col)) ∧
    (∀ (row col : ℕ) (s : List Char), s.map toUpperC = coordsToCellName row col →
      cellNameToCoords s = some (row, col)) ∧
    (∀ s : List Char, (s.dropWhile isAlphaC).dropWhile isDigitC ≠ [] →
      cellNameToCoords s = none) := by
  refine ⟨?_, cellNameToCoords_coordsToCellName, ?_, ?_⟩
  · intro row col
    refine ⟨(toB26 (col + 1)).reverse, (toDec (row + 1)).reverse, rfl, ?_, ?_, ?_, ?_⟩
    · simpa using toB26_pos_ne_nil col
    · simpa using toDec_pos_ne_nil row
    · intro ch hch
      obtain ⟨r, hr, rfl⟩ := toB26_mem _ (List.mem_reverse.mp hch)
      rw [toNat_ofNat_small (by omega)]
      omega
    · intro ch hch
      obtain ⟨r, hr, rfl⟩ := toDec_mem _ (List.mem_reverse.mp hch)
      exact isDigitC_digit_ofNat hr
  · intro row col s hs
    rw [← cellNameToCoords_map_toUpperC, hs, cellNameToCoords_coordsToCellName]
  · intro s hres
    cases hd : cellNameToCoords s with
    | none => rfl
    | some rc => exact absurd (cellNameToCoords_residue hd) hres

/-- Witness for C9 at concrete inputs: the name of `(row 2, col 27)` is
`AB3`, its lower-case variant `ab3` decodes to the same coordinate, and
`A1x` (a residue after the digit run) is rejected. -/
theorem claim_c9_witness :
    cellNameToCoords (coordsToCellName 2 27) = some (2, 27) ∧
    cellNameToCoords ['a', 'b', '3'] = some (2, 27) ∧
    cellNameToCoords ['A', '1', 'x'] = none :=
  ⟨claim_c9_name_codec.2.1 2 27,
   claim_c9_name_codec.2.2.1 2 27 ['a', 'b', '3'] (by decide),
   claim_c9_name_codec.2.2.2 ['A', '1', 'x'] (by decide)⟩

/-! ## Edge-structure lemmas: the dependency graph through the edit
transaction -/

/-- Swap-with-last removal deletes, as a multiset, exactly one
occurrence of the key. -/
theorem removeDependentArr_coe (l : List (ℕ × ℕ)) (rc : ℕ × ℕ) :
    (removeDependentArr l rc : Multiset (ℕ × ℕ)) = (l : Multiset (ℕ × ℕ)).erase rc := by
  unfold removeDependentArr
  cases hf : l.findIdx? (fun d => d = rc) with
  | none =>
    have hnm : rc ∉ l := by
      intro hm
      have h2 := (List.findIdx?_eq_none_iff.mp hf) rc hm
      simp at h2
    show (l : Multiset (ℕ × ℕ)) = (l : Multiset (ℕ × ℕ)).erase rc
    rw [Multiset.erase_of_not_mem (by simpa using hnm)]
  | some i =>
    obtain ⟨hi, hpi, _⟩ := List.findIdx?_eq_some_iff_getElem.mp hf
    show (((l.set i (l.getLast?.getD rc)).dropLast : List (ℕ × ℕ)) : Multiset (ℕ × ℕ)) =
      (l : Multiset (ℕ × ℕ)).erase rc
    have hrc : l[i] = rc := by simpa using hpi
    have hmem : rc ∈ l := hrc ▸ List.getElem_mem hi
    have hne : l ≠ [] := List.ne_nil_of_mem hmem
    have hlen : 0 < l.length := List.length_pos.mpr hne
    have hlast : l.getLast?.getD rc = l.get ⟨l.length - 1, by omega⟩ := by
      rw [List.getLast?_eq_getElem?, List.getElem?_eq_getElem (by omega)]
      rfl
    have hmain : ((rc :: (l.set i (l.getLast?.getD rc)).dropLast)).Perm l := by
      rw [hlast, List.get_eq_getElem, List.set_eq_take_cons_drop _ hi]
      rcases Nat.lt_or_ge i (l.length - 1) with hilt | hige
      · have hD : l.drop (i + 1) ≠ [] := by
          intro h0
          have := List.drop_eq_nil_iff.mp h0
          omega
        have hgl : (l.drop (i + 1)).getLast hD = l.get ⟨l.length - 1, by omega⟩ := by
          rw [List.getLast_eq_getElem, List.get_eq_getElem]
          simp only [List.getElem_drop, List.length_drop]
          simp only [show i + 1 + (l.length - (i + 1) - 1) = l.length - 1 from by omega]
        have hdecomp : l.drop (i + 1) =
            (l.drop (i + 1)).dropLast ++ [l.get ⟨l.length - 1, by omega⟩] := by
          conv_lhs => rw [← List.dropLast_append_getLast hD]
          rw [hgl]
        have hdl : (List.take i l ++ l.get ⟨l.length - 1, by omega⟩ ::
              l.drop (i + 1)).dropLast =
            List.take i l ++ l.get ⟨l.length - 1, by omega⟩ ::
              (l.drop (i + 1)).dropLast := by
          conv_lhs => rw [hdecomp]
          rw [show List.take i l ++ l.get ⟨l.length - 1, by omega⟩ ::
              ((l.drop (i + 1)).dropLast ++ [l.get ⟨l.length - 1, by omega⟩]) =
            (List.take i l ++ l.get ⟨l.length - 1, by omega⟩ ::
              (l.drop (i + 1)).dropLast) ++
              [l.get ⟨l.length - 1, by omega⟩] from by simp]
          rw [List.dropLast_concat]
        rw [List.get_eq_getElem] at hdl
        rw [hdl]
        have hl : l = List.take i l ++ rc :: l.drop (i + 1) := by
          conv_lhs => rw [← List.take_append_drop i l, List.drop_eq_getElem_cons hi, hrc]
        conv_rhs => rw [hl]
        refine List.Perm.trans (List.Perm.cons rc (List.Perm.append_left _ ?_))
          List.perm_middle.symm
        conv_rhs => rw [hdecomp]
        rw [List.get_eq_getElem]
        exact (List.perm_append_singleton _ _).symm
      · have hdrop : l.drop (i + 1) = [] := by
          rw [List.drop_eq_nil_iff]
          omega
        rw [hdrop]
        have hx : l.get ⟨l.length - 1, by omega⟩ = rc := by
          rw [← hrc, List.get_eq_getElem]
          simp only [show l.length - 1 = i from by omega]
        rw [List.get_eq_getElem] at hx
        rw [hx, List.dropLast_concat]
        have hl : l = List.take i l ++ [rc] := by
          conv_lhs => rw [← List.take_append_drop i l, List.drop_eq_getElem_cons hi, hrc,
            hdrop]
        conv_rhs => rw [hl]
        exact (List.perm_append_singleton _ _).symm
    have hco : (rc ::ₘ ((l.set i (l.getLast?.getD rc)).dropLast : Multiset (ℕ × ℕ))) =
        (l : Multiset (ℕ × ℕ)) := by
      rw [Multiset.cons_coe]
      exact Multiset.coe_eq_coe.mpr hmain
    rw [← hco, Multiset.erase_cons_head]

/-- Reading a cell through a point update. -/
theorem cell_setCellF (S : Spreadsheet) (p : ℕ × ℕ) (g : Cell → Cell) (q : ℕ × ℕ) :
    (setCellF S p g).cell q = if q = p then g (S.cell p) else S.cell q := by
  show (if q = p then g (S.cells q) else S.cells q) = _
  by_cases h : q = p
  · rw [if_pos h, if_pos h, h]
    rfl
  · rw [if_neg h, if_neg h]
    rfl

/-- `removeDependent` erases one dependent occurrence and leaves every
other field of every cell alone. -/
theorem cell_removeDependent (S : Spreadsheet) (d p q : ℕ × ℕ) :
    ((removeDependent S d p).cell q).dependencies = (S.cell q).dependencies ∧
    ((removeDependent S d p).cell q).formula = (S.cell q).formula ∧
    ((removeDependent S d p).cell q).value = (S.cell q).value ∧
    ((removeDependent S d p).cell q).status = (S.cell q).status ∧
    (((removeDependent S d p).cell q).dependents : Multiset (ℕ × ℕ)) =
      (if q = d then (((S.cell q).dependents : List (ℕ × ℕ)) : Multiset (ℕ × ℕ)).erase p
       else (((S.cell q).dependents : List (ℕ × ℕ)) : Multiset (ℕ × ℕ))) := by
  unfold removeDependent
  rw [cell_setCellF]
  by_cases h : q = d
  · subst h
    rw [if_pos rfl, if_pos rfl]
    exact ⟨rfl, rfl, rfl, rfl, removeDependentArr_coe _ _⟩
  · rw [if_neg h, if_neg h]
    exact ⟨rfl, rfl, rfl, rfl, rfl⟩

/-- `addDependencyPointer` appends one forward edge at `p` and leaves
everything else alone. -/
theorem cell_addDependencyPointer (S : Spreadsheet) (p d q : ℕ × ℕ) :
    ((addDependencyPointer S p d).cell q).dependencies =
      (S.cell q).dependencies ++ (if q = p then [d] else []) ∧
    ((addDependencyPointer S p d).cell q).formula = (S.cell q).formula ∧
    ((addDependencyPointer S p d).cell q).value = (S.cell q).value ∧
    ((addDependencyPointer S p d).cell q).status = (S.cell q).status ∧
    ((addDependencyPointer S p d).cell q).dependents = (S.cell q).dependents := by
  unfold addDependencyPointer
  rw [cell_setCellF]
  by_cases h : q = p
  · subst h
    rw [if_pos rfl, if_pos rfl]
    exact ⟨rfl, rfl, rfl, rfl, rfl⟩
  · rw [if_neg h, if_neg h]
    exact ⟨(List.append_nil _).symm, rfl, rfl, rfl, rfl⟩

/-- `addDependentPointer` appends one reverse edge at `p` and leaves
everything else alone. -/
theorem cell_addDependentPointer (S : Spreadsheet) (p dep q : ℕ × ℕ) :
    ((addDependentPointer S p dep).cell q).dependents =
      (S.cell q).dependents ++ (if q = p then [dep] else []) ∧
    ((addDependentPointer S p dep).cell q).formula = (S.cell q).formula ∧
    ((addDependentPointer S p dep).cell q).value = (S.cell q).value ∧
    ((addDependentPointer S p dep).cell q).status = (S.cell q).status ∧
    ((addDependentPointer S p dep).cell q).dependencies = (S.cell q).dependencies := by
  unfold addDependentPointer
  rw [cell_setCellF]
  by_cases h : q = p
  · subst h
    rw [if_pos rfl, if_pos rfl]
    exact ⟨rfl, rfl, rfl, rfl, rfl⟩
  · rw [if_neg h, if_neg h]
    exact ⟨(List.append_nil _).symm, rfl, rfl, rfl, rfl⟩

/-- `clearDependencies` empties `p`'s forward list and leaves everything
else alone. -/
theorem cell_clearDependencies (S : Spreadsheet) (p q : ℕ × ℕ) :
    ((clearDependencies S p).cell q).dependencies =
      (if q = p then [] else (S.cell q).dependencies) ∧
    ((clearDependencies S p).cell q).formula = (S.cell q).formula ∧
    ((clearDependencies S p).cell q).value = (S.cell q).value ∧
    ((clearDependencies S p).cell q).status = (S.cell q).status ∧
    ((clearDependencies S p).cell q).dependents = (S.cell q).dependents := by
  unfold clearDependencies
  rw [cell_setCellF]
  by_cases h : q = p
  · subst h
    rw [if_pos rfl, if_pos rfl]
    exact ⟨rfl, rfl, rfl, rfl, rfl⟩
  · rw [if_neg h, if_neg h]
    exact ⟨rfl, rfl, rfl, rfl, rfl⟩

/-- The removal sweep: forward lists, formulas, values and statuses are
untouched; each cell `q` loses one dependent occurrence of `p` per
occurrence of `q` in the swept list. -/
theorem removeEdges_cell (p : ℕ × ℕ) :
    ∀ (l : List (ℕ × ℕ)) (S : Spreadsheet) (q : ℕ × ℕ),
      ((removeEdges S p l).cell q).dependencies = (S.cell q).dependencies ∧
      ((removeEdges S p l).cell q).formula = (S.cell q).formula ∧
      ((removeEdges S p l).cell q).value = (S.cell q).value ∧
      ((removeEdges S p l).cell q).status = (S.cell q).status ∧
      ∀ a : ℕ × ℕ,
        Multiset.count a (((removeEdges S p l).cell q).dependents : Multiset (ℕ × ℕ)) =
          Multiset.count a ((S.cell q).dependents : Multiset (ℕ × ℕ)) -
            (if a = p then Multiset.count q (l : Multiset (ℕ × ℕ)) else 0) := by
  intro l
  induction l with
  | nil =>
    intro S q
    refine ⟨rfl, rfl, rfl, rfl, fun a => ?_⟩
    show Multiset.count a ((S.cell q).dependents : Multiset (ℕ × ℕ)) = _
    simp
  | cons d t ih =>
    intro S q
    have hstep : removeEdges S p (d :: t) = removeEdges (removeDependent S d p) p t := rfl
    rw [hstep]
    obtain ⟨h1, h2, h3, h4, h5⟩ := ih (removeDependent S d p) q
    obtain ⟨g1, g2, g3, g4, g5⟩ := cell_removeDependent S d p q
    refine ⟨h1.trans g1, h2.trans g2, h3.trans g3, h4.trans g4, ?_⟩
    intro a
    rw [h5 a, g5]
    by_cases hqd : q = d
    · subst hqd
      rw [if_pos rfl]
      by_cases hap : a = p
      · subst hap
        rw [if_pos rfl, if_pos rfl, Multiset.count_erase_self]
        rw [show ((q :: t : List (ℕ × ℕ)) : Multiset (ℕ × ℕ)) =
          q ::ₘ (t : Multiset (ℕ × ℕ)) from (Multiset.cons_coe q t).symm]
        rw [Multiset.count_cons_self]
        omega
      · rw [if_neg hap, if_neg hap, Multiset.count_erase_of_ne hap]
    · rw [if_neg hqd]
      by_cases hap : a = p
      · subst hap
        rw [if_pos rfl, if_pos rfl]
        rw [show ((d :: t : List (ℕ × ℕ)) : Multiset (ℕ × ℕ)) =
          d ::ₘ (t : Multiset (ℕ × ℕ)) from (Multiset.cons_coe d t).symm]
        rw [Multiset.count_cons_of_ne hqd]
      · rw [if_neg hap, if_neg hap]

/-- The installation sweep: `p`'s forward list gains the swept list in
order; each cell `q` gains one dependent occurrence of `p` per
occurrence of `q` in the swept list; all other fields are untouched. -/
theorem installEdges_cell (p : ℕ × ℕ) :
    ∀ (l : List (ℕ × ℕ)) (S : Spreadsheet) (q : ℕ × ℕ),
      ((installEdges S p l).cell q).dependencies =
        (S.cell q).dependencies ++ (if q = p then l else []) ∧
      ((installEdges S p l).cell q).formula = (S.cell q).formula ∧
      ((installEdges S p l).cell q).value = (S.cell q).value ∧
      ((installEdges S p l).cell q).status = (S.cell q).status ∧
      ∀ a : ℕ × ℕ,
        Multiset.count a (((installEdges S p l).cell q).dependents : Multiset (ℕ × ℕ)) =
          Multiset.count a ((S.cell q).dependents : Multiset (ℕ × ℕ)) +
            (if a = p then Multiset.count q (l : Multiset (ℕ × ℕ)) else 0) := by
  intro l
  induction l with
  | nil =>
    intro S q
    refine ⟨?_, rfl, rfl, rfl, fun a => ?_⟩
    · show (S.cell q).dependencies = _
      by_cases h : q = p
      · rw [if_pos h, List.append_nil]
      · rw [if_neg h, List.append_nil]
    · show Multiset.count a ((S.cell q).dependents : Multiset (ℕ × ℕ)) = _
      simp
  | cons d t ih =>
    intro S q
    have hstep : installEdges S p (d :: t) =
        installEdges (addDependentPointer (addDependencyPointer S p d) d p) p t := rfl
    rw [hstep]
    obtain ⟨h1, h2, h3, h4, h5⟩ :=
      ih (addDependentPointer (addDependencyPointer S p d) d p) q
    obtain ⟨g1, g2, g3, g4, g5⟩ :=
      cell_addDependentPointer (addDependencyPointer S p d) d p q
    obtain ⟨k1, k2, k3, k4, k5⟩ := cell_addDependencyPointer S p d q
    refine ⟨?_, h2.trans (g2.trans k2), h3.trans (g3.trans k3), h4.trans (g4.trans k4), ?_⟩
    · rw [h1, g5, k1]
      by_cases hqp : q = p
      · rw [if_pos hqp, if_pos hqp, if_pos hqp, List.append_assoc]
        rfl
      · rw [if_neg hqp, if_neg hqp, if_neg hqp, List.append_nil, List.append_nil]
    · intro a
      rw [h5 a, g1, k5]
      by_cases hqd : q = d
      · rw [if_pos hqd]
        have hco : (((S.cell q).dependents ++ [p] : List (ℕ × ℕ)) : Multiset (ℕ × ℕ)) =
            ((S.cell q).dependents : Multiset (ℕ × ℕ)) + ([p] : List (ℕ × ℕ)) := by
          exact_mod_cast rfl
        rw [hco, Multiset.count_add]
        by_cases hap : a = p
        · subst hap
          rw [if_pos rfl, if_pos rfl]
          rw [show ((d :: t : List (ℕ × ℕ)) : Multiset (ℕ × ℕ)) =
            d ::ₘ (t : Multiset (ℕ × ℕ)) from (Multiset.cons_coe d t).symm]
          rw [hqd, Multiset.count_cons_self]
          have : Multiset.count a (([a] : List (ℕ × ℕ)) : Multiset (ℕ × ℕ)) = 1 := by simp
          rw [this]
          omega
        · rw [if_neg hap, if_neg hap]
          have : Multiset.count a (([p] : List (ℕ × ℕ)) : Multiset (ℕ × ℕ)) = 0 := by
            simp [hap]
          rw [this]
      · rw [if_neg hqd, List.append_nil]
        by_cases hap : a = p
        · subst hap
          rw [if_pos rfl, if_pos rfl]
          rw [show ((d :: t : List (ℕ × ℕ)) : Multiset (ℕ × ℕ)) =
            d ::ₘ (t : Multiset (ℕ × ℕ)) from (Multiset.cons_coe d t).symm]
          rw [Multiset.count_cons_of_ne hqd]
        · rw [if_neg hap, if_neg hap]

/-- A formula of digits and minus signs only (the `isConstant` test of
the transaction) yields no extracted dependencies: the extractor scans
for letters and finds none. -/
theorem constant_extract_nil {f : List Char}
    (h : (f.all fun ch => isDigitC ch || ch = '-') = true) :
    extractDependencies f = [] := by
  unfold extractDependencies
  rw [extractLoopF]
  have hd : f.dropWhile (fun ch => !isAlphaC ch) = [] := by
    rw [List.dropWhile_eq_nil_iff]
    intro ch hch
    have h2 := List.all_eq_true.mp h ch hch
    simp only [Bool.or_eq_true, decide_eq_true_eq] at h2
    suffices hs : isAlphaC ch = false by rw [hs]; rfl
    rw [Bool.eq_false_iff]
    intro hb
    unfold isAlphaC at hb
    simp only [Bool.or_eq_true, Bool.and_eq_true, decide_eq_true_eq] at hb
    unfold isDigitC at h2
    rcases h2 with h2 | h2
    · simp only [Bool.and_eq_true, decide_eq_true_eq] at h2
      omega
    · subst h2
      rw [show Char.toNat ('-') = 45 from rfl] at hb
      omega
  rw [hd]

/-- The error-poisoning recursion touches only `value` and `status`:
the edges and formulas of every cell are left exactly alone. -/
theorem mark_graph : ∀ fuel : ℕ,
    (∀ (S : Spreadsheet) (p q : ℕ × ℕ),
      ((markCell fuel S p).cell q).dependencies = (S.cell q).dependencies ∧
      ((markCell fuel S p).cell q).formula = (S.cell q).formula ∧
      ((markCell fuel S p).cell q).dependents = (S.cell q).dependents) ∧
    (∀ (S : Spreadsheet) (l : List (ℕ × ℕ)) (q : ℕ × ℕ),
      ((markList fuel S l).cell q).dependencies = (S.cell q).dependencies ∧
      ((markList fuel S l).cell q).formula = (S.cell q).formula ∧
      ((markList fuel S l).cell q).dependents = (S.cell q).dependents) := by
  intro fuel
  induction fuel with
  | zero =>
    refine ⟨fun S p q => ⟨rfl, rfl, rfl⟩, fun S l q => ⟨rfl, rfl, rfl⟩⟩
  | succ fuel ih =>
    obtain ⟨ihc, ihl⟩ := ih
    constructor
    · intro S p q
      rw [markCell]
      by_cases herr : (S.cell p).status = .err
      · rw [if_pos herr]
        exact ⟨rfl, rfl, rfl⟩
      · rw [if_neg herr]
        obtain ⟨a1, a2, a3⟩ :=
          ihl (setCellF S p fun c => { c with status := .err, value := 0 })
            (S.cell p).dependents q
        rw [a1, a2, a3, cell_setCellF]
        by_cases hq : q = p
        · rw [if_pos hq, hq]
          exact ⟨rfl, rfl, rfl⟩
        · rw [if_neg hq]
          exact ⟨rfl, rfl, rfl⟩
    · intro S l q
      cases l with
      | nil =>
        rw [markList]
        exact ⟨rfl, rfl, rfl⟩
      | cons d rest =>
        rw [markList]
        obtain ⟨a1, a2, a3⟩ := ihl (markCell fuel S d) rest q
        obtain ⟨b1, b2, b3⟩ := ihc S d q
        exact ⟨a1.trans b1, a2.trans b2, a3.trans b3⟩

/-- `markCellAndDependentsAsError` preserves the dependency graph and
the formulas. -/
theorem markError_graph (S : Spreadsheet) (p q : ℕ × ℕ) :
    ((markCellAndDependentsAsError S p).cell q).dependencies = (S.cell q).dependencies ∧
    ((markCellAndDependentsAsError S p).cell q).formula = (S.cell q).formula ∧
    ((markCellAndDependentsAsError S p).cell q).dependents = (S.cell q).dependents :=
  (mark_graph _).1 S p q

/-- The topological cascade touches only `value` and `status`, and its
returned message is the incoming one or one of the two abort texts. -/
theorem topoLoop_effect (affected : List (ℕ × ℕ)) :
    ∀ (fuel : ℕ) (S : Spreadsheet) (indeg : List ℤ) (queue : List ℕ) (msg : String),
      (∀ q : ℕ × ℕ,
        ((topoLoop affected fuel S indeg queue msg).1.cell q).dependencies =
          (S.cell q).dependencies ∧
        ((topoLoop affected fuel S indeg queue msg).1.cell q).formula =
          (S.cell q).formula ∧
        ((topoLoop affected fuel S indeg queue msg).1.cell q).dependents =
          (S.cell q).dependents) ∧
      ((topoLoop affected fuel S indeg queue msg).2 = msg ∨
        (topoLoop affected fuel S indeg queue msg).2 = "Invalid range" ∨
        (topoLoop affected fuel S indeg queue msg).2 = "Error in formula") := by
  intro fuel
  induction fuel with
  | zero =>
    intro S indeg queue msg
    exact ⟨fun q => ⟨rfl, rfl, rfl⟩, Or.inl rfl⟩
  | succ fuel ih =>
    intro S indeg queue msg
    cases queue with
    | nil => exact ⟨fun q => ⟨rfl, rfl, rfl⟩, Or.inl rfl⟩
    | cons idx qrest =>
      rw [topoLoop]
      cases hform : (S.cell (affected.getD idx (0, 0))).formula with
      | none =>
        simp only [hform]
        exact ih S _ _ msg
      | some f =>
        simp only [hform]
        by_cases h3 : (evaluateFormula S f).2 = 3
        · rw [if_pos h3]
          obtain ⟨ih1, ih2⟩ :=
            ih (setCellF S (affected.getD idx (0, 0)) fun c => { c with status := .err })
              _ _ msg
          refine ⟨fun q => ?_, ih2⟩
          obtain ⟨a1, a2, a3⟩ := ih1 q
          rw [a1, a2, a3, cell_setCellF]
          by_cases hq : q = affected.getD idx (0, 0)
          · rw [if_pos hq, hq]
            exact ⟨rfl, rfl, rfl⟩
          · rw [if_neg hq]
            exact ⟨rfl, rfl, rfl⟩
        · rw [if_neg h3]
          by_cases h2 : (evaluateFormula S f).2 = 2
          · rw [if_pos h2]
            exact ⟨fun q => ⟨rfl, rfl, rfl⟩, Or.inr (Or.inl rfl)⟩
          · rw [if_neg h2]
            by_cases h1 : (evaluateFormula S f).2 = 1
            · rw [if_pos h1]
              exact ⟨fun q => ⟨rfl, rfl, rfl⟩, Or.inr (Or.inr rfl)⟩
            · rw [if_neg h1]
              obtain ⟨ih1, ih2⟩ :=
                ih (setCellF S (affected.getD idx (0, 0)) fun c =>
                  { c with value := (evaluateFormula S f).1, status := .ok }) _ _ msg
              refine ⟨fun q => ?_, ih2⟩
              obtain ⟨a1, a2, a3⟩ := ih1 q
              rw [a1, a2, a3, cell_setCellF]
              by_cases hq : q = affected.getD idx (0, 0)
              · rw [if_pos hq, hq]
                exact ⟨rfl, rfl, rfl⟩
              · rw [if_neg hq]
                exact ⟨rfl, rfl, rfl⟩

/-- `recalcAffected` touches only values and statuses; its message is
the incoming one or one of the two abort texts. -/
theorem recalcAffected_effect (S : Spreadsheet) (row col : ℕ) (msg : String) :
    (∀ q : ℕ × ℕ,
      ((recalcAffected S row col msg).1.cell q).dependencies = (S.cell q).dependencies ∧
      ((recalcAffected S row col msg).1.cell q).formula = (S.cell q).formula ∧
      ((recalcAffected S row col msg).1.cell q).dependents = (S.cell q).dependents) ∧
    ((recalcAffected S row col msg).2 = msg ∨
      (recalcAffected S row col msg).2 = "Invalid range" ∨
      (recalcAffected S row col msg).2 = "Error in formula") := by
  unfold recalcAffected
  by_cases h : (dfsLoop S (row, col) (totalDependents S + 2) [(row, col)]
      (fun _ => false) []).length = 0
  · rw [if_pos h]
    exact ⟨fun q => ⟨rfl, rfl, rfl⟩, Or.inl rfl⟩
  · rw [if_neg h]
    exact topoLoop_effect _ _ _ _ _ _

/-- A fresh sheet satisfies both graph invariants. -/
theorem createSpreadsheet_inv (rows cols : ℕ) :
    symmInv (createSpreadsheet rows cols) ∧ depsInv (createSpreadsheet rows cols) :=
  ⟨fun _ _ => rfl, fun _ => rfl⟩

/-- A point update of the formula field only. -/
theorem cell_setFormula (S : Spreadsheet) (p : ℕ × ℕ) (of : Option (List Char))
    (q : ℕ × ℕ) :
    ((setCellF S p fun c => { c with formula := of }).cell q).value = (S.cell q).value ∧
    ((setCellF S p fun c => { c with formula := of }).cell q).status = (S.cell q).status ∧
    ((setCellF S p fun c => { c with formula := of }).cell q).dependents =
      (S.cell q).dependents ∧
    ((setCellF S p fun c => { c with formula := of }).cell q).dependencies =
      (S.cell q).dependencies ∧
    ((setCellF S p fun c => { c with formula := of }).cell q).formula =
      (if q = p then of else (S.cell q).formula) := by
  rw [cell_setCellF]
  by_cases h : q = p
  · subst h
    rw [if_pos rfl, if_pos rfl]
    exact ⟨rfl, rfl, rfl, rfl, rfl⟩
  · rw [if_neg h, if_neg h]
    exact ⟨rfl, rfl, rfl, rfl, rfl⟩

/-- Field-level characterisation of the install stages S1–S4. -/
theorem editInstall_cell (S : Spreadsheet) (p : ℕ × ℕ) (f : List Char) (q : ℕ × ℕ) :
    ((editInstall S p f).cell q).value = (S.cell q).value ∧
    ((editInstall S p f).cell q).status = (S.cell q).status ∧
    ((editInstall S p f).cell q).formula =
      (if q = p then some f else (S.cell q).formula) ∧
    ((editInstall S p f).cell q).dependencies =
      (if q = p then
        (if (f.all fun ch => isDigitC ch || ch = '-') then [] else extractDependencies f)
       else (S.cell q).dependencies) ∧
    ∀ a : ℕ × ℕ,
      Multiset.count a (((editInstall S p f).cell q).dependents : Multiset (ℕ × ℕ)) =
        Multiset.count a ((S.cell q).dependents : Multiset (ℕ × ℕ)) -
          (if a = p then
            Multiset.count q ((S.cell p).dependencies : Multiset (ℕ × ℕ)) else 0) +
          (if a = p then
            Multiset.count q
              (((if (f.all fun ch => isDigitC ch || ch = '-') then []
                 else extractDependencies f) : List (ℕ × ℕ)) : Multiset (ℕ × ℕ))
           else 0) := by
  obtain ⟨r1, r2, r3, r4, r5⟩ := removeEdges_cell p ((S.cell p).dependencies) S q
  obtain ⟨c1, c2, c3, c4, c5⟩ :=
    cell_clearDependencies (removeEdges S p ((S.cell p).dependencies)) p q
  obtain ⟨f1, f2, f3, f4, f5⟩ :=
    cell_setFormula (clearDependencies (removeEdges S p ((S.cell p).dependencies)) p) p
      (some f) q
  have hval : ((setCellF (clearDependencies (removeEdges S p ((S.cell p).dependencies)) p)
      p fun c => { c with formula := some f }).cell q).value = (S.cell q).value :=
    f1.trans (c3.trans r3)
  have hstat : ((setCellF (clearDependencies (removeEdges S p ((S.cell p).dependencies)) p)
      p fun c => { c with formula := some f }).cell q).status = (S.cell q).status :=
    f2.trans (c4.trans r4)
  have hform : ((setCellF (clearDependencies (removeEdges S p ((S.cell p).dependencies)) p)
      p fun c => { c with formula := some f }).cell q).formula =
      (if q = p then some f else (S.cell q).formula) := by
    rw [f5]
    by_cases hq : q = p
    · rw [if_pos hq, if_pos hq]
    · rw [if_neg hq, if_neg hq, c2, r2]
  have hdeps : ((setCellF (clearDependencies (removeEdges S p ((S.cell p).dependencies)) p)
      p fun c => { c with formula := some f }).cell q).dependencies =
      (if q = p then [] else (S.cell q).dependencies) := by
    rw [f4, c1]
    by_cases hq : q = p
    · rw [if_pos hq, if_pos hq]
    · rw [if_neg hq, if_neg hq, r1]
  have hcnt : ∀ a : ℕ × ℕ,
      Multiset.count a (((setCellF (clearDependencies (removeEdges S p
          ((S.cell p).dependencies)) p) p fun c =>
          { c with formula := some f }).cell q).dependents : Multiset (ℕ × ℕ)) =
        Multiset.count a ((S.cell q).dependents : Multiset (ℕ × ℕ)) -
          (if a = p then
            Multiset.count q ((S.cell p).dependencies : Multiset (ℕ × ℕ)) else 0) := by
    intro a
    rw [f3, c5, r5 a]
  unfold editInstall
  by_cases hconst : (f.all fun ch => isDigitC ch || ch = '-') = true
  · rw [if_pos hconst, if_pos hconst]
    refine ⟨hval, hstat, hform, ?_, fun a => ?_⟩
    · rw [hdeps]
    · rw [hcnt a]
      by_cases hap : a = p
      · rw [if_pos hap]
        simp
      · rw [if_neg hap]
        simp
  · rw [if_neg hconst, if_neg hconst]
    obtain ⟨i1, i2, i3, i4, i5⟩ := installEdges_cell p (extractDependencies f)
      (setCellF (clearDependencies (removeEdges S p ((S.cell p).dependencies)) p) p
        (fun c => { c with formula := some f })) q
    refine ⟨i3.trans hval, i4.trans hstat, i2.trans hform, ?_, fun a => ?_⟩
    · rw [i1, hdeps]
      by_cases hq : q = p
      · rw [if_pos hq, if_pos hq, if_pos hq, List.nil_append]
      · rw [if_neg hq, if_neg hq, if_neg hq, List.append_nil]
    · rw [i5 a, hcnt a]
/-- Field-level characterisation of the rollback stages S5–S8. -/
theorem editRollback_cell (T : Spreadsheet) (p : ℕ × ℕ) (of : Option (List Char))
    (od : List (ℕ × ℕ)) (q : ℕ × ℕ) :
    ((editRollback T p of od).cell q).value = (T.cell q).value ∧
    ((editRollback T p of od).cell q).status = (T.cell q).status ∧
    ((editRollback T p of od).cell q).formula =
      (if q = p then of else (T.cell q).formula) ∧
    ((editRollback T p of od).cell q).dependencies =
      (if q = p then od else (T.cell q).dependencies) ∧
    ∀ a : ℕ × ℕ,
      Multiset.count a (((editRollback T p of od).cell q).dependents : Multiset (ℕ × ℕ)) =
        Multiset.count a ((T.cell q).dependents : Multiset (ℕ × ℕ)) -
          (if a = p then
            Multiset.count q ((T.cell p).dependencies : Multiset (ℕ × ℕ)) else 0) +
          (if a = p then Multiset.count q ((od : List (ℕ × ℕ)) : Multiset (ℕ × ℕ))
           else 0) := by
  obtain ⟨r1, r2, r3, r4, r5⟩ := removeEdges_cell p ((T.cell p).dependencies) T q
  obtain ⟨c1, c2, c3, c4, c5⟩ :=
    cell_clearDependencies (removeEdges T p ((T.cell p).dependencies)) p q
  obtain ⟨f1, f2, f3, f4, f5⟩ :=
    cell_setFormula (clearDependencies (removeEdges T p ((T.cell p).dependencies)) p) p
      of q
  obtain ⟨i1, i2, i3, i4, i5⟩ := installEdges_cell p od
    (setCellF (clearDependencies (removeEdges T p ((T.cell p).dependencies)) p) p
      (fun c => { c with formula := of })) q
  unfold editRollback
  refine ⟨i3.trans (f1.trans (c3.trans r3)), i4.trans (f2.trans (c4.trans r4)), ?_, ?_,
    fun a => ?_⟩
  · rw [i2, f5]
    by_cases hq : q = p
    · rw [if_pos hq, if_pos hq]
    · rw [if_neg hq, if_neg hq, c2, r2]
  · rw [i1, f4, c1]
    by_cases hq : q = p
    · rw [if_pos hq, if_pos hq, if_pos hq, List.nil_append]
    · rw [if_neg hq, if_neg hq, if_neg hq, List.append_nil, r1]
  · rw [i5 a, f3, c5, r5 a]

/-- A point update that keeps a cell's edges and formula intact keeps
every cell's edges and formulas intact. -/
theorem setCellF_preserve_graph (T : Spreadsheet) (pp : ℕ × ℕ) (g : Cell → Cell)
    (hg : ∀ c : Cell, (g c).dependencies = c.dependencies ∧ (g c).formula = c.formula ∧
      (g c).dependents = c.dependents) (q : ℕ × ℕ) :
    ((setCellF T pp g).cell q).dependencies = (T.cell q).dependencies ∧
    ((setCellF T pp g).cell q).formula = (T.cell q).formula ∧
    ((setCellF T pp g).cell q).dependents = (T.cell q).dependents := by
  rw [cell_setCellF]
  by_cases hq : q = pp
  · subst hq
    rw [if_pos rfl]
    exact hg (T.cell q)
  · rw [if_neg hq]
    exact ⟨rfl, rfl, rfl⟩

/-- Both graph invariants transfer across any transformation that keeps
edges and formulas intact. -/
theorem inv_transfer {S T : Spreadsheet}
    (h : ∀ q : ℕ × ℕ,
      (T.cell q).dependencies = (S.cell q).dependencies ∧
      (T.cell q).formula = (S.cell q).formula ∧
      (T.cell q).dependents = (S.cell q).dependents)
    (hsym : symmInv S) (hdeps : depsInv S) : symmInv T ∧ depsInv T := by
  constructor
  · intro a b
    rw [(h a).1, (h b).2.2]
    exact hsym a b
  · intro q
    rw [(h q).1, (h q).2.1]
    exact hdeps q

/-- The install stages preserve both graph invariants. -/
theorem editInstall_inv (S : Spreadsheet) (p : ℕ × ℕ) (f : List Char)
    (hsym : symmInv S) (hdeps : depsInv S) :
    symmInv (editInstall S p f) ∧ depsInv (editInstall S p f) := by
  constructor
  · intro a b
    obtain ⟨_, _, _, hda, _⟩ := editInstall_cell S p f a
    obtain ⟨_, _, _, _, hcb⟩ := editInstall_cell S p f b
    rw [hda, hcb a]
    by_cases hap : a = p
    · subst hap
      rw [if_pos rfl, if_pos rfl, if_pos rfl, ← hsym a b]
      omega
    · rw [if_neg hap, if_neg hap, if_neg hap, hsym a b]
      omega
  · intro q
    obtain ⟨_, _, hf, hd, _⟩ := editInstall_cell S p f q
    rw [hd, hf]
    by_cases hq : q = p
    · rw [if_pos hq, if_pos hq]
      by_cases hc : (f.all fun ch => isDigitC ch || ch = '-') = true
      · rw [if_pos hc]
        exact (constant_extract_nil hc).symm
      · rw [if_neg hc]
    · rw [if_neg hq, if_neg hq]
      exact hdeps q

/-- On a symmetric sheet, the rollback of a freshly installed edit
restores every cell exactly: all scalar fields and forward lists are
equal, and the reverse lists are equal as multisets. -/
theorem rollback_restores (S : Spreadsheet) (p : ℕ × ℕ) (f : List Char)
    (hsym : symmInv S) :
    ∀ q : ℕ × ℕ,
      ((editRollback (editInstall S p f) p ((S.cell p).formula)
          ((S.cell p).dependencies)).cell q).value = (S.cell q).value ∧
      ((editRollback (editInstall S p f) p ((S.cell p).formula)
          ((S.cell p).dependencies)).cell q).status = (S.cell q).status ∧
      ((editRollback (editInstall S p f) p ((S.cell p).formula)
          ((S.cell p).dependencies)).cell q).formula = (S.cell q).formula ∧
      ((editRollback (editInstall S p f) p ((S.cell p).formula)
          ((S.cell p).dependencies)).cell q).dependencies = (S.cell q).dependencies ∧
      (((editRollback (editInstall S p f) p ((S.cell p).formula)
          ((S.cell p).dependencies)).cell q).dependents : Multiset (ℕ × ℕ)) =
        ((S.cell q).dependents : Multiset (ℕ × ℕ)) := by
  intro q
  obtain ⟨e1, e2, e3, e4, e5⟩ := editInstall_cell S p f q
  obtain ⟨_, _, _, hdp, _⟩ := editInstall_cell S p f p
  rw [if_pos rfl] at hdp
  obtain ⟨b1, b2, b3, b4, b5⟩ :=
    editRollback_cell (editInstall S p f) p ((S.cell p).formula)
      ((S.cell p).dependencies) q
  refine ⟨b1.trans e1, b2.trans e2, ?_, ?_, ?_⟩
  · rw [b3]
    by_cases hq : q = p
    · rw [if_pos hq, hq]
    · rw [if_neg hq, e3, if_neg hq]
  · rw [b4]
    by_cases hq : q = p
    · rw [if_pos hq, hq]
    · rw [if_neg hq, e4, if_neg hq]
  · apply Multiset.ext.mpr
    intro a
    rw [b5 a, e5 a, hdp]
    by_cases hap : a = p
    · subst hap
      simp only [eq_self_iff_true, if_true]
      rw [hsym a q]
      omega
    · simp only [if_neg hap]
      omega

/-- The whole edit transaction preserves both graph invariants. -/
theorem updateCellFormula_inv (S : Spreadsheet) (row col : ℕ) (f : List Char)
    (hsym : symmInv S) (hdeps : depsInv S) :
    symmInv (updateCellFormula S row col f).1 ∧
    depsInv (updateCellFormula S row col f).1 := by
  obtain ⟨hsym4, hdeps4⟩ := editInstall_inv S (row, col) f hsym hdeps
  unfold updateCellFormula
  by_cases hv : validformula S f = 1
  · rw [if_pos hv]
    exact ⟨hsym, hdeps⟩
  · rw [if_neg hv]
    simp only []
    by_cases hcyc : hasCircularDependency (editInstall S (row, col) f) (row, col) = true
    · rw [if_pos hcyc]
      have hr := rollback_restores S (row, col) f hsym
      constructor
      · intro a b
        rw [(hr a).2.2.2.1, (hr b).2.2.2.2]
        exact hsym a b
      · intro q
        rw [(hr q).2.2.2.1, (hr q).2.2.1]
        exact hdeps q
    · rw [if_neg hcyc]
      by_cases h3 : (evaluateFormula (editInstall S (row, col) f) f).2 = 3
      · rw [if_pos h3]
        exact inv_transfer (fun q => markError_graph _ _ q) hsym4 hdeps4
      · rw [if_neg h3]
        by_cases h4 : (evaluateFormula (editInstall S (row, col) f) f).2 = 4
        · rw [if_pos h4]
          exact ⟨hsym4, hdeps4⟩
        · rw [if_neg h4]
          have hg : ∀ c : Cell,
              ((fun (c : Cell) => { c with
                  value := (evaluateFormula (editInstall S (row, col) f) f).1,
                  status := CellStatus.ok }) c).dependencies = c.dependencies ∧
              ((fun (c : Cell) => { c with
                  value := (evaluateFormula (editInstall S (row, col) f) f).1,
                  status := CellStatus.ok }) c).formula = c.formula ∧
              ((fun (c : Cell) => { c with
                  value := (evaluateFormula (editInstall S (row, col) f) f).1,
                  status := CellStatus.ok }) c).dependents = c.dependents :=
            fun c => ⟨rfl, rfl, rfl⟩
          refine inv_transfer (fun q => ?_) hsym4 hdeps4
          obtain ⟨hrc, _⟩ := recalcAffected_effect
            (setCellF (editInstall S (row, col) f) (row, col) (fun c => { c with
              value := (evaluateFormula (editInstall S (row, col) f) f).1,
              status := CellStatus.ok })) row col
            (if (evaluateFormula (editInstall S (row, col) f) f).2 = 1 then
              "Invalid formula"
             else if (evaluateFormula (editInstall S (row, col) f) f).2 = 2 then
              "Invalid range" else "Ok")
          obtain ⟨a1, a2, a3⟩ := hrc q
          obtain ⟨b1, b2, b3⟩ := setCellF_preserve_graph (editInstall S (row, col) f)
            (row, col) _ hg q
          exact ⟨a1.trans b1, a2.trans b2, a3.trans b3⟩

/-- One accepted command preserves both graph invariants. -/
theorem runEdit_inv (S : Spreadsheet) (e : (ℕ × ℕ) × List Char)
    (hsym : symmInv S) (hdeps : depsInv S) :
    symmInv (runEdit S e) ∧ depsInv (runEdit S e) := by
  unfold runEdit
  by_cases h : e.1.1 < S.totalRows ∧ e.1.2 < S.totalCols
  · rw [if_pos h]
    exact updateCellFormula_inv S e.1.1 e.1.2 e.2 hsym hdeps
  · rw [if_neg h]
    exact ⟨hsym, hdeps⟩

/-- Both graph invariants hold after any command sequence. -/
theorem applyCmds_inv : ∀ (l : List ((ℕ × ℕ) × List Char)) (S : Spreadsheet),
    symmInv S → depsInv S → symmInv (applyCmds S l) ∧ depsInv (applyCmds S l) := by
  intro l
  induction l with
  | nil => intro S hsym hdeps; exact ⟨hsym, hdeps⟩
  | cons e t ih =>
    intro S hsym hdeps
    obtain ⟨h1, h2⟩ := runEdit_inv S e hsym hdeps
    exact ih (runEdit S e) h1 h2

/-- **C6.**  After any command sequence applied to a fresh sheet, for
every pair of cells `a`, `b`: `b` is in `a`'s dependencies exactly when
`a` is in `b`'s dependents — edge symmetry holds between commands. -/
theorem claim_c6_edge_symmetry (r c : ℕ) (l : List ((ℕ × ℕ) × List Char)) (a b : ℕ × ℕ) :
    b ∈ ((applyCmds (createSpreadsheet r c) l).cell a).dependencies ↔
    a ∈ ((applyCmds (createSpreadsheet r c) l).cell b).dependents := by
  obtain ⟨hsym, _⟩ := applyCmds_inv l (createSpreadsheet r c)
    (createSpreadsheet_inv r c).1 (createSpreadsheet_inv r c).2
  have h := hsym a b
  constructor
  · intro hm
    have hc : 0 < Multiset.count b
        (((applyCmds (createSpreadsheet r c) l).cell a).dependencies :
          Multiset (ℕ × ℕ)) :=
      Multiset.count_pos.mpr (Multiset.mem_coe.mpr hm)
    rw [h] at hc
    exact Multiset.mem_coe.mp (Multiset.count_pos.mp hc)
  · intro hm
    have hc : 0 < Multiset.count a
        (((applyCmds (createSpreadsheet r c) l).cell b).dependents :
          Multiset (ℕ × ℕ)) :=
      Multiset.count_pos.mpr (Multiset.mem_coe.mpr hm)
    rw [← h] at hc
    exact Multiset.mem_coe.mp (Multiset.count_pos.mp hc)

/-- **C4 (amended).**  After any command sequence applied to a fresh
sheet, every cell that holds a formula has exactly the dependency list
produced by the lexical extractor on that formula — as a list with
multiplicity, in extraction order: the engine installs duplicated
references as parallel edges rather than deduplicating them. -/
theorem claim_c4_deps_extraction (r c : ℕ) (l : List ((ℕ × ℕ) × List Char)) (p : ℕ × ℕ)
    (f : List Char)
    (hf : ((applyCmds (createSpreadsheet r c) l).cell p).formula = some f) :
    ((applyCmds (createSpreadsheet r c) l).cell p).dependencies =
      extractDependencies f := by
  obtain ⟨_, hdeps⟩ := applyCmds_inv l (createSpreadsheet r c)
    (createSpreadsheet_inv r c).1 (createSpreadsheet_inv r c).2
  have h := hdeps p
  rw [hf] at h
  exact h

/-- Witness for C4: after `A1=B1+B1` on a fresh 1×2 sheet, `A1` holds
the formula and its dependency list is the extractor's output
(`[B1, B1]`, with the duplicate kept). -/
theorem claim_c4_witness :
    ((applyCmds (createSpreadsheet 1 2)
      [((0, 0), "B1+B1".toList)]).cell (0, 0)).dependencies =
      extractDependencies ("B1+B1".toList) :=
  claim_c4_deps_extraction 1 2 [((0, 0), "B1+B1".toList)] (0, 0) ("B1+B1".toList)
    (by decide)

/-- Any status message shorter than the circular-dependency prefix is
not the circular-dependency message. -/
theorem circ_msg_ne (row col : ℕ) (s : String) (hs : s.length < 37) :
    s ≠ "Circular dependency detected in cell " ++ String.mk (coordsToCellName row col) := by
  intro he
  have hlen := congrArg String.length he
  rw [String.length_append] at hlen
  have h37 : ("Circular dependency detected in cell " : String).length = 37 := rfl
  omega

/-- **C1.**  For every reachable sheet state and every edit command on
it that reports `Circular dependency detected in cell <name>` (i.e. the
validated formula's newly installed edges closed a cycle through the
edited cell), the transaction leaves the sheet as it was: every cell's
value, status, formula and forward dependency list are exactly as
before, and every cell's dependents list holds exactly the same edges
(the same multiset — the swap-with-last removals may reorder the
array). -/
theorem claim_c1_cycle_rollback (r c : ℕ) (cmds : List ((ℕ × ℕ) × List Char))
    (row col : ℕ) (f : List Char)
    (hmsg : (updateCellFormula (applyCmds (createSpreadsheet r c) cmds) row col f).2 =
      "Circular dependency detected in cell " ++ String.mk (coordsToCellName row col)) :
    ∀ q : ℕ × ℕ,
      ((updateCellFormula (applyCmds (createSpreadsheet r c) cmds) row col
          f).1.cell q).value =
        ((applyCmds (createSpreadsheet r c) cmds).cell q).value ∧
      ((updateCellFormula (applyCmds (createSpreadsheet r c) cmds) row col
          f).1.cell q).status =
        ((applyCmds (createSpreadsheet r c) cmds).cell q).status ∧
      ((updateCellFormula (applyCmds (createSpreadsheet r c) cmds) row col
          f).1.cell q).formula =
        ((applyCmds (createSpreadsheet r c) cmds).cell q).formula ∧
      ((updateCellFormula (applyCmds (createSpreadsheet r c) cmds) row col
          f).1.cell q).dependencies =
        ((applyCmds (createSpreadsheet r c) cmds).cell q).dependencies ∧
      (((updateCellFormula (applyCmds (createSpreadsheet r c) cmds) row col
          f).1.cell q).dependents).Perm
        (((applyCmds (createSpreadsheet r c) cmds).cell q).dependents) := by
  obtain ⟨hsym, hdeps⟩ := applyCmds_inv cmds (createSpreadsheet r c)
    (createSpreadsheet_inv r c).1 (createSpreadsheet_inv r c).2
  unfold updateCellFormula at hmsg ⊢
  by_cases hv : validformula (applyCmds (createSpreadsheet r c) cmds) f = 1
  · rw [if_pos hv] at hmsg
    exact absurd hmsg (circ_msg_ne row col "Unrecognized" (by decide))
  · rw [if_neg hv] at hmsg ⊢
    simp only [] at hmsg ⊢
    by_cases hcyc : hasCircularDependency
        (editInstall (applyCmds (createSpreadsheet r c) cmds) (row, col) f)
        (row, col) = true
    · rw [if_pos hcyc]
      intro q
      obtain ⟨h1, h2, h3, h4, h5⟩ :=
        rollback_restores (applyCmds (createSpreadsheet r c) cmds) (row, col) f hsym q
      exact ⟨h1, h2, h3, h4, Multiset.coe_eq_coe.mp h5⟩
    · rw [if_neg hcyc] at hmsg
      by_cases h3 : (evaluateFormula
          (editInstall (applyCmds (createSpreadsheet r c) cmds) (row, col) f) f).2 = 3
      · rw [if_pos h3] at hmsg
        exact absurd hmsg (circ_msg_ne row col "Ok" (by decide))
      · rw [if_neg h3] at hmsg
        by_cases h4 : (evaluateFormula
            (editInstall (applyCmds (createSpreadsheet r c) cmds) (row, col) f) f).2 = 4
        · rw [if_pos h4] at hmsg
          exact absurd hmsg (circ_msg_ne row col "Range out of bounds" (by decide))
        · rw [if_neg h4] at hmsg
          obtain ⟨_, hm⟩ := recalcAffected_effect
            (setCellF (editInstall (applyCmds (createSpreadsheet r c) cmds) (row, col) f)
              (row, col) (fun cc => { cc with
                value := (evaluateFormula (editInstall
                  (applyCmds (createSpreadsheet r c) cmds) (row, col) f) f).1,
                status := CellStatus.ok })) row col
            (if (evaluateFormula (editInstall
                (applyCmds (createSpreadsheet r c) cmds) (row, col) f) f).2 = 1 then
              "Invalid formula"
             else if (evaluateFormula (editInstall
                (applyCmds (createSpreadsheet r c) cmds) (row, col) f) f).2 = 2 then
              "Invalid range" else "Ok")
          rcases hm with hm | hm | hm
          · rw [hm] at hmsg
            by_cases k1 : (evaluateFormula (editInstall
                (applyCmds (createSpreadsheet r c) cmds) (row, col) f) f).2 = 1
            · rw [if_pos k1] at hmsg
              exact absurd hmsg (circ_msg_ne row col "Invalid formula" (by decide))
            · rw [if_neg k1] at hmsg
              by_cases k2 : (evaluateFormula (editInstall
                  (applyCmds (createSpreadsheet r c) cmds) (row, col) f) f).2 = 2
              · rw [if_pos k2] at hmsg
                exact absurd hmsg (circ_msg_ne row col "Invalid range" (by decide))
              · rw [if_neg k2] at hmsg
                exact absurd hmsg (circ_msg_ne row col "Ok" (by decide))
          · rw [hm] at hmsg
            exact absurd hmsg (circ_msg_ne row col "Invalid range" (by decide))
          · rw [hm] at hmsg
            exact absurd hmsg (circ_msg_ne row col "Error in formula" (by decide))

/-- Witness for C1: a self-referencing edit `A1=A1` on a fresh 1×1 sheet
reports the circular-dependency message, and the theorem yields the
exact rollback at `A1`. -/
theorem claim_c1_witness :
    ((updateCellFormula (applyCmds (createSpreadsheet 1 1) []) 0 0
        ("A1".toList)).1.cell (0, 0)).formula =
      ((applyCmds (createSpreadsheet 1 1) []).cell (0, 0)).formula ∧
    ((updateCellFormula (applyCmds (createSpreadsheet 1 1) []) 0 0
        ("A1".toList)).1.cell (0, 0)).dependencies =
      ((applyCmds (createSpreadsheet 1 1) []).cell (0, 0)).dependencies := by
  obtain ⟨h1, h2, h3, h4, h5⟩ :=
    claim_c1_cycle_rollback 1 1 [] 0 0 ("A1".toList) (by decide) (0, 0)
  exact ⟨h3, h4⟩

/-! ## Unclosed-parenthesis tolerance (claim C10) -/

/-- Appending a character the predicate rejects does not change a
`takeWhile` scan. -/
theorem takeWhile_append_one {p : Char → Bool} {x : Char} (hp : p x = false) :
    ∀ l : List Char, (l ++ [x]).takeWhile p = l.takeWhile p := by
  intro l
  rw [List.takeWhile_append]
  by_cases h : (l.takeWhile p).length = l.length
  · rw [if_pos h]
    have he : l.takeWhile p = l := (List.takeWhile_prefix p).eq_of_length h
    rw [he]
    simp [List.takeWhile, hp]
  · rw [if_neg h]

/-- Appending a character the predicate rejects lands it at the end of
the `dropWhile` remainder. -/
theorem dropWhile_append_one {p : Char → Bool} {x : Char} (hp : p x = false) :
    ∀ l : List Char, (l ++ [x]).dropWhile p = l.dropWhile p ++ [x] := by
  intro l
  rw [List.dropWhile_append]
  by_cases h : (l.dropWhile p).isEmpty = true
  · rw [if_pos h]
    rw [List.isEmpty_iff.mp h]
    simp [List.dropWhile, hp]
  · rw [if_neg h]

/-- A successful split is unchanged by appending to the input. -/
theorem splitAtChar_some_append {c : Char} :
    ∀ {l : List Char} {a b : List Char}, splitAtChar c l = some (a, b) →
      ∀ t : List Char, splitAtChar c (l ++ t) = some (a, b ++ t) := by
  intro l
  induction l with
  | nil => intro a b h t; simp [splitAtChar] at h
  | cons d rest ih =>
    intro a b h t
    rw [splitAtChar] at h
    rw [List.cons_append, splitAtChar]
    by_cases hd : d = c
    · rw [if_pos hd] at h
      rw [if_pos hd]
      cases h
      rfl
    · rw [if_neg hd] at h
      rw [if_neg hd]
      cases hs : splitAtChar c rest with
      | none => rw [hs] at h; simp at h
      | some pr =>
        rw [hs] at h
        obtain ⟨a1, b1⟩ := pr
        rw [show (some (a1, b1)).map (fun p => (d :: p.1, p.2)) =
          some (d :: a1, b1) from rfl] at h
        cases h
        rw [ih hs t]
        rfl

/-- A failed split succeeds at the very end once the character is
appended, consuming the whole input. -/
theorem splitAtChar_none_append {c : Char} :
    ∀ {l : List Char}, splitAtChar c l = none →
      splitAtChar c (l ++ [c]) = some (l, []) := by
  intro l
  induction l with
  | nil => intro _; simp [splitAtChar]
  | cons d rest ih =>
    intro h
    rw [splitAtChar] at h
    rw [List.cons_append, splitAtChar]
    by_cases hd : d = c
    · rw [if_pos hd] at h
      simp at h
    · rw [if_neg hd] at h
      rw [if_neg hd]
      cases hs : splitAtChar c rest with
      | none =>
        rw [ih hs]
        rfl
      | some pr =>
        rw [hs] at h
        simp at h

/-- The term loop on empty input: fuel exhaustion or the accumulator. -/
theorem termLoopF_nil (S : Spreadsheet) (fuel : ℕ) (acc : ℤ) :
    termLoopF S fuel acc [] = ⟨0, [], 99⟩ ∨ termLoopF S fuel acc [] = ⟨acc, [], 0⟩ := by
  cases fuel
  · left; rfl
  · right; rfl

/-- The expression loop on empty input: fuel exhaustion or the
accumulator. -/
theorem exprLoopF_nil (S : Spreadsheet) (fuel : ℕ) (acc : ℤ) :
    exprLoopF S fuel acc [] = ⟨0, [], 99⟩ ∨ exprLoopF S fuel acc [] = ⟨acc, [], 0⟩ := by
  cases fuel
  · left; rfl
  · right; rfl

/-- The cell-reference arm of `parseFactor` is unaffected by an
appended `')'` (which is not alphanumeric): the same reference is read
and the `')'` lands at the head of the leftover input. -/
theorem factor_cell_extend (S : Spreadsheet) (s1 : List Char) (v : ℤ) (r : List Char)
    (h : (match cellNameToCoords ((s1.takeWhile isAlnumC).take 19) with
          | none => (⟨0, s1.drop ((s1.takeWhile isAlnumC).take 19).length, 1⟩ : PRes)
          | some (rr, ccol) =>
            if rr ≥ S.totalRows ∨ ccol ≥ S.totalCols then
              ⟨0, s1.drop ((s1.takeWhile isAlnumC).take 19).length, 4⟩
            else if (S.cell (rr, ccol)).status = CellStatus.err then
              ⟨0, s1.drop ((s1.takeWhile isAlnumC).take 19).length, 3⟩
            else ⟨(S.cell (rr, ccol)).value,
              s1.drop ((s1.takeWhile isAlnumC).take 19).length, 0⟩) = ⟨v, r, 0⟩) :
    (match cellNameToCoords (((s1 ++ [')']).takeWhile isAlnumC).take 19) with
     | none => (⟨0, (s1 ++ [')']).drop
         ((((s1 ++ [')']).takeWhile isAlnumC).take 19).length), 1⟩ : PRes)
     | some (rr, ccol) =>
       if rr ≥ S.totalRows ∨ ccol ≥ S.totalCols then
         ⟨0, (s1 ++ [')']).drop ((((s1 ++ [')']).takeWhile isAlnumC).take 19).length), 4⟩
       else if (S.cell (rr, ccol)).status = CellStatus.err then
         ⟨0, (s1 ++ [')']).drop ((((s1 ++ [')']).takeWhile isAlnumC).take 19).length), 3⟩
       else ⟨(S.cell (rr, ccol)).value,
         (s1 ++ [')']).drop ((((s1 ++ [')']).takeWhile isAlnumC).take 19).length), 0⟩) =
      ⟨v, r ++ [')'], 0⟩ := by
  have htw : (s1 ++ [')']).takeWhile isAlnumC = s1.takeWhile isAlnumC :=
    takeWhile_append_one (by decide) s1
  have hk : ((s1.takeWhile isAlnumC).take 19).length ≤ s1.length := by
    rw [List.length_take]
    have h2 := (List.takeWhile_prefix (l := s1) isAlnumC).length_le
    omega
  rw [htw, List.drop_append_of_le_length hk]
  cases hcn : cellNameToCoords ((s1.takeWhile isAlnumC).take 19) with
  | none =>
    simp only [hcn] at h
    injection h with h1 h2 h3
    exact absurd h3 (by decide)
  | some pr =>
    obtain ⟨rr, ccol⟩ := pr
    simp only [hcn] at h
    simp only []
    by_cases hb : rr ≥ S.totalRows ∨ ccol ≥ S.totalCols
    · rw [if_pos hb] at h
      injection h with h1 h2 h3
      exact absurd h3 (by decide)
    · rw [if_neg hb] at h ⊢
      by_cases herr2 : (S.cell (rr, ccol)).status = .err
      · rw [if_pos herr2] at h
        injection h with h1 h2 h3
        exact absurd h3 (by decide)
      · rw [if_neg herr2] at h ⊢
        injection h with h1 h2 h3
        cases h2
        rw [h1]

/-- Appending an unmatched `')'` to an input the parser accepts leaves
the result value and error state unchanged: the `')'` either survives at
the head of the leftover input or is silently consumed (by the
tolerant close of a parenthesis or a function argument, or by an
unknown-function skip), never causing an error.  This holds at every
fuel, for all five mutually recursive parsing functions. -/
theorem parse_extend (S : Spreadsheet) : ∀ fuel : ℕ,
    (∀ (s : List Char) (v : ℤ) (r : List Char),
      parseFactorF S fuel s = ⟨v, r, 0⟩ →
      parseFactorF S fuel (s ++ [')']) = ⟨v, r ++ [')'], 0⟩ ∨
        (r = [] ∧ parseFactorF S fuel (s ++ [')']) = ⟨v, [], 0⟩)) ∧
    (∀ (acc : ℤ) (s : List Char) (v : ℤ) (r : List Char),
      termLoopF S fuel acc s = ⟨v, r, 0⟩ →
      termLoopF S fuel acc (s ++ [')']) = ⟨v, r ++ [')'], 0⟩ ∨
        (r = [] ∧ termLoopF S fuel acc (s ++ [')']) = ⟨v, [], 0⟩)) ∧
    (∀ (s : List Char) (v : ℤ) (r : List Char),
      parseTermF S fuel s = ⟨v, r, 0⟩ →
      parseTermF S fuel (s ++ [')']) = ⟨v, r ++ [')'], 0⟩ ∨
        (r = [] ∧ parseTermF S fuel (s ++ [')']) = ⟨v, [], 0⟩)) ∧
    (∀ (acc : ℤ) (s : List Char) (v : ℤ) (r : List Char),
      exprLoopF S fuel acc s = ⟨v, r, 0⟩ →
      exprLoopF S fuel acc (s ++ [')']) = ⟨v, r ++ [')'], 0⟩ ∨
        (r = [] ∧ exprLoopF S fuel acc (s ++ [')']) = ⟨v, [], 0⟩)) ∧
    (∀ (s : List Char) (v : ℤ) (r : List Char),
      parseExprF S fuel s = ⟨v, r, 0⟩ →
      parseExprF S fuel (s ++ [')']) = ⟨v, r ++ [')'], 0⟩ ∨
        (r = [] ∧ parseExprF S fuel (s ++ [')']) = ⟨v, [], 0⟩)) := by
  intro fuel
  induction fuel with
  | zero =>
    refine ⟨fun s v r h => ?_, fun acc s v r h => ?_, fun s v r h => ?_,
      fun acc s v r h => ?_, fun s v r h => ?_⟩
    all_goals simp [parseFactorF, termLoopF, parseTermF, exprLoopF, parseExprF] at h
  | succ fuel ih =>
    obtain ⟨ihF, ihTL, ihT, ihEL, ihE⟩ := ih
    refine ⟨?_, ?_, ?_, ?_, ?_⟩
    · -- parseFactorF
      intro s v r h
      rw [parseFactorF] at h
      rw [parseFactorF]
      rw [dropWhile_append_one (by decide) s]
      cases hs1 : s.dropWhile isSpaceC with
      | nil =>
        rw [hs1] at h
        injection h with h1 h2 h3
        exact absurd h3 (by decide)
      | cons c t =>
        rw [hs1] at h
        simp only [] at h
        simp only [List.cons_append]
        by_cases ha : isAlphaC c = true
        · rw [if_pos ha] at h ⊢
          rw [takeWhile_append_one (by decide) t, dropWhile_append_one (by decide) t]
          by_cases hlen : (c :: t.takeWhile isAlphaC).length ≥ 20
          · rw [if_pos hlen] at h
            injection h with h1 h2 h3
            exact absurd h3 (by decide)
          · rw [if_neg hlen] at h ⊢
            rw [dropWhile_append_one (by decide) (t.dropWhile isAlphaC)]
            cases hs2 : (t.dropWhile isAlphaC).dropWhile isSpaceC with
            | nil =>
              rw [hs2] at h
              simp only [List.nil_append]
              rw [if_neg (by decide)]
              exact Or.inl (factor_cell_extend S (c :: t) v r h)
            | cons c2 t2 =>
              rw [hs2] at h
              simp only [] at h
              simp only [List.cons_append]
              by_cases hpar : c2 = '('
              · rw [if_pos hpar] at h ⊢
                rw [dropWhile_append_one (by decide) t2]
                by_cases hsl : (c :: t.takeWhile isAlphaC) = "SLEEP".toList
                · rw [if_pos hsl] at h ⊢
                  cases hr : parseExprF S fuel (t2.dropWhile isSpaceC) with
                  | mk rv rrest rerr =>
                    rw [hr] at h
                    by_cases hre : rerr = 0
                    · subst hre
                      rw [if_neg (by simp)] at h
                      rcases ihE (t2.dropWhile isSpaceC) rv rrest hr with hx | ⟨hnil, hx⟩
                      · rw [hx, if_neg (by simp),
                          dropWhile_append_one (by decide) rrest]
                        cases hs4 : rrest.dropWhile isSpaceC with
                        | nil =>
                          rw [hs4] at h
                          rw [if_neg (by simp)] at h
                          injection h with h1 h2 h3
                          cases h2
                          right
                          refine ⟨rfl, ?_⟩
                          simp only [List.nil_append]
                          rw [if_pos (show ([')'] : List Char).head? = some ')'
                            from rfl)]
                          rw [show ([')'] : List Char).tail = [] from rfl,
                            show rv = v from h1]
                        | cons c4 t4 =>
                          rw [hs4] at h
                          simp only [List.cons_append, List.head?_cons,
                            List.tail_cons] at h ⊢
                          by_cases hc4 : c4 = ')'
                          · rw [if_pos (by rw [hc4])] at h
                            rw [if_pos (by rw [hc4])]
                            injection h with h1 h2 h3
                            cases h2
                            left
                            rw [show rv = v from h1]
                          · rw [if_neg (by simpa using hc4)] at h
                            rw [if_neg (by simpa using hc4)]
                            injection h with h1 h2 h3
                            cases h2
                            left
                            rw [show rv = v from h1]
                            rfl
                      · subst hnil
                        rw [hx, if_neg (by simp)]
                        simp only [List.dropWhile] at h ⊢
                        rw [if_neg (by simp)] at h
                        injection h with h1 h2 h3
                        cases h2
                        right
                        refine ⟨rfl, ?_⟩
                        rw [if_neg (by simp), show rv = v from h1]
                    · rw [if_pos (by simpa using hre)] at h
                      injection h with h1 h2 h3
                      exact absurd (show rerr = 0 from h3) hre
                · rw [if_neg hsl] at h ⊢
                  by_cases hrange : ((c :: t.takeWhile isAlphaC) = "MIN".toList ∨
                      (c :: t.takeWhile isAlphaC) = "MAX".toList ∨
                      (c :: t.takeWhile isAlphaC) = "SUM".toList ∨
                      (c :: t.takeWhile isAlphaC) = "AVG".toList ∨
                      (c :: t.takeWhile isAlphaC) = "STDEV".toList)
                  · rw [if_pos hrange] at h ⊢
                    cases hsp : splitAtChar ')' (t2.dropWhile isSpaceC) with
                    | none =>
                      rw [hsp] at h
                      injection h with h1 h2 h3
                      exact absurd h3 (by decide)
                    | some pr =>
                      obtain ⟨rangeStr, afterParen⟩ := pr
                      rw [hsp] at h
                      simp only [] at h
                      rw [splitAtChar_some_append hsp [')']]
                      simp only []
                      injection h with h1 h2 h3
                      cases h2
                      left
                      rw [h1, h3]
                  · rw [if_neg hrange] at h ⊢
                    cases hsp : splitAtChar ')' (t2.dropWhile isSpaceC) with
                    | none =>
                      rw [hsp] at h
                      injection h with h1 h2 h3
                      cases h2
                      right
                      refine ⟨rfl, ?_⟩
                      rw [splitAtChar_none_append hsp]
                      rw [← h1]
                    | some pr =>
                      obtain ⟨a1, b1⟩ := pr
                      rw [hsp] at h
                      injection h with h1 h2 h3
                      cases h2
                      left
                      rw [splitAtChar_some_append hsp [')']]
                      rw [← h1]
              · rw [if_neg hpar] at h ⊢
                exact Or.inl (factor_cell_extend S (c :: t) v r h)
        · rw [if_neg ha] at h ⊢
          by_cases hd : isDigitC c = true
          · rw [if_pos hd] at h ⊢
            injection h with h1 h2 h3
            cases h2
            left
            rw [takeWhile_append_one (by decide) t, dropWhile_append_one (by decide) t,
              h1]
          · rw [if_neg hd] at h ⊢
            by_cases hminus : c = '-'
            · cases t with
              | nil =>
                rw [if_neg (by simp)] at h
                by_cases hop : c = '('
                · exact absurd (hop.symm.trans hminus) (by decide)
                · rw [if_neg hop] at h
                  injection h with h1 h2 h3
                  exact absurd h3 (by decide)
              | cons d td =>
                by_cases hdd : isDigitC d = true
                · rw [if_pos (by simp [hminus, hdd])] at h
                  rw [if_pos (by simp [hminus, hdd])]
                  injection h with h1 h2 h3
                  cases h2
                  left
                  rw [takeWhile_append_one (by decide) (d :: td),
                    dropWhile_append_one (by decide) (d :: td), h1]
                · rw [if_neg (by simp [hdd])] at h
                  rw [if_neg (by simp [hdd])]
                  by_cases hop : c = '('
                  · exact absurd (hop ▸ hminus : ('(' : Char) = '-') (by decide)
                  · rw [if_neg hop] at h
                    injection h with h1 h2 h3
                    exact absurd h3 (by decide)
            · rw [if_neg (by simp [hminus])] at h
              rw [if_neg (by simp [hminus])]
              by_cases hop : c = '('
              · rw [if_pos hop] at h ⊢
                cases hr : parseExprF S fuel t with
                | mk rv rrest rerr =>
                  rw [hr] at h
                  by_cases hre : rerr = 0
                  · subst hre
                    rw [if_neg (by simp)] at h
                    rcases ihE t rv rrest hr with hx | ⟨hnil, hx⟩
                    · rw [hx, if_neg (by simp)]
                      simp only [] at h ⊢
                      cases rrest with
                      | nil =>
                        rw [if_neg (by simp)] at h
                        injection h with h1 h2 h3
                        cases h2
                        right
                        refine ⟨rfl, ?_⟩
                        simp only [List.nil_append, List.head?_cons, List.tail_cons]
                        rw [if_pos trivial, show rv = v from h1]
                      | cons c4 t4 =>
                        simp only [List.cons_append, List.head?_cons,
                          List.tail_cons] at h ⊢
                        by_cases hc4 : c4 = ')'
                        · rw [if_pos (by rw [hc4])] at h
                          rw [if_pos (by rw [hc4])]
                          injection h with h1 h2 h3
                          cases h2
                          left
                          rw [show rv = v from h1]
                        · rw [if_neg (by simpa using hc4)] at h
                          rw [if_neg (by simpa using hc4)]
                          injection h with h1 h2 h3
                          cases h2
                          left
                          rw [show rv = v from h1]
                          rfl
                    · subst hnil
                      rw [hx, if_neg (by simp)]
                      simp only [] at h ⊢
                      rw [if_neg (by simp)] at h
                      injection h with h1 h2 h3
                      cases h2
                      right
                      refine ⟨rfl, ?_⟩
                      rw [if_neg (by simp), show rv = v from h1]
                  · rw [if_pos (by simpa using hre)] at h
                    injection h with h1 h2 h3
                    exact absurd (show rerr = 0 from h3) hre
              · rw [if_neg hop] at h
                injection h with h1 h2 h3
                exact absurd h3 (by decide)
    · -- termLoopF
      intro acc s v r h
      rw [termLoopF.eq_def] at h
      rw [termLoopF.eq_def]
      cases s with
      | nil =>
        injection h with h1 h2 h3
        cases h2
        left
        simp only [List.nil_append]
        rw [if_neg (by decide), if_neg (by decide), h1]
      | cons c t =>
        simp only [List.cons_append]
        simp only [] at h
        by_cases hc1 : c = '*'
        · rw [if_pos hc1] at h ⊢
          cases hf : parseFactorF S fuel (t.dropWhile isSpaceC) with
          | mk fv frest ferr =>
            rw [hf] at h
            rw [dropWhile_append_one (by decide) t]
            by_cases he : ferr = 0
            · subst he
              rw [if_neg (by simp)] at h
              rcases ihF (t.dropWhile isSpaceC) fv frest hf with hx | ⟨hnil, hx⟩
              · rw [hx, if_neg (by simp), dropWhile_append_one (by decide) frest]
                exact ihTL (wrap32 (acc * fv)) (frest.dropWhile isSpaceC) v r h
              · subst hnil
                rw [hx, if_neg (by simp)]
                simp only [List.dropWhile] at h ⊢
                rcases termLoopF_nil S fuel (wrap32 (acc * fv)) with hn | hn
                · rw [hn] at h
                  simp at h
                · rw [hn] at h
                  injection h with h1 h2 h3
                  right
                  exact ⟨h2.symm, by rw [hn, h1]⟩
            · rw [if_pos (by simpa using he)] at h
              injection h with h1 h2 h3
              exact absurd (show ferr = 0 from h3) he
        · rw [if_neg hc1] at h ⊢
          by_cases hc2 : c = '/'
          · rw [if_pos hc2] at h ⊢
            cases hf : parseFactorF S fuel (t.dropWhile isSpaceC) with
            | mk fv frest ferr =>
              rw [hf] at h
              rw [dropWhile_append_one (by decide) t]
              by_cases he : ferr = 0
              · subst he
                rw [if_neg (by simp)] at h
                by_cases hz : fv = 0
                · rw [if_pos hz] at h
                  injection h with h1 h2 h3
                  exact absurd h3 (by decide)
                · rw [if_neg hz] at h
                  rcases ihF (t.dropWhile isSpaceC) fv frest hf with hx | ⟨hnil, hx⟩
                  · rw [hx, if_neg (by simp), if_neg hz,
                      dropWhile_append_one (by decide) frest]
                    exact ihTL (wrap32 (Int.tdiv acc fv)) (frest.dropWhile isSpaceC) v r h
                  · subst hnil
                    rw [hx, if_neg (by simp), if_neg hz]
                    simp only [List.dropWhile] at h ⊢
                    rcases termLoopF_nil S fuel (wrap32 (Int.tdiv acc fv)) with hn | hn
                    · rw [hn] at h
                      simp at h
                    · rw [hn] at h
                      injection h with h1 h2 h3
                      right
                      exact ⟨h2.symm, by rw [hn, h1]⟩
              · rw [if_pos (by simpa using he)] at h
                injection h with h1 h2 h3
                exact absurd (show ferr = 0 from h3) he
          · rw [if_neg hc2] at h ⊢
            injection h with h1 h2 h3
            left
            rw [h1, ← h2]
            rw [show (c :: t) ++ [')'] = c :: (t ++ [')']) from rfl]
    · -- parseTermF
      intro s v r h
      rw [parseTermF] at h
      rw [parseTermF]
      cases hf : parseFactorF S fuel s with
      | mk fv frest ferr =>
        rw [hf] at h
        by_cases he : ferr = 0
        · subst he
          rw [if_neg (by simp)] at h
          rcases ihF s fv frest hf with hx | ⟨hnil, hx⟩
          · rw [hx, if_neg (by simp), dropWhile_append_one (by decide) frest]
            exact ihTL fv (frest.dropWhile isSpaceC) v r h
          · subst hnil
            rw [hx, if_neg (by simp)]
            simp only [List.dropWhile] at h ⊢
            rcases termLoopF_nil S fuel fv with hn | hn
            · rw [hn] at h
              simp at h
            · rw [hn] at h
              injection h with h1 h2 h3
              right
              refine ⟨h2.symm, ?_⟩
              rw [hn, h1]
        · rw [if_pos (by simpa using he)] at h
          injection h with h1 h2 h3
          exact absurd (show ferr = 0 from h3) he
    · -- exprLoopF
      intro acc s v r h
      rw [exprLoopF.eq_def] at h
      rw [exprLoopF.eq_def]
      cases s with
      | nil =>
        injection h with h1 h2 h3
        cases h2
        left
        simp only [List.nil_append]
        rw [if_neg (by decide), if_neg (by decide), h1]
      | cons c t =>
        simp only [List.cons_append]
        simp only [] at h
        by_cases hc1 : c = '+'
        · rw [if_pos hc1] at h ⊢
          cases hf : parseTermF S fuel (t.dropWhile isSpaceC) with
          | mk fv frest ferr =>
            rw [hf] at h
            rw [dropWhile_append_one (by decide) t]
            by_cases he : ferr = 0
            · subst he
              rw [if_neg (by simp)] at h
              rcases ihT (t.dropWhile isSpaceC) fv frest hf with hx | ⟨hnil, hx⟩
              · rw [hx, if_neg (by simp), dropWhile_append_one (by decide) frest]
                exact ihEL (wrap32 (acc + fv)) (frest.dropWhile isSpaceC) v r h
              · subst hnil
                rw [hx, if_neg (by simp)]
                simp only [List.dropWhile] at h ⊢
                rcases exprLoopF_nil S fuel (wrap32 (acc + fv)) with hn | hn
                · rw [hn] at h
                  simp at h
                · rw [hn] at h
                  injection h with h1 h2 h3
                  right
                  exact ⟨h2.symm, by rw [hn, h1]⟩
            · rw [if_pos (by simpa using he)] at h
              injection h with h1 h2 h3
              exact absurd (show ferr = 0 from h3) he
        · rw [if_neg hc1] at h ⊢
          by_cases hc2 : c = '-'
          · rw [if_pos hc2] at h ⊢
            cases hf : parseTermF S fuel (t.dropWhile isSpaceC) with
            | mk fv frest ferr =>
              rw [hf] at h
              rw [dropWhile_append_one (by decide) t]
              by_cases he : ferr = 0
              · subst he
                rw [if_neg (by simp)] at h
                rcases ihT (t.dropWhile isSpaceC) fv frest hf with hx | ⟨hnil, hx⟩
                · rw [hx, if_neg (by simp), dropWhile_append_one (by decide) frest]
                  exact ihEL (wrap32 (acc - fv)) (frest.dropWhile isSpaceC) v r h
                · subst hnil
                  rw [hx, if_neg (by simp)]
                  simp only [List.dropWhile] at h ⊢
                  rcases exprLoopF_nil S fuel (wrap32 (acc - fv)) with hn | hn
                  · rw [hn] at h
                    simp at h
                  · rw [hn] at h
                    injection h with h1 h2 h3
                    right
                    exact ⟨h2.symm, by rw [hn, h1]⟩
              · rw [if_pos (by simpa using he)] at h
                injection h with h1 h2 h3
                exact absurd (show ferr = 0 from h3) he
          · rw [if_neg hc2] at h ⊢
            injection h with h1 h2 h3
            left
            rw [h1, ← h2]
            rw [show (c :: t) ++ [')'] = c :: (t ++ [')']) from rfl]
    · -- parseExprF
      intro s v r h
      rw [parseExprF] at h
      rw [parseExprF]
      cases ht : parseTermF S fuel s with
      | mk tv trest terr =>
        rw [ht] at h
        by_cases hte : terr = 0
        · subst hte
          rw [if_neg (by simp)] at h
          cases hl : exprLoopF S fuel tv (trest.dropWhile isSpaceC) with
          | mk lv lrest lerr =>
            rw [hl] at h
            by_cases hle : lerr = 0
            · subst hle
              rw [if_neg (by simp)] at h
              rcases ihT s tv trest ht with hx | ⟨hnil, hx⟩
              · rw [hx, if_neg (by simp), dropWhile_append_one (by decide) trest]
                rcases ihEL tv (trest.dropWhile isSpaceC) lv lrest hl with hy | ⟨hnil2, hy⟩
                · rw [hy, if_neg (by simp), dropWhile_append_one (by decide) lrest]
                  cases hs3 : lrest.dropWhile isSpaceC with
                  | nil =>
                    rw [hs3] at h
                    injection h with h1 h2 h3
                    cases h2
                    left
                    simp only [List.nil_append, if_true]
                    rw [show lv = v from h1]
                  | cons ch rest3 =>
                    rw [hs3] at h
                    simp only [] at h
                    simp only [List.cons_append]
                    by_cases hch : ch = ')'
                    · rw [if_pos hch] at h ⊢
                      injection h with h1 h2 h3
                      cases h2
                      left
                      rw [h1]
                      rfl
                    · rw [if_neg hch] at h ⊢
                      by_cases hsp : isSpaceC ch = true
                      · rw [if_pos hsp] at h ⊢
                        injection h with h1 h2 h3
                        cases h2
                        left
                        rw [h1]
                        rfl
                      · rw [if_neg hsp] at h
                        injection h with h1 h2 h3
                        exact absurd h3 (by decide)
                · subst hnil2
                  rw [hy, if_neg (by simp)]
                  simp only [List.dropWhile] at h ⊢
                  injection h with h1 h2 h3
                  cases h2
                  right
                  refine ⟨rfl, ?_⟩
                  rw [h1]
              · subst hnil
                rw [hx, if_neg (by simp)]
                simp only [List.dropWhile] at h hl ⊢
                rcases exprLoopF_nil S fuel tv with hn | hn
                · rw [hn] at hl
                  injection hl with g1 g2 g3
                  exact absurd g3.symm (by decide)
                · rw [hn] at hl
                  injection hl with g1 g2 g3
                  cases g2
                  rw [hn, if_neg (by simp)]
                  rw [← g1] at h
                  simp only [List.dropWhile] at h ⊢
                  injection h with h1 h2 h3
                  cases h2
                  right
                  refine ⟨rfl, ?_⟩
                  rw [h1]
            · rw [if_pos (by simpa using hle)] at h
              injection h with h1 h2 h3
              exact absurd h3 hle
        · rw [if_pos (by simpa using hte)] at h
          injection h with h1 h2 h3
          exact absurd h3 hte

/-- Prepending a non-space character preserves trailing-space-freeness. -/
theorem dropTrailingSpaces_cons {ch : Char} (hch : isSpaceC ch = false) {e : List Char}
    (hts : dropTrailingSpaces e = e) : dropTrailingSpaces (ch :: e) = ch :: e := by
  unfold dropTrailingSpaces at hts ⊢
  rw [show (ch :: e).reverse = e.reverse ++ [ch] from List.reverse_cons ch e]
  rw [List.dropWhile_append]
  by_cases h0 : (e.reverse.dropWhile isSpaceC).isEmpty = true
  · rw [if_pos h0]
    have he0 : e = [] := by
      rw [List.isEmpty_iff] at h0
      rw [h0] at hts
      exact hts.symm
    subst he0
    rw [show ([ch] : List Char).dropWhile isSpaceC = [ch] from by
      rw [List.dropWhile]
      rw [hch]]
    rfl
  · rw [if_neg h0, List.reverse_append, hts]
    rfl

/-- Appending a non-space character preserves trailing-space-freeness. -/
theorem dropTrailingSpaces_snoc {x : Char} (hx : isSpaceC x = false) (l : List Char) :
    dropTrailingSpaces (l ++ [x]) = l ++ [x] := by
  unfold dropTrailingSpaces
  rw [List.reverse_append]
  rw [show ([x] : List Char).reverse ++ l.reverse = x :: l.reverse from rfl]
  rw [show (x :: l.reverse).dropWhile isSpaceC = x :: l.reverse from by
    rw [List.dropWhile]
    rw [hx]]
  rw [List.reverse_cons, List.reverse_reverse]

/-- Evaluating a parenthesised expression whose body parse leaves either
nothing or a lone `')'`: the factor returns the body's value with
everything consumed — with or without the closing parenthesis. -/
theorem factor_paren_eval (S : Spreadsheet) (k : ℕ) (e : List Char) (v : ℤ)
    (rst : List Char) (hrst : rst = [] ∨ rst = [')'])
    (hinner : parseExprF S k e = ⟨v, rst, 0⟩) :
    parseFactorF S (k + 1) ('(' :: e) = ⟨v, [], 0⟩ := by
  have hstep : parseFactorF S (k + 1) ('(' :: e) =
      (if (parseExprF S k e).err ≠ 0 then
        ⟨0, (parseExprF S k e).rest, (parseExprF S k e).err⟩
      else ⟨(parseExprF S k e).val,
        if (parseExprF S k e).rest.head? = some ')' then (parseExprF S k e).rest.tail
        else (parseExprF S k e).rest, 0⟩) := rfl
  rw [hstep, hinner]
  rcases hrst with hrst | hrst <;> subst hrst <;> rfl

/-- The term wrapper around `factor_paren_eval`. -/
theorem term_paren_eval (S : Spreadsheet) (k : ℕ) (e : List Char) (v : ℤ)
    (rst : List Char) (hrst : rst = [] ∨ rst = [')'])
    (hinner : parseExprF S k e = ⟨v, rst, 0⟩) :
    parseTermF S (k + 2) ('(' :: e) = ⟨v, [], 0⟩ := by
  have hstep : parseTermF S (k + 2) ('(' :: e) =
      (if (parseFactorF S (k + 1) ('(' :: e)).err ≠ 0 then
        ⟨0, (parseFactorF S (k + 1) ('(' :: e)).rest,
          (parseFactorF S (k + 1) ('(' :: e)).err⟩
      else termLoopF S (k + 1) (parseFactorF S (k + 1) ('(' :: e)).val
        ((parseFactorF S (k + 1) ('(' :: e)).rest.dropWhile isSpaceC)) := rfl
  rw [hstep, factor_paren_eval S k e v rst hrst hinner]
  rfl

/-- The expression wrapper around `term_paren_eval`. -/
theorem expr_paren_eval (S : Spreadsheet) (k : ℕ) (e : List Char) (v : ℤ)
    (rst : List Char) (hrst : rst = [] ∨ rst = [')'])
    (hinner : parseExprF S k e = ⟨v, rst, 0⟩) :
    parseExprF S (k + 3) ('(' :: e) = ⟨v, [], 0⟩ := by
  have hstep : parseExprF S (k + 3) ('(' :: e) =
      (if (parseTermF S (k + 2) ('(' :: e)).err ≠ 0 then parseTermF S (k + 2) ('(' :: e)
      else
        (fun r2 : PRes =>
          if r2.err ≠ 0 then r2
          else
            match r2.rest.dropWhile isSpaceC with
            | [] => ⟨r2.val, r2.rest.dropWhile isSpaceC, 0⟩
            | ch :: _ =>
              if ch = ')' then ⟨r2.val, r2.rest.dropWhile isSpaceC, 0⟩
              else if isSpaceC ch then ⟨r2.val, r2.rest.dropWhile isSpaceC, 0⟩
              else ⟨r2.val, r2.rest.dropWhile isSpaceC, 1⟩)
          (exprLoopF S (k + 2) (parseTermF S (k + 2) ('(' :: e)).val
            ((parseTermF S (k + 2) ('(' :: e)).rest.dropWhile isSpaceC))) := rfl
  rw [hstep, term_paren_eval S k e v rst hrst hinner]
  rfl

set_option maxHeartbeats 1000000 in
/-- Evaluating `SLEEP(` with an argument whose parse leaves nothing or a
lone `')'`: the factor returns the argument's value with everything
consumed — with or without the closing parenthesis. -/
theorem factor_sleep_eval (S : Spreadsheet) (k : ℕ) (e : List Char) (v : ℤ)
    (rst : List Char) (hrst : rst = [] ∨ rst = [')'])
    (hls : e.dropWhile isSpaceC = e)
    (hinner : parseExprF S k e = ⟨v, rst, 0⟩) :
    parseFactorF S (k + 1) ("SLEEP(".toList ++ e) = ⟨v, [], 0⟩ := by
  have hstep : parseFactorF S (k + 1) ("SLEEP(".toList ++ e) =
      (if (parseExprF S k (e.dropWhile isSpaceC)).err ≠ 0 then
        ⟨0, (parseExprF S k (e.dropWhile isSpaceC)).rest,
          (parseExprF S k (e.dropWhile isSpaceC)).err⟩
      else ⟨(parseExprF S k (e.dropWhile isSpaceC)).val,
        if ((parseExprF S k (e.dropWhile isSpaceC)).rest.dropWhile
            isSpaceC).head? = some ')' then
          ((parseExprF S k (e.dropWhile isSpaceC)).rest.dropWhile isSpaceC).tail
        else (parseExprF S k (e.dropWhile isSpaceC)).rest.dropWhile
          isSpaceC, 0⟩) := rfl
  rw [hstep, hls, hinner]
  rcases hrst with hrst | hrst <;> subst hrst <;> rfl

/-- The term wrapper around `factor_sleep_eval`. -/
theorem term_sleep_eval (S : Spreadsheet) (k : ℕ) (e : List Char) (v : ℤ)
    (rst : List Char) (hrst : rst = [] ∨ rst = [')'])
    (hls : e.dropWhile isSpaceC = e)
    (hinner : parseExprF S k e = ⟨v, rst, 0⟩) :
    parseTermF S (k + 2) ("SLEEP(".toList ++ e) = ⟨v, [], 0⟩ := by
  have hstep : parseTermF S (k + 2) ("SLEEP(".toList ++ e) =
      (if (parseFactorF S (k + 1) ("SLEEP(".toList ++ e)).err ≠ 0 then
        ⟨0, (parseFactorF S (k + 1) ("SLEEP(".toList ++ e)).rest,
          (parseFactorF S (k + 1) ("SLEEP(".toList ++ e)).err⟩
      else termLoopF S (k + 1) (parseFactorF S (k + 1) ("SLEEP(".toList ++ e)).val
        ((parseFactorF S (k + 1) ("SLEEP(".toList ++ e)).rest.dropWhile isSpaceC)) := rfl
  rw [hstep, factor_sleep_eval S k e v rst hrst hls hinner]
  rfl

/-- The expression wrapper around `term_sleep_eval`. -/
theorem expr_sleep_eval (S : Spreadsheet) (k : ℕ) (e : List Char) (v : ℤ)
    (rst : List Char) (hrst : rst = [] ∨ rst = [')'])
    (hls : e.dropWhile isSpaceC = e)
    (hinner : parseExprF S k e = ⟨v, rst, 0⟩) :
    parseExprF S (k + 3) ("SLEEP(".toList ++ e) = ⟨v, [], 0⟩ := by
  have hstep : parseExprF S (k + 3) ("SLEEP(".toList ++ e) =
      (if (parseTermF S (k + 2) ("SLEEP(".toList ++ e)).err ≠ 0 then
        parseTermF S (k + 2) ("SLEEP(".toList ++ e)
      else
        (fun r2 : PRes =>
          if r2.err ≠ 0 then r2
          else
            match r2.rest.dropWhile isSpaceC with
            | [] => ⟨r2.val, r2.rest.dropWhile isSpaceC, 0⟩
            | ch :: _ =>
              if ch = ')' then ⟨r2.val, r2.rest.dropWhile isSpaceC, 0⟩
              else if isSpaceC ch then ⟨r2.val, r2.rest.dropWhile isSpaceC, 0⟩
              else ⟨r2.val, r2.rest.dropWhile isSpaceC, 1⟩)
          (exprLoopF S (k + 2) (parseTermF S (k + 2) ("SLEEP(".toList ++ e)).val
            ((parseTermF S (k + 2)
              ("SLEEP(".toList ++ e)).rest.dropWhile isSpaceC))) := rfl
  rw [hstep, term_sleep_eval S k e v rst hrst hls hinner]
  rfl

/-- Evaluation reduces to one parser run when the formula is already
trimmed on both sides. -/
theorem evaluateFormula_eq (S : Spreadsheet) (f : List Char)
    (h1 : f.dropWhile isSpaceC = f) (h2 : dropTrailingSpaces f = f)
    (v : ℤ) (h : parseExprF S (16 * f.length + 64) f = ⟨v, [], 0⟩) :
    evaluateFormula S f = (v, 0) := by
  have hbody : evaluateFormula S f =
      (let r := parseExprF S
        (16 * (dropTrailingSpaces (f.dropWhile isSpaceC)).length + 64)
        (dropTrailingSpaces (f.dropWhile isSpaceC))
       (if r.err = 0 then r.val else 0, r.err)) := rfl
  rw [hbody, h1, h2, h]
  rfl

/-- C10: the evaluator tolerates a missing closing parenthesis.  For an
expression `e` (trimmed of surrounding spaces) that the parser fully
consumes with value `v` at any sufficient fuel, evaluating `'(' ++ e`
with no closing `')'` yields exactly the same value and error state as
`'(' ++ e ++ ')'` (namely `(v, 0)`), and `SLEEP(` followed by `e` with
no closing `')'` behaves the same as the fully parenthesised call; the
unclosed parenthesis never raises a PARSE error. -/
theorem claim_c10_unclosed_paren (S : Spreadsheet) (e : List Char) (v : ℤ)
    (hts : dropTrailingSpaces e = e)
    (hls : e.dropWhile isSpaceC = e)
    (he : ∀ fuel : ℕ, 16 * e.length + 64 ≤ fuel → parseExprF S fuel e = ⟨v, [], 0⟩) :
    evaluateFormula S ('(' :: e) = evaluateFormula S (('(' :: e) ++ [')']) ∧
    evaluateFormula S ('(' :: e) = (v, 0) ∧
    evaluateFormula S ("SLEEP(".toList ++ e) =
      evaluateFormula S (("SLEEP(".toList ++ e) ++ [')']) ∧
    evaluateFormula S ("SLEEP(".toList ++ e) = (v, 0) := by
  have hp1 : dropTrailingSpaces ('(' :: e) = '(' :: e :=
    dropTrailingSpaces_cons (by decide) hts
  have hp2 : dropTrailingSpaces (('(' :: e) ++ [')']) = ('(' :: e) ++ [')'] :=
    dropTrailingSpaces_snoc (by decide) ('(' :: e)
  have hq2 : dropTrailingSpaces ('P' :: '(' :: e) = 'P' :: '(' :: e :=
    dropTrailingSpaces_cons (by decide) hp1
  have hq3 : dropTrailingSpaces ('E' :: 'P' :: '(' :: e) = 'E' :: 'P' :: '(' :: e :=
    dropTrailingSpaces_cons (by decide) hq2
  have hq4 : dropTrailingSpaces ('E' :: 'E' :: 'P' :: '(' :: e) =
      'E' :: 'E' :: 'P' :: '(' :: e :=
    dropTrailingSpaces_cons (by decide) hq3
  have hq5 : dropTrailingSpaces ('L' :: 'E' :: 'E' :: 'P' :: '(' :: e) =
      'L' :: 'E' :: 'E' :: 'P' :: '(' :: e :=
    dropTrailingSpaces_cons (by decide) hq4
  have hq6 : dropTrailingSpaces ('S' :: 'L' :: 'E' :: 'E' :: 'P' :: '(' :: e) =
      'S' :: 'L' :: 'E' :: 'E' :: 'P' :: '(' :: e :=
    dropTrailingSpaces_cons (by decide) hq5
  have hsleepTrim : dropTrailingSpaces ("SLEEP(".toList ++ e) =
      "SLEEP(".toList ++ e := hq6
  have hsleepSnoc : dropTrailingSpaces (("SLEEP(".toList ++ e) ++ [')']) =
      ("SLEEP(".toList ++ e) ++ [')'] :=
    dropTrailingSpaces_snoc (by decide) ("SLEEP(".toList ++ e)
  have hls2 : (e ++ [')']).dropWhile isSpaceC = e ++ [')'] := by
    rw [List.dropWhile_append, hls]
    cases e with
    | nil => rfl
    | cons a t => rfl
  have h6 : ("SLEEP(".toList : List Char).length = 6 := rfl
  have hone : ([')'] : List Char).length = 1 := rfl
  have hfuel1 : 16 * ('(' :: e).length + 64 = 16 * e.length + 77 + 3 := by
    rw [List.length_cons]
    omega
  have hpe1 : parseExprF S (16 * ('(' :: e).length + 64) ('(' :: e) = ⟨v, [], 0⟩ := by
    rw [hfuel1]
    exact expr_paren_eval S (16 * e.length + 77) e v [] (Or.inl rfl)
      (he _ (by omega))
  have hev1 : evaluateFormula S ('(' :: e) = (v, 0) :=
    evaluateFormula_eq S ('(' :: e) rfl hp1 v hpe1
  have hfuel2 : 16 * (('(' :: e) ++ [')']).length + 64 = 16 * e.length + 93 + 3 := by
    rw [List.length_append, List.length_cons, hone]
    omega
  have hpe2 : parseExprF S (16 * (('(' :: e) ++ [')']).length + 64)
      (('(' :: e) ++ [')']) = ⟨v, [], 0⟩ := by
    rw [hfuel2]
    rcases (parse_extend S (16 * e.length + 93)).2.2.2.2 e v []
        (he _ (by omega)) with hc | hc
    · exact expr_paren_eval S (16 * e.length + 93) (e ++ [')']) v [')']
        (Or.inr rfl) hc
    · exact expr_paren_eval S (16 * e.length + 93) (e ++ [')']) v []
        (Or.inl rfl) hc.2
  have hev2 : evaluateFormula S (('(' :: e) ++ [')']) = (v, 0) :=
    evaluateFormula_eq S (('(' :: e) ++ [')']) rfl hp2 v hpe2
  have hfuel3 : 16 * ("SLEEP(".toList ++ e).length + 64 = 16 * e.length + 157 + 3 := by
    rw [List.length_append, h6]
    omega
  have hpe3 : parseExprF S (16 * ("SLEEP(".toList ++ e).length + 64)
      ("SLEEP(".toList ++ e) = ⟨v, [], 0⟩ := by
    rw [hfuel3]
    exact expr_sleep_eval S (16 * e.length + 157) e v [] (Or.inl rfl) hls
      (he _ (by omega))
  have hev3 : evaluateFormula S ("SLEEP(".toList ++ e) = (v, 0) :=
    evaluateFormula_eq S ("SLEEP(".toList ++ e) rfl hsleepTrim v hpe3
  have hfuel4 : 16 * (("SLEEP(".toList ++ e) ++ [')']).length + 64
      = 16 * e.length + 173 + 3 := by
    rw [List.length_append, List.length_append, h6, hone]
    omega
  have hpe4 : parseExprF S (16 * (("SLEEP(".toList ++ e) ++ [')']).length + 64)
      (("SLEEP(".toList ++ e) ++ [')']) = ⟨v, [], 0⟩ := by
    rw [hfuel4]
    rcases (parse_extend S (16 * e.length + 173)).2.2.2.2 e v []
        (he _ (by omega)) with hc | hc
    · exact expr_sleep_eval S (16 * e.length + 173) (e ++ [')']) v [')']
        (Or.inr rfl) hls2 hc
    · exact expr_sleep_eval S (16 * e.length + 173) (e ++ [')']) v []
        (Or.inl rfl) hls2 hc.2
  have hev4 : evaluateFormula S (("SLEEP(".toList ++ e) ++ [')']) = (v, 0) :=
    evaluateFormula_eq S (("SLEEP(".toList ++ e) ++ [')']) rfl hsleepSnoc v hpe4
  exact ⟨hev1.trans hev2.symm, hev1, hev3.trans hev4.symm, hev3⟩

/-- Witness for C10 at the concrete expression `1` on a fresh 1x1 sheet. -/
theorem claim_c10_witness :
    evaluateFormula (createSpreadsheet 1 1) ('(' :: ['1']) =
      evaluateFormula (createSpreadsheet 1 1) (('(' :: ['1']) ++ [')']) ∧
    evaluateFormula (createSpreadsheet 1 1) ('(' :: ['1']) = (1, 0) ∧
    evaluateFormula (createSpreadsheet 1 1) ("SLEEP(".toList ++ ['1']) =
      evaluateFormula (createSpreadsheet 1 1) (("SLEEP(".toList ++ ['1']) ++ [')']) ∧
    evaluateFormula (createSpreadsheet 1 1) ("SLEEP(".toList ++ ['1']) = (1, 0) :=
  claim_c10_unclosed_paren (createSpreadsheet 1 1) ['1'] 1 (by decide) (by decide)
    (fun fuel hf => by
      obtain ⟨k, rfl⟩ := Nat.exists_eq_add_of_le hf
      rw [Nat.add_comm]
      rfl)

end Sheet
